import Mathlib

/-!
# linespeedlb: the activation engine (`lb/activate.go`) and `Listener.Stop` (`model/live.go`)

A shallow embedding of the Go code.  Go pointers are addresses (`Ptr`) into typed stores
of a `Heap`; a nil pointer or nil interface is `none`.  Effects on the outside world
(the activation mutex, goroutine spawns, socket and connection closes, log lines) are
recorded, in order, in a trace of `Event`s.  A nil dereference is the outcome `panicked`.

Pointers to `Frontend`, `ServerPool` and `Config` objects that sit inside a configuration
tree are taken to be non-nil (the tree is fully formed); `Frontend.Listeners`, the entries
of a Listener map, `Listener.Socket` and tracked connections may be nil.
-/

namespace LineSpeedLB

/-- An address in one of the stores of the heap. -/
abbrev Ptr := Nat

/-- Pointwise update of a store. -/
def upd {α : Type} (f : Ptr → α) (p : Ptr) (v : α) : Ptr → α :=
  fun q => if q = p then v else f q

/-- The struct `model.SharedLBState`. -/
structure SharedLBState where
  Requests : Nat
  deriving DecidableEq, Repr

/-- Modelled from the spec: the struct `model.ServerPool`, whose declaration is not in the
excerpt; the two fields `initConfig` assigns (a read/write lock and a `SharedLBState`,
both held by pointer). -/
structure ServerPool where
  LiveServerMutex : Option Ptr
  SharedLBState : Option Ptr
  deriving DecidableEq, Repr

/-- Modelled from the spec: the struct `model.Frontend`, whose declaration is not in the
excerpt; the fields `Activate` reads and writes.  `Type_` is the Go field `Type`;
`ServerPools` is a slice of pool pointers; `Listeners` is the `*map[int]*Listener`. -/
structure Frontend where
  RowID : Nat
  Type_ : String
  ServerPools : List Ptr
  Listeners : Option Ptr
  deriving DecidableEq, Repr

/-- The struct `model.Listener`: the fields `Stop` reads.  `Socket` is an interface value
(`none` is nil); `Connections` is a `map[int][]net.Conn`, listed in iteration order. -/
structure Listener where
  Socket : Option Ptr
  Connections : List (Int × List (Option Ptr))
  deriving DecidableEq, Repr

/-- The stores: one per pointed-to Go type, and the next unallocated address.
`configs c` is the field `Frontends` of the `Config` at `c`; `maps m` is the
`map[int]*Listener` at `m`, listed in iteration order. -/
structure Heap where
  configs : Ptr → List Ptr
  frontends : Ptr → Frontend
  pools : Ptr → ServerPool
  states : Ptr → SharedLBState
  maps : Ptr → List (Int × Option Ptr)
  listeners : Ptr → Listener
  next : Ptr

/-- What the code does to the outside world. -/
inductive Event where
  | lock
  | unlock
  | spawnHealthcheck (frontend : Ptr)
  | addTCPPort (frontend : Ptr)
  | stop (listener : Ptr)
  | socketClose (socket : Ptr)
  | connClose (conn : Ptr)
  | logError (msg : String)
  deriving DecidableEq, Repr

/-- How a call ends: `return nil`, `return errors.New msg`, or a run-time panic. -/
inductive Outcome where
  | ok
  | error (msg : String)
  | panicked
  deriving DecidableEq, Repr

/-- The collaborators the code calls but does not define: `addTCPPort` (its effect on
the heap and the error it returns), and the error returned by closing a socket or a
connection, which may depend on everything done so far. -/
structure Env where
  addTCPPort : Ptr → Heap → Heap × Option String
  socketClose : List Event → Ptr → Option String
  connClose : List Event → Ptr → Option String

/-- Program state: the heap and the trace of events so far, oldest first. -/
structure St where
  heap : Heap
  trace : List Event

/-- Record one event. -/
def St.emit (s : St) (e : Event) : St :=
  { s with trace := s.trace ++ [e] }

/-- The branch `if err != nil { log.Println(err) }`. -/
def St.logIf (s : St) (err : Option String) : St :=
  match err with
  | none => s
  | some msg => s.emit (.logError msg)

/-! ## `model/live.go` -/

/-- The inner loop of `Stop`: `for _, conn := range conns { conn.Close() ... }`. -/
def closeConns (env : Env) : List (Option Ptr) → St → St × Outcome
  | [], s => (s, .ok)
  | none :: _, s => (s, .panicked)
  | some c :: rest, s =>
    closeConns env rest ((s.emit (.connClose c)).logIf (env.connClose s.trace c))

/-- The outer loop of `Stop`: `for _, conns := range listener.Connections`. -/
def closeAllConns (env : Env) : List (Int × List (Option Ptr)) → St → St × Outcome
  | [], s => (s, .ok)
  | kv :: rest, s =>
    match closeConns env kv.2 s with
    | (s1, .ok) => closeAllConns env rest s1
    | r => r

/-- The method `(*Listener).Stop`. -/
def Listener.Stop (env : Env) (listener : Ptr) (s : St) : St × Outcome :=
  let s0 := s.emit (.stop listener)
  match (s0.heap.listeners listener).Socket with
  | none => (s0, .panicked)
  | some sock =>
    let s1 := (s0.emit (.socketClose sock)).logIf (env.socketClose s0.trace sock)
    closeAllConns env (s1.heap.listeners listener).Connections s1

/-! ## `lb/activate.go` -/

/-- The body of `for _, pool := range frontend.ServerPools` in `initConfig`. -/
def initPool (pool : Ptr) (h : Heap) : Heap :=
  let h1 : Heap :=
    { h with pools := upd h.pools pool { h.pools pool with LiveServerMutex := some h.next },
             next := h.next + 1 }
  { h1 with states := upd h1.states h1.next { Requests := 0 },
            pools := upd h1.pools pool { h1.pools pool with SharedLBState := some h1.next },
            next := h1.next + 1 }

/-- The loop `for _, pool := range frontend.ServerPools` in `initConfig`. -/
def initPools : List Ptr → Heap → Heap
  | [], h => h
  | pool :: rest, h => initPools rest (initPool pool h)

/-- The assignment `frontend.Listeners = v`. -/
def setListeners (h : Heap) (frontend : Ptr) (v : Option Ptr) : Heap :=
  { h with frontends := upd h.frontends frontend { h.frontends frontend with Listeners := v } }

/-- The body of the outer loop of `initConfig` for one frontend. -/
def initFrontend (frontend : Ptr) (h : Heap) : Heap :=
  let h1 : Heap :=
    { setListeners h frontend (some h.next) with
      maps := upd h.maps h.next [], next := h.next + 1 }
  initPools (h1.frontends frontend).ServerPools h1

/-- The loop `for _, frontend := range cfg.Frontends` of `initConfig`. -/
def initFrontends : List Ptr → Heap → Heap
  | [], h => h
  | frontend :: rest, h => initFrontends rest (initFrontend frontend h)

/-- The function `initConfig`. -/
def initConfig (cfg : Ptr) (h : Heap) : Heap :=
  initFrontends (h.configs cfg) h

/-- The function `addListener`. -/
def addListener (env : Env) (frontend : Ptr) (s : St) : St × Option String :=
  let s1 := s.emit (.spawnHealthcheck frontend)
  let ty := (s1.heap.frontends frontend).Type_
  if ty = "http" then (s1, none)
  else if ty = "tcp" then
    let r := env.addTCPPort frontend s1.heap
    ({ heap := r.1, trace := s1.trace ++ [.addTCPPort frontend] }, r.2)
  else if ty = "udp" then (s1, none)
  else (s1, some ("Unknown config type: " ++ ty))

/-- First activation, lines 25-30: `addListener` on every frontend, returning the first
error. -/
def startAll (env : Env) : List Ptr → St → St × Outcome
  | [], s => (s, .ok)
  | frontend :: rest, s =>
    match addListener env frontend s with
    | (s1, none) => startAll env rest s1
    | (s1, some msg) => (s1, .error msg)

/-- Lines 42-48: the inner loop that looks for `existing` among `cfg.Frontends`; the
Boolean is `found`. -/
def matchExisting (existing : Ptr) : List Ptr → Heap → Heap × Bool
  | [], h => (h, false)
  | toAdd :: rest, h =>
    if (h.frontends toAdd).RowID = (h.frontends existing).RowID then
      (setListeners h toAdd (h.frontends existing).Listeners, true)
    else matchExisting existing rest h

/-- Lines 40-52: the loop over `activeConfig.Frontends` that carries Listener maps
forward and collects `removedFrontEnds`. -/
def collectRemoved (cfg : Ptr) : List Ptr → Heap → List Ptr → Heap × List Ptr
  | [], h, removed => (h, removed)
  | existing :: rest, h, removed =>
    match matchExisting existing (h.configs cfg) h with
    | (h1, true) => collectRemoved cfg rest h1 removed
    | (h1, false) => collectRemoved cfg rest h1 (removed ++ [existing])

/-- Lines 65-71: the inner loop that looks for `toAdd` among `activeConfig.Frontends`. -/
def matchAdded (toAdd : Ptr) : List Ptr → Heap → Heap × Bool
  | [], h => (h, false)
  | existing :: rest, h =>
    if (h.frontends toAdd).RowID = (h.frontends existing).RowID then
      (setListeners h toAdd (h.frontends existing).Listeners, true)
    else matchAdded toAdd rest h

/-- Lines 55-76: the loop over `cfg.Frontends` that validates the pool count and collects
`addedFrontends`; `Sum.inr msg` is the early `return errors.New(msg)`. -/
def collectAdded (active : Ptr) : List Ptr → Heap → List Ptr → Heap × (List Ptr ⊕ String)
  | [], h, added => (h, .inl added)
  | toAdd :: rest, h, added =>
    if (h.frontends toAdd).Type_ ≠ "http" ∧ (h.frontends toAdd).ServerPools.length > 1 then
      (h, .inr "Cannot have multiple server pools for non-HTTP frontends.")
    else if (h.frontends toAdd).Type_ ≠ "http" ∧ (h.frontends toAdd).ServerPools.length = 0 then
      (h, .inr "Must have a server pool to send traffic to.")
    else
      match matchAdded toAdd (h.configs active) h with
      | (h1, true) => collectAdded active rest h1 added
      | (h1, false) => collectAdded active rest h1 (added ++ [toAdd])

/-- Lines 80-82: `for _, listener := range *fe.Listeners { (*listener).Stop() }` over the
entries of one map. -/
def stopListeners (env : Env) : List (Int × Option Ptr) → St → St × Outcome
  | [], s => (s, .ok)
  | (_, none) :: _, s => (s, .panicked)
  | (_, some l) :: rest, s =>
    match Listener.Stop env l s with
    | (s1, .ok) => stopListeners env rest s1
    | r => r

/-- Lines 79-83: the loop over `removedFrontEnds`. -/
def stopRemoved (env : Env) : List Ptr → St → St × Outcome
  | [], s => (s, .ok)
  | fe :: rest, s =>
    match (s.heap.frontends fe).Listeners with
    | none => (s, .panicked)
    | some m =>
      match stopListeners env (s.heap.maps m) s with
      | (s1, .ok) => stopRemoved env rest s1
      | r => r

/-- Lines 86-88: `addListener` on every added frontend, the returned error dropped. -/
def startAdded (env : Env) : List Ptr → St → St
  | [], s => s
  | fe :: rest, s => startAdded env rest (addListener env fe s).1

/-- The assignment `activeConfig.Frontends = cfg.Frontends`. -/
def installFrontends (h : Heap) (active cfg : Ptr) : Heap :=
  { h with configs := upd h.configs active (h.configs cfg) }

/-- Lines 35-92 of `Activate`: the reload path (`activeConfig != nil`). -/
def reload (env : Env) (active cfg : Ptr) (s : St) : St × Outcome :=
  match collectRemoved cfg (s.heap.configs active) s.heap [] with
  | (h1, removed) =>
    match collectAdded active (h1.configs cfg) h1 [] with
    | (h2, .inr msg) => ({ s with heap := h2 }, .error msg)
    | (h2, .inl added) =>
      match stopRemoved env removed { s with heap := h2 } with
      | (s3, .ok) =>
        let s4 := startAdded env added s3
        ({ s4 with heap := installFrontends s4.heap active cfg }, .ok)
      | r => r

/-- The result of `Activate`: the state it leaves, how it ended, and the final value of
its own parameter variable `activeConfig` (a local of the callee). -/
structure Result where
  st : St
  outcome : Outcome
  activeConfig : Option Ptr

/-- The function `Activate`.  The deferred `Unlock` runs on every exit, a panic included. -/
def Activate (env : Env) (activeConfig : Option Ptr) (cfg : Ptr) (s : St) : Result :=
  let s0 := s.emit .lock
  let s1 : St := { s0 with heap := initConfig cfg s0.heap }
  match activeConfig with
  | none =>
    match startAll env (s1.heap.configs cfg) s1 with
    | (s2, .ok) => { st := s2.emit .unlock, outcome := .ok, activeConfig := some cfg }
    | (s2, o) => { st := s2.emit .unlock, outcome := o, activeConfig := none }
  | some active =>
    match reload env active cfg s1 with
    | (s2, o) => { st := s2.emit .unlock, outcome := o, activeConfig := some active }

/-! ## Projections of a trace -/

/-- The listeners on which `Stop` was invoked, in order. -/
def stopsOf (evs : List Event) : List Ptr :=
  evs.filterMap fun e => match e with
    | .stop l => some l
    | _ => none

/-- The frontends for which a health-check loop was spawned, that is, on which
`addListener` was invoked, in order. -/
def spawnsOf (evs : List Event) : List Ptr :=
  evs.filterMap fun e => match e with
    | .spawnHealthcheck f => some f
    | _ => none

/-- The sockets and connections on which a close was issued, in order. -/
def closesOf (evs : List Event) : List Ptr :=
  evs.filterMap fun e => match e with
    | .socketClose p => some p
    | .connClose p => some p
    | _ => none

/-- The calls on the activation mutex (`Lock` and `Unlock`), in order. -/
def locksOf (evs : List Event) : List Event :=
  evs.filter fun e => match e with
    | .lock => true
    | .unlock => true
    | _ => false

/-! ## Predicates on configurations -/

/-- The `RowID`s of a sequence of frontends. -/
def rowIDs (h : Heap) (fes : List Ptr) : List Nat :=
  fes.map fun f => (h.frontends f).RowID

/-- The first frontend of a sequence with a given `RowID`. -/
def firstWithRowID (h : Heap) (id : Nat) (fes : List Ptr) : Option Ptr :=
  fes.find? fun f => decide ((h.frontends f).RowID = id)

/-- The frontends of `active` whose `RowID` is the `RowID` of no frontend of `cfg`,
in `active`'s order. -/
def removedOf (h : Heap) (active cfg : Ptr) : List Ptr :=
  (h.configs active).filter fun e =>
    decide ((h.frontends e).RowID ∉ rowIDs h (h.configs cfg))

/-- The frontends of `cfg` whose `RowID` is the `RowID` of no frontend of `active`,
in `cfg`'s order. -/
def addedOf (h : Heap) (active cfg : Ptr) : List Ptr :=
  (h.configs cfg).filter fun d =>
    decide ((h.frontends d).RowID ∉ rowIDs h (h.configs active))

/-- The listener pointers held (non-nil) in the Listener map of a frontend, in
iteration order; none when the frontend's `Listeners` is nil. -/
def listenersOf (h : Heap) (fe : Ptr) : List Ptr :=
  match (h.frontends fe).Listeners with
  | none => []
  | some m => (h.maps m).filterMap fun kv => kv.2

/-- The pool-count rule of lines 56-61 fails at this frontend. -/
def BadPools (f : Frontend) : Prop :=
  f.Type_ ≠ "http" ∧ f.ServerPools.length ≠ 1

instance (f : Frontend) : Decidable (BadPools f) := by
  unfold BadPools; infer_instance

/-- The message of the pool-count rule for an offending frontend. -/
def poolsMessage (f : Frontend) : String :=
  if f.ServerPools.length > 1 then "Cannot have multiple server pools for non-HTTP frontends."
  else "Must have a server pool to send traffic to."

/-- Every frontend of the sequence satisfies the pool-count rule. -/
def PoolsValid (h : Heap) (fes : List Ptr) : Prop :=
  ∀ f ∈ fes, ¬ BadPools (h.frontends f)

instance (h : Heap) (fes : List Ptr) : Decidable (PoolsValid h fes) := by
  unfold PoolsValid; infer_instance

/-- A listener that `Stop` can run on: its socket and every tracked connection are
non-nil. -/
def ListenerReady (h : Heap) (l : Ptr) : Prop :=
  (h.listeners l).Socket.isSome = true ∧
    ∀ kv ∈ (h.listeners l).Connections, ∀ c ∈ kv.2, c.isSome = true

instance (h : Heap) (l : Ptr) : Decidable (ListenerReady h l) := by
  unfold ListenerReady; infer_instance

/-- An entry of a Listener map that is a non-nil listener that `Stop` can run on. -/
def EntryReady (h : Heap) (v : Option Ptr) : Prop :=
  match v with
  | none => False
  | some l => ListenerReady h l

instance (h : Heap) (v : Option Ptr) : Decidable (EntryReady h v) :=
  match v with
  | none => isFalse id
  | some l => inferInstanceAs (Decidable (ListenerReady h l))

/-- Every entry of a Listener map is a non-nil listener that `Stop` can run on. -/
def EntriesReady (h : Heap) (entries : List (Int × Option Ptr)) : Prop :=
  ∀ kv ∈ entries, EntryReady h kv.2

instance (h : Heap) (entries : List (Int × Option Ptr)) : Decidable (EntriesReady h entries) := by
  unfold EntriesReady; infer_instance

/-- A frontend whose Listener map is non-nil and holds only non-nil listeners that `Stop`
can run on. -/
def StopReady (h : Heap) (fe : Ptr) : Prop :=
  match (h.frontends fe).Listeners with
  | none => False
  | some m => EntriesReady h (h.maps m)

instance (h : Heap) (fe : Ptr) : Decidable (StopReady h fe) :=
  show Decidable (match (h.frontends fe).Listeners with
    | none => False
    | some m => EntriesReady h (h.maps m)) from
  match (h.frontends fe).Listeners with
  | none => isFalse id
  | some m => inferInstanceAs (Decidable (EntriesReady h (h.maps m)))

/-- The Listener map of the frontend, if any, was allocated before (its address is below
the next free one). -/
def MapAllocated (h : Heap) (fe : Ptr) : Prop :=
  ∀ m, (h.frontends fe).Listeners = some m → m < h.next

instance (h : Heap) (fe : Ptr) : Decidable (MapAllocated h fe) :=
  match hl : (h.frontends fe).Listeners with
  | none => isTrue (by intro m hm; rw [hl] at hm; cases hm)
  | some m =>
    if hlt : m < h.next then isTrue (by intro m' hm; rw [hl] at hm; cases hm; exact hlt)
    else isFalse (fun hall => hlt (hall m hl))

/-- A frontend whose Listener map is non-nil, allocated, and holds only non-nil listeners
that `Stop` can run on. -/
def FrontendReady (h : Heap) (fe : Ptr) : Prop :=
  StopReady h fe ∧ MapAllocated h fe

instance (h : Heap) (fe : Ptr) : Decidable (FrontendReady h fe) := by
  unfold FrontendReady; infer_instance

/-- The part of the heap that initialisation never touches: the configurations, the
listeners, the authored fields of every frontend, and every map and state allocated
before. -/
structure InitFrame (h h' : Heap) : Prop where
  configs : h'.configs = h.configs
  listeners : h'.listeners = h.listeners
  next_le : h.next ≤ h'.next
  rowID : ∀ p, (h'.frontends p).RowID = (h.frontends p).RowID
  type_ : ∀ p, (h'.frontends p).Type_ = (h.frontends p).Type_
  serverPools : ∀ p, (h'.frontends p).ServerPools = (h.frontends p).ServerPools
  maps_old : ∀ m, m < h.next → h'.maps m = h.maps m
  states_old : ∀ m, m < h.next → h'.states m = h.states m

/-! ## Frames, invariants and phases used in the proofs -/

/-- The matching loops write the field `Listeners` of frontends and nothing else. -/
structure MatchFrame (h h' : Heap) : Prop where
  configs : h'.configs = h.configs
  pools : h'.pools = h.pools
  states : h'.states = h.states
  maps : h'.maps = h.maps
  listeners : h'.listeners = h.listeners
  next : h'.next = h.next
  rowID : ∀ p, (h'.frontends p).RowID = (h.frontends p).RowID
  type_ : ∀ p, (h'.frontends p).Type_ = (h.frontends p).Type_
  serverPools : ∀ p, (h'.frontends p).ServerPools = (h.frontends p).ServerPools

/-- The first frontend of a sequence at which the pool-count rule fails. -/
def firstBad (h : Heap) (fes : List Ptr) : Option Ptr :=
  fes.find? fun f => decide (BadPools (h.frontends f))

/-- A close of a socket or connection, or a log line. -/
def Event.isCloseOrLog : Event → Bool
  | .socketClose _ => true
  | .connClose _ => true
  | .logError _ => true
  | _ => false

/-- What a run of the stop code does: the heap is untouched, the trace grows by closes
and log lines only, the run never returns an error, and it returns normally when nothing
it dereferences is nil. -/
structure CloseRun (s : St) (r : St × Outcome) (ready : Prop) : Prop where
  heap : r.1.heap = s.heap
  trace : ∃ evs, r.1.trace = s.trace ++ evs ∧ ∀ e ∈ evs, e.isCloseOrLog = true
  no_error : ∀ msg, r.2 ≠ .error msg
  ok_of_ready : ready → r.2 = .ok

/-- An event of the stop phase: a `Stop` call, a close, or a log line. -/
def Event.isStopPhase : Event → Bool
  | .stop _ => true
  | .socketClose _ => true
  | .connClose _ => true
  | .logError _ => true
  | _ => false

/-- What a run of the stop loops does: the heap is untouched; the trace grows by
stop-phase events only; `Stop` is invoked on an initial part of the expected listeners,
on all of them when the run returns normally; the run never returns an error, and it
returns normally when nothing it dereferences is nil. -/
structure StopRun (s : St) (r : St × Outcome) (expected : List Ptr) (ready : Prop) :
    Prop where
  heap : r.1.heap = s.heap
  trace : ∃ evs, r.1.trace = s.trace ++ evs ∧ (∀ e ∈ evs, e.isStopPhase = true) ∧
    stopsOf evs <+: expected ∧ (r.2 = .ok → stopsOf evs = expected)
  no_error : ∀ msg, r.2 ≠ .error msg
  ok_of_ready : ready → r.2 = .ok

/-- An event of the start phase: a health-check spawn or a call of `addTCPPort`. -/
def Event.isStartPhase : Event → Bool
  | .spawnHealthcheck _ => true
  | .addTCPPort _ => true
  | _ => false

/-- The heap that the two matching loops of the reload path leave. -/
def matchedHeap (active cfg : Ptr) (h : Heap) : Heap :=
  let h1 := (collectRemoved cfg (h.configs active) h []).1
  (collectAdded active (h1.configs cfg) h1 []).1

/-- The state after `Lock` and `initConfig`, on which either path of `Activate` runs. -/
def entryState (cfg : Ptr) (s : St) : St :=
  { heap := initConfig cfg s.heap, trace := s.trace ++ [.lock] }

/-- The heap on which the stop phase of a reload runs: after `initConfig` and the two
matching loops. -/
def stopHeap (active cfg : Ptr) (h : Heap) : Heap :=
  matchedHeap active cfg (initConfig cfg h)

/-- The state in and the result of the stop phase of a reload. -/
def stopPhase (env : Env) (active cfg : Ptr) (s : St) : St × Outcome :=
  stopRemoved env (removedOf s.heap active cfg)
    { heap := stopHeap active cfg s.heap, trace := s.trace ++ [.lock] }

/-- The state after the start phase of a reload whose stop phase returned normally. -/
def startPhase (env : Env) (active cfg : Ptr) (s : St) : St :=
  startAdded env (addedOf s.heap active cfg) (stopPhase env active cfg s).1

/-- What is assumed of the absent `addTCPPort` where a claim depends on it: it leaves the
configurations, the frontend objects, the pools and their states alone, and writes to no
Listener map other than the one of the frontend it is given. -/
structure Env.Framed (env : Env) : Prop where
  configs : ∀ fe h, (env.addTCPPort fe h).1.configs = h.configs
  frontends : ∀ fe h, (env.addTCPPort fe h).1.frontends = h.frontends
  pools : ∀ fe h, (env.addTCPPort fe h).1.pools = h.pools
  states : ∀ fe h, (env.addTCPPort fe h).1.states = h.states
  maps : ∀ fe h m, (h.frontends fe).Listeners ≠ some m →
    (env.addTCPPort fe h).1.maps m = h.maps m

/-- No listener is held by two frontends of the configuration that differ in `RowID`. -/
def ListenersOwned (h : Heap) (cfg : Ptr) : Prop :=
  ∀ e ∈ h.configs cfg, ∀ r ∈ h.configs cfg,
    (h.frontends e).RowID ≠ (h.frontends r).RowID →
      ∀ l ∈ listenersOf h e, l ∉ listenersOf h r

instance (h : Heap) (cfg : Ptr) : Decidable (ListenersOwned h cfg) := by
  unfold ListenersOwned; infer_instance

/-- The state after `addListener` has been invoked on each frontend of a sequence in
turn, whatever the calls returned. -/
def afterCalls (env : Env) : List Ptr → St → St
  | [], s => s
  | fe :: rest, s => afterCalls env rest (addListener env fe s).1

/-- The frontends on which `addTCPPort` was called, in order. -/
def portsOf (evs : List Event) : List Ptr :=
  evs.filterMap fun e => match e with
    | .addTCPPort f => some f
    | _ => none

/-- Every call of `addListener` on the sequence, made in turn, succeeds. -/
def allSucceed (env : Env) : List Ptr → St → Bool
  | [], _ => true
  | fe :: rest, s =>
    (addListener env fe s).2.isNone && allSucceed env rest (addListener env fe s).1

/-- A caller that holds the active configuration in its own variable and executes
`err := Activate(active, cfg)`.  Go passes the pointer `active` by value: the assignment
`activeConfig = cfg` of line 31 writes the parameter of the callee, and the variable of
the caller keeps its value.  The first component is the caller's variable afterwards. -/
def callActivate (env : Env) (active : Option Ptr) (cfg : Ptr) (s : St) : Option Ptr × Result :=
  (active, Activate env active cfg s)

/-- The frontend holds a Listener map allocated at or after address `lo`, and the map is
empty. -/
def MapInit (lo : Ptr) (h : Heap) (f : Ptr) : Prop :=
  ∃ m, (h.frontends f).Listeners = some m ∧ lo ≤ m ∧ m < h.next ∧ h.maps m = []

/-- The pool holds a lock and a `SharedLBState` allocated at or after address `lo`, and
the state has `Requests = 0`. -/
def PoolInit (lo : Ptr) (h : Heap) (p : Ptr) : Prop :=
  ∃ mu st, (h.pools p).LiveServerMutex = some mu ∧ lo ≤ mu ∧ mu < h.next ∧
    (h.pools p).SharedLBState = some st ∧ lo ≤ st ∧ st < h.next ∧
    h.states st = { Requests := 0 }

/-- The invariant of the outer loop of `initConfig`: every frontend done so far holds its
own empty map, and every pool of such a frontend is initialised. -/
structure InitDone (lo : Ptr) (h : Heap) (done : List Ptr) : Prop where
  lo_le : lo ≤ h.next
  maps : ∀ f ∈ done, MapInit lo h f
  distinct : ∀ f ∈ done, ∀ g ∈ done, f ≠ g →
    (h.frontends f).Listeners ≠ (h.frontends g).Listeners
  pools : ∀ f ∈ done, ∀ p ∈ (h.frontends f).ServerPools, PoolInit lo h p

/-- The connections tracked by a listener (every connection under every key, nil entries
left out), in iteration order. -/
def connsOf (h : Heap) (l : Ptr) : List Ptr :=
  ((h.listeners l).Connections.flatMap fun kv => kv.2).filterMap id

/-- The sockets on which a close was issued, in order. -/
def socketClosesOf (evs : List Event) : List Ptr :=
  evs.filterMap fun e => match e with
    | .socketClose p => some p
    | _ => none

/-- Whether the activation mutex is held after a sequence of events that starts with the
mutex free. -/
def lockHeld (evs : List Event) : Bool :=
  evs.foldl (fun held e => match e with
    | .lock => true
    | .unlock => false
    | _ => held) false

/-- An entry of a Listener map that is a non-nil listener with a non-nil socket. -/
def EntryBound (h : Heap) (v : Option Ptr) : Prop :=
  match v with
  | none => False
  | some l => (h.listeners l).Socket.isSome = true

instance (h : Heap) (v : Option Ptr) : Decidable (EntryBound h v) :=
  match v with
  | none => isFalse id
  | some l => inferInstanceAs (Decidable ((h.listeners l).Socket.isSome = true))

/-- A frontend whose Listener map is non-nil and whose entries are non-nil listeners with
a non-nil socket (nothing is asked of the tracked connections). -/
def MapBound (h : Heap) (fe : Ptr) : Prop :=
  match (h.frontends fe).Listeners with
  | none => False
  | some m => ∀ kv ∈ h.maps m, EntryBound h kv.2

instance (h : Heap) (fe : Ptr) : Decidable (MapBound h fe) :=
  show Decidable (match (h.frontends fe).Listeners with
    | none => False
    | some m => ∀ kv ∈ h.maps m, EntryBound h kv.2) from
  match (h.frontends fe).Listeners with
  | none => isFalse id
  | some m => inferInstanceAs (Decidable (∀ kv ∈ h.maps m, EntryBound h kv.2))

/-! ## `parsePorts` (`lb/activate.go`, lines 137-148) -/

/-- The result of `strings.Split(s, ",")` (Go standard library): the parts of `s` around
each comma, in order; `n` commas give `n + 1` parts and the empty string gives one
empty part. -/
def splitComma : List Char → List (List Char)
  | [] => [[]]
  | c :: cs =>
    if c = ',' then [] :: splitComma cs
    else
      match splitComma cs with
      | [] => [[c]]
      | p :: ps => (c :: p) :: ps

/-- The two errors of `strconv.Atoi`: `ErrSyntax` and `ErrRange`. -/
inductive AtoiErr where
  | invalidSyntax
  | outOfRange
  deriving DecidableEq, Repr

/-- The error value `*strconv.NumError`: the failing function, its input, the reason. -/
structure NumError where
  Func : String
  Num : List Char
  Err : AtoiErr
  deriving DecidableEq, Repr

/-- The value of the byte `c` as a decimal digit, if it is one (`'0' <= c <= '9'`). -/
def digitValue (c : Char) : Option Nat :=
  if 48 ≤ c.toNat ∧ c.toNat ≤ 57 then some (c.toNat - 48) else none

/-- The digit loop of `strconv.ParseUint` in base 10 for `w`-bit integers, `n` being the
value read so far: a byte that is no digit is a syntax error, a value above `2^w - 1` a
range error. -/
def parseUint (w : Nat) : List Char → Nat → Except AtoiErr Nat
  | [], n => .ok n
  | c :: cs, n =>
    match digitValue c with
    | none => .error .invalidSyntax
    | some d =>
      if n * 10 + d > 2 ^ w - 1 then .error .outOfRange
      else parseUint w cs (n * 10 + d)

/-- The part of `strconv.Atoi` after the sign, for the input `s`: `digits` must be one or
more decimal digits, and the signed value must be within the range of an `int` of `w`
bits. -/
def atoiSigned (w : Nat) (s : List Char) (neg : Bool) (digits : List Char) :
    Except NumError Int :=
  if digits = [] then .error { Func := "Atoi", Num := s, Err := .invalidSyntax }
  else
    match parseUint w digits 0 with
    | .error e => .error { Func := "Atoi", Num := s, Err := e }
    | .ok un =>
      if neg then
        if un > 2 ^ (w - 1) then .error { Func := "Atoi", Num := s, Err := .outOfRange }
        else .ok (-(un : Int))
      else
        if un ≥ 2 ^ (w - 1) then .error { Func := "Atoi", Num := s, Err := .outOfRange }
        else .ok (un : Int)

/-- The function `strconv.Atoi` (Go standard library) for an `int` of `w` bits: an
optional sign, then at least one decimal digit, the value within the range of `int`. -/
def Atoi (w : Nat) (s : List Char) : Except NumError Int :=
  match s with
  | [] => .error { Func := "Atoi", Num := s, Err := .invalidSyntax }
  | c :: rest =>
    if c = '+' then atoiSigned w s false rest
    else if c = '-' then atoiSigned w s true rest
    else atoiSigned w s false (c :: rest)

/-- The loop of `parsePorts` over the parts, `ports` being the slice built so far: the
first part that `Atoi` rejects ends the call with a nil slice and that error. -/
def parseParts (w : Nat) : List (List Char) → List Int → Option (List Int) × Option NumError
  | [], ports => (some ports, none)
  | part :: rest, ports =>
    match Atoi w part with
    | .error err => (none, some err)
    | .ok port => parseParts w rest (ports ++ [port])

/-- The function `parsePorts`, for an `int` of `w` bits: the returned slice (`none` is
nil) and the returned error (`none` is nil). -/
def parsePorts (w : Nat) (portString : String) : Option (List Int) × Option NumError :=
  parseParts w (splitComma portString.data) []

/-- The value of a sequence of decimal digits, most significant first. -/
def decimalValue (digits : List Char) : Nat :=
  digits.foldl (fun n c => n * 10 + (c.toNat - 48)) 0

/-- The string `s` is a decimal numeral of the integer `n`, an `int` of `w` bits: an
optional sign `+` or `-`, then one or more of the digits `0` to `9`, of value `n`, with
`-2^(w-1) ≤ n < 2^(w-1)`. -/
def IsNumeral (w : Nat) (s : List Char) (n : Int) : Prop :=
  ∃ sign digits, s = sign ++ digits ∧ (sign = [] ∨ sign = ['+'] ∨ sign = ['-']) ∧
    digits ≠ [] ∧ (∀ c ∈ digits, 48 ≤ c.toNat ∧ c.toNat ≤ 57) ∧
    n = (if sign = ['-'] then -(decimalValue digits : Int) else (decimalValue digits : Int)) ∧
    -(2 ^ (w - 1) : Int) ≤ n ∧ n < 2 ^ (w - 1)

/-- The character of a decimal digit. -/
def digitChar (d : Nat) : Char := Char.ofNat (48 + d)

/-- The decimal rendering of a natural number, without leading zeros. -/
def decimal (n : Nat) : List Char :=
  if n = 0 then ['0'] else (Nat.digits 10 n).reverse.map digitChar

/-- The decimal rendering of an integer (`strconv.Itoa`): a `-` for a negative number,
then the digits. -/
def Itoa (n : Int) : List Char :=
  if n < 0 then '-' :: decimal n.natAbs else decimal n.toNat

/-- The strings joined by `,` (`strings.Join(parts, ",")`). -/
def joinComma : List (List Char) → List Char
  | [] => []
  | [p] => p
  | p :: q :: rest => p ++ ',' :: joinComma (q :: rest)

/-! ## The HTTP collaborator (`listeners`, known from `http_test.go`) -/

/-- Modelled from the spec: the state that `AddHTTPPort`, `RemoveHTTPPort` and an HTTP
client on the same host share, namely the ports on which the HTTP collaborator is
serving; the functions themselves are not in the excerpt, only their test. -/
structure HTTPState where
  serving : List Nat
  deriving DecidableEq, Repr

/-- Modelled from the spec: `AddHTTPPort(port) -> error` of the HTTP collaborator, absent
from the excerpt: it starts serving on a free port and returns an error on a port that is
already bound. -/
def AddHTTPPort (port : Nat) (st : HTTPState) : HTTPState × Option String :=
  if port ∈ st.serving then (st, some "listen tcp: address already in use")
  else ({ serving := port :: st.serving }, none)

/-- Modelled from the spec: `RemoveHTTPPort(port) -> error` of the HTTP collaborator,
absent from the excerpt: it stops serving on the port and returns an error when nothing
is served there. -/
def RemoveHTTPPort (port : Nat) (st : HTTPState) : HTTPState × Option String :=
  if port ∈ st.serving then ({ serving := st.serving.filter fun p => p ≠ port }, none)
  else (st, some "no listener on port")

/-- Modelled from the spec: `http.Get("http://localhost:" + port)` as the test observes
it: status 200 with body "OK" from a served port, a connection error otherwise. -/
def httpGet (st : HTTPState) (port : Nat) : Except String (Nat × String) :=
  if port ∈ st.serving then .ok (200, "OK") else .error "connection refused"

/-! ## Concrete configurations -/

/-- A heap given by finite tables; an address beyond a table reads a default value. -/
def tableHeap (configs : List (List Ptr)) (frontends : List Frontend)
    (maps : List (List (Int × Option Ptr))) (listeners : List Listener) (next : Ptr) : Heap where
  configs c := configs.getD c []
  frontends p := frontends.getD p { RowID := 0, Type_ := "", ServerPools := [], Listeners := none }
  pools _ := { LiveServerMutex := none, SharedLBState := none }
  states _ := { Requests := 0 }
  maps m := maps.getD m []
  listeners l := listeners.getD l { Socket := none, Connections := [] }
  next := next

/-- Collaborators that never fail and leave the heap alone. -/
def quietEnv : Env where
  addTCPPort _ h := (h, none)
  socketClose _ _ := none
  connClose _ _ := none

/-- An empty active configuration (0) and a desired configuration (1) of two tcp
frontends, the first with two server pools, the second with none. -/
def twoBadHeap : Heap :=
  tableHeap [[], [0, 1]]
    [{ RowID := 1, Type_ := "tcp", ServerPools := [0, 1], Listeners := none },
     { RowID := 2, Type_ := "tcp", ServerPools := [], Listeners := none }] [] [] 0

/-- An empty active configuration (0) and a desired configuration (1) of one http
frontend with two server pools. -/
def httpTwoPoolsHeap : Heap :=
  tableHeap [[], [0]]
    [{ RowID := 1, Type_ := "http", ServerPools := [0, 1], Listeners := none }] [] [] 0

/-- Collaborators whose `addTCPPort` always fails, leaving the heap alone. -/
def failingEnv : Env where
  addTCPPort _ h := (h, some "listen tcp: address already in use")
  socketClose _ _ := some "use of closed network connection"
  connClose _ _ := none

/-- An active configuration (0) of two tcp frontends with `RowID` 10 and 11, holding one
and two started listeners, and a desired configuration (1) of three frontends: `RowID` 10
(tcp), 12 (tcp) and 13 (http, two pools). -/
def reloadHeap : Heap :=
  tableHeap [[0, 1], [2, 3, 4]]
    [{ RowID := 10, Type_ := "tcp", ServerPools := [0], Listeners := some 0 },
     { RowID := 11, Type_ := "tcp", ServerPools := [1], Listeners := some 1 },
     { RowID := 10, Type_ := "tcp", ServerPools := [2], Listeners := none },
     { RowID := 12, Type_ := "tcp", ServerPools := [3], Listeners := none },
     { RowID := 13, Type_ := "http", ServerPools := [4, 5], Listeners := none }]
    [[(80, some 0)], [(81, some 1), (82, some 2)]]
    [{ Socket := some 100, Connections := [(1, [some 200])] },
     { Socket := some 101, Connections := [] },
     { Socket := some 102, Connections := [(1, [some 201, some 202])] }]
    10

/-- A desired configuration (0) of an http, a tcp and a udp frontend, in this order. -/
def firstHeap : Heap :=
  tableHeap [[0, 1, 2]]
    [{ RowID := 1, Type_ := "http", ServerPools := [0, 1], Listeners := none },
     { RowID := 2, Type_ := "tcp", ServerPools := [2], Listeners := none },
     { RowID := 3, Type_ := "udp", ServerPools := [3], Listeners := none }] [] [] 0

/-- An empty active configuration (0) and a desired configuration (1) of one frontend of
type "quic" with one server pool. -/
def unknownTypeHeap : Heap :=
  tableHeap [[], [0]]
    [{ RowID := 1, Type_ := "quic", ServerPools := [0], Listeners := none }] [] [] 0

/-- A heap whose pools carry request counters of 7: an active configuration (0) of one
http frontend and a desired configuration (1) of one http frontend with two pools. -/
def countersHeap : Heap :=
  { tableHeap [[0], [1]]
      [{ RowID := 1, Type_ := "http", ServerPools := [0], Listeners := some 0 },
       { RowID := 1, Type_ := "http", ServerPools := [1, 2], Listeners := none }]
      [[]] [] 5 with
    pools := fun _ => { LiveServerMutex := some 1, SharedLBState := some 2 }
    states := fun _ => { Requests := 7 } }

/-- Collaborators every one of whose calls fails. -/
def erringEnv : Env where
  addTCPPort _ h := (h, some "listen tcp: address already in use")
  socketClose _ _ := some "use of closed network connection"
  connClose _ _ := some "use of closed network connection"

/-- An active configuration (0) of one tcp frontend whose only listener has a socket and
tracks one connection that is nil, and a desired configuration (1) without frontends. -/
def nilConnHeap : Heap :=
  tableHeap [[0], []]
    [{ RowID := 10, Type_ := "tcp", ServerPools := [0], Listeners := some 0 }]
    [[(80, some 0)]]
    [{ Socket := some 100, Connections := [(1, [none])] }]
    10

/-- An empty active configuration (0) and a desired configuration (1) of one http
frontend without server pools and one tcp frontend with one pool. -/
def httpNoPoolHeap : Heap :=
  tableHeap [[], [0, 1]]
    [{ RowID := 1, Type_ := "http", ServerPools := [], Listeners := none },
     { RowID := 2, Type_ := "tcp", ServerPools := [0], Listeners := none }] [] [] 0

/-! ## What `initConfig` leaves alone -/

theorem InitFrame.init_refl (h : Heap) : InitFrame h h :=
  ⟨rfl, rfl, le_rfl, fun _ => rfl, fun _ => rfl, fun _ => rfl, fun _ _ => rfl, fun _ _ => rfl⟩

theorem InitFrame.init_trans {a b c : Heap} (hab : InitFrame a b) (hbc : InitFrame b c) :
    InitFrame a c where
  configs := hbc.configs.trans hab.configs
  listeners := hbc.listeners.trans hab.listeners
  next_le := le_trans hab.next_le hbc.next_le
  rowID p := (hbc.rowID p).trans (hab.rowID p)
  type_ p := (hbc.type_ p).trans (hab.type_ p)
  serverPools p := (hbc.serverPools p).trans (hab.serverPools p)
  maps_old m hm := (hbc.maps_old m (lt_of_lt_of_le hm hab.next_le)).trans (hab.maps_old m hm)
  states_old m hm :=
    (hbc.states_old m (lt_of_lt_of_le hm hab.next_le)).trans (hab.states_old m hm)

theorem upd_same {α : Type} (f : Ptr → α) (p : Ptr) (v : α) : upd f p v p = v := by
  simp [upd]

theorem upd_other {α : Type} (f : Ptr → α) (p q : Ptr) (v : α) (hq : q ≠ p) :
    upd f p v q = f q := by
  simp [upd, hq]

theorem initPool_frame (pool : Ptr) (h : Heap) : InitFrame h (initPool pool h) where
  configs := rfl
  listeners := rfl
  next_le := by show h.next ≤ h.next + 1 + 1; exact Nat.le_add_right_of_le (Nat.le_add_right _ _)
  rowID _ := rfl
  type_ _ := rfl
  serverPools _ := rfl
  maps_old _ _ := rfl
  states_old m hm := by
    have : m ≠ h.next + 1 := Nat.ne_of_lt (Nat.lt_succ_of_lt hm)
    simp [initPool, upd, this]

theorem initPool_frontends (pool : Ptr) (h : Heap) :
    (initPool pool h).frontends = h.frontends := rfl

theorem initPool_maps (pool : Ptr) (h : Heap) : (initPool pool h).maps = h.maps := rfl

theorem initPool_next (pool : Ptr) (h : Heap) : (initPool pool h).next = h.next + 2 := rfl

theorem initPools_frame (ps : List Ptr) (h : Heap) : InitFrame h (initPools ps h) := by
  induction ps generalizing h with
  | nil => exact InitFrame.init_refl h
  | cons p ps ih => exact (initPool_frame p h).init_trans (ih _)

theorem initPools_frontends (ps : List Ptr) (h : Heap) :
    (initPools ps h).frontends = h.frontends := by
  induction ps generalizing h with
  | nil => rfl
  | cons p ps ih => simp [initPools, ih, initPool_frontends]

theorem initPools_maps (ps : List Ptr) (h : Heap) : (initPools ps h).maps = h.maps := by
  induction ps generalizing h with
  | nil => rfl
  | cons p ps ih => simp [initPools, ih, initPool_maps]

theorem initFrontend_frame (fe : Ptr) (h : Heap) : InitFrame h (initFrontend fe h) := by
  refine InitFrame.init_trans ?_ (initPools_frame _ _)
  refine ⟨rfl, rfl, by simp, ?_, ?_, ?_, ?_, fun _ _ => rfl⟩
  · intro p; by_cases hp : p = fe <;> simp [setListeners, upd, hp]
  · intro p; by_cases hp : p = fe <;> simp [setListeners, upd, hp]
  · intro p; by_cases hp : p = fe <;> simp [setListeners, upd, hp]
  · intro m hm
    have : m ≠ h.next := Nat.ne_of_lt hm
    simp [setListeners, upd, this]

theorem initFrontends_frame (fes : List Ptr) (h : Heap) :
    InitFrame h (initFrontends fes h) := by
  induction fes generalizing h with
  | nil => exact InitFrame.init_refl h
  | cons f fes ih => exact (initFrontend_frame f h).init_trans (ih _)

theorem initConfig_frame (cfg : Ptr) (h : Heap) : InitFrame h (initConfig cfg h) :=
  initFrontends_frame _ h

/-- A frontend outside the initialised sequence keeps every field. -/
theorem initFrontend_frontends_other (fe p : Ptr) (h : Heap) (hp : p ≠ fe) :
    (initFrontend fe h).frontends p = h.frontends p := by
  simp [initFrontend, initPools_frontends, setListeners, upd, hp]

theorem initFrontends_frontends_other (fes : List Ptr) (p : Ptr) (h : Heap) (hp : p ∉ fes) :
    (initFrontends fes h).frontends p = h.frontends p := by
  induction fes generalizing h with
  | nil => rfl
  | cons f fes ih =>
    simp only [List.mem_cons, not_or] at hp
    simp [initFrontends, ih _ hp.2, initFrontend_frontends_other f p h hp.1]

/-! ## What the two matching loops leave alone -/

theorem MatchFrame.refl (h : Heap) : MatchFrame h h :=
  ⟨rfl, rfl, rfl, rfl, rfl, rfl, fun _ => rfl, fun _ => rfl, fun _ => rfl⟩

theorem MatchFrame.trans {a b c : Heap} (hab : MatchFrame a b) (hbc : MatchFrame b c) :
    MatchFrame a c where
  configs := hbc.configs.trans hab.configs
  pools := hbc.pools.trans hab.pools
  states := hbc.states.trans hab.states
  maps := hbc.maps.trans hab.maps
  listeners := hbc.listeners.trans hab.listeners
  next := hbc.next.trans hab.next
  rowID p := (hbc.rowID p).trans (hab.rowID p)
  type_ p := (hbc.type_ p).trans (hab.type_ p)
  serverPools p := (hbc.serverPools p).trans (hab.serverPools p)

theorem MatchFrame.rowIDs_eq {h h' : Heap} (hf : MatchFrame h h') (fes : List Ptr) :
    rowIDs h' fes = rowIDs h fes := by
  simp [rowIDs, hf.rowID]

theorem setListeners_frame (h : Heap) (fe : Ptr) (v : Option Ptr) :
    MatchFrame h (setListeners h fe v) := by
  refine ⟨rfl, rfl, rfl, rfl, rfl, rfl, ?_, ?_, ?_⟩ <;>
    intro p <;> by_cases hp : p = fe <;> simp [setListeners, upd, hp]

theorem matchExisting_frame (existing : Ptr) (fes : List Ptr) (h : Heap) :
    MatchFrame h (matchExisting existing fes h).1 := by
  induction fes with
  | nil => exact MatchFrame.refl h
  | cons f fes ih =>
    unfold matchExisting
    split
    · exact setListeners_frame _ _ _
    · exact ih

theorem matchAdded_frame (toAdd : Ptr) (fes : List Ptr) (h : Heap) :
    MatchFrame h (matchAdded toAdd fes h).1 := by
  induction fes with
  | nil => exact MatchFrame.refl h
  | cons f fes ih =>
    unfold matchAdded
    split
    · exact setListeners_frame _ _ _
    · exact ih

theorem matchExisting_found (existing : Ptr) (fes : List Ptr) (h : Heap) :
    (matchExisting existing fes h).2 = true ↔
      (h.frontends existing).RowID ∈ rowIDs h fes := by
  induction fes with
  | nil => simp [matchExisting, rowIDs]
  | cons f fes ih =>
    unfold matchExisting
    by_cases hf : (h.frontends f).RowID = (h.frontends existing).RowID
    · simp [hf, rowIDs]
    · have hf' : ¬ (h.frontends existing).RowID = (h.frontends f).RowID := fun e => hf e.symm
      simp only [hf, if_false, ih]
      simp [rowIDs, hf']

theorem matchAdded_found (toAdd : Ptr) (fes : List Ptr) (h : Heap) :
    (matchAdded toAdd fes h).2 = true ↔ (h.frontends toAdd).RowID ∈ rowIDs h fes := by
  induction fes with
  | nil => simp [matchAdded, rowIDs]
  | cons f fes ih =>
    unfold matchAdded
    by_cases hf : (h.frontends toAdd).RowID = (h.frontends f).RowID
    · simp [hf, rowIDs]
    · simp only [hf, if_false, ih]
      simp [rowIDs, hf]

theorem collectRemoved_frame (cfg : Ptr) (fes : List Ptr) (h : Heap) (acc : List Ptr) :
    MatchFrame h (collectRemoved cfg fes h acc).1 := by
  induction fes generalizing h acc with
  | nil => exact MatchFrame.refl h
  | cons e fes ih =>
    unfold collectRemoved
    have hm := matchExisting_frame e (h.configs cfg) h
    split
    · next h1 heq => rw [heq] at hm; exact hm.trans (ih _ _)
    · next h1 heq => rw [heq] at hm; exact hm.trans (ih _ _)

/-- The loop of lines 40-52 collects the frontends of `active` whose `RowID` is absent
from `cfg`. -/
theorem collectRemoved_list (cfg : Ptr) (fes : List Ptr) (h : Heap) (acc : List Ptr) :
    (collectRemoved cfg fes h acc).2 =
      acc ++ fes.filter fun e =>
        decide ((h.frontends e).RowID ∉ rowIDs h (h.configs cfg)) := by
  induction fes generalizing h acc with
  | nil => simp [collectRemoved]
  | cons e fes ih =>
    unfold collectRemoved
    have hm := matchExisting_frame e (h.configs cfg) h
    have hfound := matchExisting_found e (h.configs cfg) h
    split
    · next h1 heq =>
      rw [heq] at hm hfound
      have hm' : MatchFrame h h1 := hm
      have hin : (h.frontends e).RowID ∈ rowIDs h (h.configs cfg) := hfound.mp rfl
      rw [ih]
      simp [hm'.rowID, hm'.configs, hm'.rowIDs_eq, hin]
    · next h1 heq =>
      rw [heq] at hm hfound
      have hm' : MatchFrame h h1 := hm
      have hin : (h.frontends e).RowID ∉ rowIDs h (h.configs cfg) := by
        intro hc; simpa using hfound.mpr hc
      rw [ih]
      simp [hm'.rowID, hm'.configs, hm'.rowIDs_eq, hin]

theorem MatchFrame.badPools_iff {h h' : Heap} (hf : MatchFrame h h') (p : Ptr) :
    BadPools (h'.frontends p) ↔ BadPools (h.frontends p) := by
  simp [BadPools, hf.type_, hf.serverPools]

theorem MatchFrame.poolsMessage_eq {h h' : Heap} (hf : MatchFrame h h') (p : Ptr) :
    poolsMessage (h'.frontends p) = poolsMessage (h.frontends p) := by
  simp [poolsMessage, hf.serverPools]

theorem MatchFrame.firstBad_eq {h h' : Heap} (hf : MatchFrame h h') (fes : List Ptr) :
    firstBad h' fes = firstBad h fes := by
  simp [firstBad, hf.badPools_iff]

theorem firstBad_eq_none {h : Heap} {fes : List Ptr} :
    firstBad h fes = none ↔ PoolsValid h fes := by
  simp [firstBad, PoolsValid]

theorem collectAdded_frame (active : Ptr) (fes : List Ptr) (h : Heap) (acc : List Ptr) :
    MatchFrame h (collectAdded active fes h acc).1 := by
  induction fes generalizing h acc with
  | nil => exact MatchFrame.refl h
  | cons d fes ih =>
    unfold collectAdded
    have hm := matchAdded_frame d (h.configs active) h
    split
    · exact MatchFrame.refl h
    · split
      · exact MatchFrame.refl h
      · split
        · next h1 heq =>
          rw [heq] at hm
          have hm' : MatchFrame h h1 := hm
          exact hm'.trans (ih _ _)
        · next h1 heq =>
          rw [heq] at hm
          have hm' : MatchFrame h h1 := hm
          exact hm'.trans (ih _ _)

/-- The loop of lines 55-76 returns the message of the first frontend that breaks the
pool-count rule, and otherwise collects the frontends of `cfg` whose `RowID` is absent
from `active`. -/
theorem collectAdded_result (active : Ptr) (fes : List Ptr) (h : Heap) (acc : List Ptr) :
    (collectAdded active fes h acc).2 =
      match firstBad h fes with
      | some f => .inr (poolsMessage (h.frontends f))
      | none => .inl (acc ++ fes.filter fun d =>
          decide ((h.frontends d).RowID ∉ rowIDs h (h.configs active))) := by
  induction fes generalizing h acc with
  | nil => simp [collectAdded, firstBad]
  | cons d fes ih =>
    unfold collectAdded
    have hm := matchAdded_frame d (h.configs active) h
    have hfound := matchAdded_found d (h.configs active) h
    by_cases hty : (h.frontends d).Type_ = "http"
    · have hgood : ¬ BadPools (h.frontends d) := by simp [BadPools, hty]
      simp only [hty, ne_eq, not_true_eq_false, false_and, if_false]
      split
      · next h1 heq =>
        rw [heq] at hm hfound
        have hm' : MatchFrame h h1 := hm
        have hin : (h.frontends d).RowID ∈ rowIDs h (h.configs active) := hfound.mp rfl
        rw [ih]
        simp [firstBad, hgood, hm'.badPools_iff, hm'.rowID, hm'.configs, hm'.rowIDs_eq, hin,
          hm'.poolsMessage_eq]
      · next h1 heq =>
        rw [heq] at hm hfound
        have hm' : MatchFrame h h1 := hm
        have hin : (h.frontends d).RowID ∉ rowIDs h (h.configs active) := by
          intro hc; simpa using hfound.mpr hc
        rw [ih]
        simp [firstBad, hgood, hm'.badPools_iff, hm'.rowID, hm'.configs, hm'.rowIDs_eq, hin,
          hm'.poolsMessage_eq]
    · by_cases hlen : (h.frontends d).ServerPools.length > 1
      · have hbad : BadPools (h.frontends d) := ⟨hty, by omega⟩
        simp [hty, hlen, firstBad, hbad, poolsMessage]
      · by_cases hzero : (h.frontends d).ServerPools.length = 0
        · have hbad : BadPools (h.frontends d) := ⟨hty, by omega⟩
          simp [hty, hzero, firstBad, hbad, poolsMessage]
        · have hgood : ¬ BadPools (h.frontends d) := by
            intro hb; have := hb.2; omega
          simp only [hlen, hzero, and_false, if_false]
          split
          · next h1 heq =>
            rw [heq] at hm hfound
            have hm' : MatchFrame h h1 := hm
            have hin : (h.frontends d).RowID ∈ rowIDs h (h.configs active) := hfound.mp rfl
            rw [ih]
            simp [firstBad, hgood, hm'.badPools_iff, hm'.rowID, hm'.configs, hm'.rowIDs_eq,
              hin, hm'.poolsMessage_eq]
          · next h1 heq =>
            rw [heq] at hm hfound
            have hm' : MatchFrame h h1 := hm
            have hin : (h.frontends d).RowID ∉ rowIDs h (h.configs active) := by
              intro hc; simpa using hfound.mpr hc
            rw [ih]
            simp [firstBad, hgood, hm'.badPools_iff, hm'.rowID, hm'.configs, hm'.rowIDs_eq,
              hin, hm'.poolsMessage_eq]

/-! ## Traces of `Stop` -/

theorem stopsOf_append (a b : List Event) : stopsOf (a ++ b) = stopsOf a ++ stopsOf b := by
  simp [stopsOf, List.filterMap_append]

theorem spawnsOf_append (a b : List Event) :
    spawnsOf (a ++ b) = spawnsOf a ++ spawnsOf b := by
  simp [spawnsOf, List.filterMap_append]

theorem locksOf_append (a b : List Event) : locksOf (a ++ b) = locksOf a ++ locksOf b := by
  simp [locksOf, List.filter_append]

theorem stopsOf_closeOrLog {evs : List Event} (h : ∀ e ∈ evs, e.isCloseOrLog = true) :
    stopsOf evs = [] := by
  induction evs with
  | nil => rfl
  | cons e evs ih =>
    have he := h e (List.mem_cons_self _ _)
    have := ih fun x hx => h x (List.mem_cons_of_mem _ hx)
    cases e <;> simp_all [stopsOf, Event.isCloseOrLog]

theorem spawnsOf_closeOrLog {evs : List Event} (h : ∀ e ∈ evs, e.isCloseOrLog = true) :
    spawnsOf evs = [] := by
  induction evs with
  | nil => rfl
  | cons e evs ih =>
    have he := h e (List.mem_cons_self _ _)
    have := ih fun x hx => h x (List.mem_cons_of_mem _ hx)
    cases e <;> simp_all [spawnsOf, Event.isCloseOrLog]

theorem locksOf_closeOrLog {evs : List Event} (h : ∀ e ∈ evs, e.isCloseOrLog = true) :
    locksOf evs = [] := by
  induction evs with
  | nil => rfl
  | cons e evs ih =>
    have he := h e (List.mem_cons_self _ _)
    have := ih fun x hx => h x (List.mem_cons_of_mem _ hx)
    cases e <;> simp_all [locksOf, Event.isCloseOrLog]

theorem logIf_heap (s : St) (err : Option String) : (s.logIf err).heap = s.heap := by
  cases err <;> rfl

theorem logIf_trace (s : St) (err : Option String) :
    ∃ evs, (s.logIf err).trace = s.trace ++ evs ∧ ∀ e ∈ evs, e.isCloseOrLog = true := by
  cases err with
  | none => exact ⟨[], by simp [St.logIf], by simp⟩
  | some msg => exact ⟨[.logError msg], rfl, by simp [Event.isCloseOrLog]⟩

theorem closeConns_run (env : Env) (conns : List (Option Ptr)) (s : St) :
    CloseRun s (closeConns env conns s) (∀ c ∈ conns, c.isSome = true) := by
  induction conns generalizing s with
  | nil => exact ⟨rfl, ⟨[], by simp [closeConns], by simp⟩, by simp [closeConns],
      fun _ => rfl⟩
  | cons c conns ih =>
    cases c with
    | none =>
      refine ⟨rfl, ⟨[], by simp [closeConns], by simp⟩, by simp [closeConns], ?_⟩
      intro h; simpa using h none (List.mem_cons_self _ _)
    | some c =>
      have hr := ih ((s.emit (.connClose c)).logIf (env.connClose s.trace c))
      obtain ⟨evs, hevs, hall⟩ := hr.trace
      obtain ⟨lg, hlg, hlgall⟩ := logIf_trace (s.emit (.connClose c)) (env.connClose s.trace c)
      refine ⟨?_, ⟨.connClose c :: (lg ++ evs), ?_, ?_⟩, hr.no_error, ?_⟩
      · simpa [closeConns, logIf_heap, St.emit] using hr.heap
      · simp only [closeConns]
        rw [hevs, hlg]
        simp [St.emit]
      · intro e he
        simp only [List.mem_cons, List.mem_append] at he
        rcases he with rfl | he | he
        · rfl
        · exact hlgall e he
        · exact hall e he
      · intro h
        exact hr.ok_of_ready fun x hx => h x (List.mem_cons_of_mem _ hx)

theorem closeAllConns_run (env : Env) (m : List (Int × List (Option Ptr))) (s : St) :
    CloseRun s (closeAllConns env m s) (∀ kv ∈ m, ∀ c ∈ kv.2, c.isSome = true) := by
  induction m generalizing s with
  | nil => exact ⟨rfl, ⟨[], by simp [closeAllConns], by simp⟩, by simp [closeAllConns],
      fun _ => rfl⟩
  | cons kv m ih =>
    have h1 := closeConns_run env kv.2 s
    unfold closeAllConns
    split
    · next s1 heq =>
      rw [heq] at h1
      have h2 := ih s1
      obtain ⟨e1, he1, ha1⟩ := h1.trace
      obtain ⟨e2, he2, ha2⟩ := h2.trace
      refine ⟨h2.heap.trans h1.heap, ⟨e1 ++ e2, ?_, ?_⟩, h2.no_error, ?_⟩
      · rw [he2]; simp only at he1; rw [he1]; simp
      · intro e he
        rcases List.mem_append.mp he with he | he
        · exact ha1 e he
        · exact ha2 e he
      · intro h
        exact h2.ok_of_ready fun x hx => h x (List.mem_cons_of_mem _ hx)
    · next r hne =>
      refine ⟨h1.heap, h1.trace, h1.no_error, ?_⟩
      intro h
      have hok := h1.ok_of_ready (h kv (List.mem_cons_self _ _))
      exfalso
      apply hne (closeConns env kv.2 s).1
      rw [← hok]

theorem Event.isStopPhase_of_closeOrLog {e : Event} (h : e.isCloseOrLog = true) :
    e.isStopPhase = true := by
  cases e <;> simp_all [Event.isCloseOrLog, Event.isStopPhase]

theorem spawnsOf_stopPhase {evs : List Event} (h : ∀ e ∈ evs, e.isStopPhase = true) :
    spawnsOf evs = [] := by
  induction evs with
  | nil => rfl
  | cons e evs ih =>
    have he := h e (List.mem_cons_self _ _)
    have := ih fun x hx => h x (List.mem_cons_of_mem _ hx)
    cases e <;> simp_all [spawnsOf, Event.isStopPhase]

theorem locksOf_stopPhase {evs : List Event} (h : ∀ e ∈ evs, e.isStopPhase = true) :
    locksOf evs = [] := by
  induction evs with
  | nil => rfl
  | cons e evs ih =>
    have he := h e (List.mem_cons_self _ _)
    have := ih fun x hx => h x (List.mem_cons_of_mem _ hx)
    cases e <;> simp_all [locksOf, Event.isStopPhase]

theorem Listener.Stop_run (env : Env) (l : Ptr) (s : St) :
    StopRun s (Listener.Stop env l s) [l] (ListenerReady s.heap l) := by
  unfold Listener.Stop
  simp only [St.emit]
  split
  · next hsock =>
    refine ⟨rfl, ⟨[.stop l], rfl, by simp [Event.isStopPhase], by simp [stopsOf],
      fun _ => by simp [stopsOf]⟩, by simp, ?_⟩
    intro hr
    have := hr.1
    have hsock' : (s.heap.listeners l).Socket = none := hsock
    rw [hsock'] at this
    simp at this
  · next sock hsock =>
    obtain ⟨lg, hlg, hlgall⟩ := logIf_trace
      ({ heap := s.heap, trace := s.trace ++ [Event.stop l] ++ [Event.socketClose sock] } : St)
      (env.socketClose (s.trace ++ [Event.stop l]) sock)
    have hc := closeAllConns_run env (s.heap.listeners l).Connections
      (St.logIf { heap := s.heap, trace := s.trace ++ [Event.stop l] ++ [Event.socketClose sock] }
        (env.socketClose (s.trace ++ [Event.stop l]) sock))
    obtain ⟨evs, hevs, hall⟩ := hc.trace
    have hcl : ∀ e ∈ Event.socketClose sock :: (lg ++ evs), e.isCloseOrLog = true := by
      intro e he
      simp only [List.mem_cons, List.mem_append] at he
      rcases he with rfl | he | he
      · rfl
      · exact hlgall e he
      · exact hall e he
    have hstops : stopsOf (Event.stop l :: Event.socketClose sock :: (lg ++ evs)) = [l] := by
      have := stopsOf_closeOrLog hcl
      rw [show Event.stop l :: Event.socketClose sock :: (lg ++ evs) =
        [Event.stop l] ++ Event.socketClose sock :: (lg ++ evs) from rfl, stopsOf_append, this]
      rfl
    simp only [logIf_heap]
    refine ⟨?_, ⟨.stop l :: .socketClose sock :: (lg ++ evs), ?_, ?_, ?_, fun _ => hstops⟩,
      hc.no_error, ?_⟩
    · simpa [logIf_heap] using hc.heap
    · rw [hevs, hlg]; simp
    · intro e he
      rcases List.mem_cons.mp he with rfl | he
      · rfl
      · exact Event.isStopPhase_of_closeOrLog (hcl e he)
    · rw [hstops]
    · intro hr
      exact hc.ok_of_ready hr.2

theorem stopListeners_run (env : Env) (entries : List (Int × Option Ptr)) (s : St) :
    StopRun s (stopListeners env entries s) (entries.filterMap fun kv => kv.2)
      (EntriesReady s.heap entries) := by
  induction entries generalizing s with
  | nil =>
    exact ⟨rfl, ⟨[], by simp [stopListeners], by simp, by simp [stopsOf],
      fun _ => by simp [stopsOf]⟩, by simp [stopListeners], fun _ => rfl⟩
  | cons kv entries ih =>
    obtain ⟨k, v⟩ := kv
    cases v with
    | none =>
      refine ⟨rfl, ⟨[], by simp [stopListeners], by simp, by simp [stopsOf], ?_⟩,
        by simp [stopListeners], ?_⟩
      · intro h; simp [stopListeners] at h
      · intro h; exact (h (k, none) (List.mem_cons_self _ _)).elim
    | some l =>
      have h1 := Listener.Stop_run env l s
      unfold stopListeners
      split
      · next s1 heq =>
        rw [heq] at h1
        have h2 := ih s1
        obtain ⟨e1, he1, ha1, _, hs1⟩ := h1.trace
        obtain ⟨e2, he2, ha2, hp2, hs2⟩ := h2.trace
        have hs1' : stopsOf e1 = [l] := hs1 rfl
        refine ⟨h2.heap.trans h1.heap, ⟨e1 ++ e2, ?_, ?_, ?_, ?_⟩, h2.no_error, ?_⟩
        · rw [he2]; simp only at he1; rw [he1]; simp
        · intro e he
          rcases List.mem_append.mp he with he | he
          · exact ha1 e he
          · exact ha2 e he
        · rw [stopsOf_append, hs1']
          simpa using hp2
        · intro hok
          rw [stopsOf_append, hs1', hs2 hok]
          simp
        · intro hr
          apply h2.ok_of_ready
          intro x hx
          have := hr x (List.mem_cons_of_mem _ hx)
          have hh : s1.heap = s.heap := h1.heap
          rw [hh]; exact this
      · next r hne =>
        obtain ⟨e1, he1, ha1, hp1, _⟩ := h1.trace
        have hnok : (Listener.Stop env l s).2 ≠ .ok := by
          intro hok
          apply hne (Listener.Stop env l s).1
          rw [← hok]
        refine ⟨h1.heap, ⟨e1, he1, ha1, ?_, fun hok => (hnok hok).elim⟩, h1.no_error, ?_⟩
        · exact hp1.trans (by simp)
        · intro hr
          exact (hnok (h1.ok_of_ready (hr (k, some l) (List.mem_cons_self _ _)))).elim

theorem stopRemoved_run (env : Env) (fes : List Ptr) (s : St) :
    StopRun s (stopRemoved env fes s) (fes.flatMap (listenersOf s.heap))
      (∀ fe ∈ fes, StopReady s.heap fe) := by
  induction fes generalizing s with
  | nil =>
    exact ⟨rfl, ⟨[], by simp [stopRemoved], by simp, by simp [stopsOf],
      fun _ => by simp [stopsOf]⟩, by simp [stopRemoved], fun _ => rfl⟩
  | cons fe fes ih =>
    unfold stopRemoved
    split
    · next hnil =>
      refine ⟨rfl, ⟨[], by simp, by simp, by simp [stopsOf], by simp⟩, by simp, ?_⟩
      intro h
      have := h fe (List.mem_cons_self _ _)
      simp [StopReady, hnil] at this
    · next m hm =>
      have h1 := stopListeners_run env (s.heap.maps m) s
      have hexp : listenersOf s.heap fe = (s.heap.maps m).filterMap fun kv => kv.2 := by
        simp [listenersOf, hm]
      split
      · next s1 heq =>
        rw [heq] at h1
        have h2 := ih s1
        have hh : s1.heap = s.heap := h1.heap
        obtain ⟨e1, he1, ha1, _, hs1⟩ := h1.trace
        obtain ⟨e2, he2, ha2, hp2, hs2⟩ := h2.trace
        have hs1' := hs1 rfl
        rw [hh] at hp2 hs2
        refine ⟨h2.heap.trans h1.heap, ⟨e1 ++ e2, ?_, ?_, ?_, ?_⟩, h2.no_error, ?_⟩
        · rw [he2]; simp only at he1; rw [he1]; simp
        · intro e he
          rcases List.mem_append.mp he with he | he
          · exact ha1 e he
          · exact ha2 e he
        · rw [stopsOf_append, hs1', List.flatMap_cons, hexp]
          exact (List.prefix_append_right_inj _).mpr hp2
        · intro hok
          rw [stopsOf_append, hs1', hs2 hok, List.flatMap_cons, hexp]
        · intro hr
          apply h2.ok_of_ready
          intro x hx
          rw [hh]; exact hr x (List.mem_cons_of_mem _ hx)
      · next r hne =>
        obtain ⟨e1, he1, ha1, hp1, _⟩ := h1.trace
        have hnok : (stopListeners env (s.heap.maps m) s).2 ≠ .ok := by
          intro hok
          apply hne (stopListeners env (s.heap.maps m) s).1
          rw [← hok]
        refine ⟨h1.heap, ⟨e1, he1, ha1, ?_, fun hok => (hnok hok).elim⟩, h1.no_error, ?_⟩
        · rw [List.flatMap_cons, hexp]
          exact hp1.trans (List.prefix_append _ _)
        · intro hr
          have := hr fe (List.mem_cons_self _ _)
          simp only [StopReady, hm] at this
          exact (hnok (h1.ok_of_ready this)).elim

/-! ## Traces of `addListener` -/

theorem stopsOf_startPhase {evs : List Event} (h : ∀ e ∈ evs, e.isStartPhase = true) :
    stopsOf evs = [] := by
  induction evs with
  | nil => rfl
  | cons e evs ih =>
    have he := h e (List.mem_cons_self _ _)
    have := ih fun x hx => h x (List.mem_cons_of_mem _ hx)
    cases e <;> simp_all [stopsOf, Event.isStartPhase]

theorem closesOf_startPhase {evs : List Event} (h : ∀ e ∈ evs, e.isStartPhase = true) :
    closesOf evs = [] := by
  induction evs with
  | nil => rfl
  | cons e evs ih =>
    have he := h e (List.mem_cons_self _ _)
    have := ih fun x hx => h x (List.mem_cons_of_mem _ hx)
    cases e <;> simp_all [closesOf, Event.isStartPhase]

theorem locksOf_startPhase {evs : List Event} (h : ∀ e ∈ evs, e.isStartPhase = true) :
    locksOf evs = [] := by
  induction evs with
  | nil => rfl
  | cons e evs ih =>
    have he := h e (List.mem_cons_self _ _)
    have := ih fun x hx => h x (List.mem_cons_of_mem _ hx)
    cases e <;> simp_all [locksOf, Event.isStartPhase]

/-- One call of `addListener` appends the spawn of the frontend's health-check loop,
followed at most by the call of `addTCPPort` on the same frontend. -/
theorem addListener_trace (env : Env) (fe : Ptr) (s : St) :
    ∃ evs, (addListener env fe s).1.trace = s.trace ++ evs ∧
      (∀ e ∈ evs, e.isStartPhase = true) ∧ spawnsOf evs = [fe] := by
  unfold addListener
  simp only [St.emit]
  split
  · exact ⟨[.spawnHealthcheck fe], rfl, by simp [Event.isStartPhase], rfl⟩
  · split
    · exact ⟨[.spawnHealthcheck fe, .addTCPPort fe], by simp,
        by simp [Event.isStartPhase], rfl⟩
    · split
      · exact ⟨[.spawnHealthcheck fe], rfl, by simp [Event.isStartPhase], rfl⟩
      · exact ⟨[.spawnHealthcheck fe], rfl, by simp [Event.isStartPhase], rfl⟩

/-- The loop of lines 86-88 invokes `addListener` once on every frontend it is given, in
order, whatever the calls return. -/
theorem startAdded_trace (env : Env) (fes : List Ptr) (s : St) :
    ∃ evs, (startAdded env fes s).trace = s.trace ++ evs ∧
      (∀ e ∈ evs, e.isStartPhase = true) ∧ spawnsOf evs = fes := by
  induction fes generalizing s with
  | nil => exact ⟨[], by simp [startAdded], by simp, rfl⟩
  | cons fe fes ih =>
    obtain ⟨e1, he1, ha1, hs1⟩ := addListener_trace env fe s
    obtain ⟨e2, he2, ha2, hs2⟩ := ih (addListener env fe s).1
    refine ⟨e1 ++ e2, ?_, ?_, ?_⟩
    · simp only [startAdded]; rw [he2, he1]; simp
    · intro e he
      rcases List.mem_append.mp he with he | he
      · exact ha1 e he
      · exact ha2 e he
    · rw [spawnsOf_append, hs1, hs2]; rfl

/-! ## The matching loops write only to frontends of the desired configuration -/

theorem setListeners_frontends_other (h : Heap) (fe p : Ptr) (v : Option Ptr) (hp : p ≠ fe) :
    (setListeners h fe v).frontends p = h.frontends p := by
  simp [setListeners, upd, hp]

theorem matchExisting_frontends_other (existing : Ptr) (fes : List Ptr) (h : Heap) (p : Ptr)
    (hp : p ∉ fes) : (matchExisting existing fes h).1.frontends p = h.frontends p := by
  induction fes with
  | nil => rfl
  | cons f fes ih =>
    simp only [List.mem_cons, not_or] at hp
    unfold matchExisting
    split
    · exact setListeners_frontends_other _ _ _ _ hp.1
    · exact ih hp.2

theorem matchAdded_frontends_other (toAdd : Ptr) (fes : List Ptr) (h : Heap) (p : Ptr)
    (hp : p ≠ toAdd) : (matchAdded toAdd fes h).1.frontends p = h.frontends p := by
  induction fes with
  | nil => rfl
  | cons f fes ih =>
    unfold matchAdded
    split
    · exact setListeners_frontends_other _ _ _ _ hp
    · exact ih

theorem collectRemoved_frontends_other (cfg : Ptr) (fes : List Ptr) (h : Heap)
    (acc : List Ptr) (p : Ptr) (hp : p ∉ h.configs cfg) :
    (collectRemoved cfg fes h acc).1.frontends p = h.frontends p := by
  induction fes generalizing h acc with
  | nil => rfl
  | cons e fes ih =>
    unfold collectRemoved
    have hm := matchExisting_frame e (h.configs cfg) h
    have ho := matchExisting_frontends_other e (h.configs cfg) h p hp
    split
    · next h1 heq =>
      rw [heq] at hm ho
      have hm' : MatchFrame h h1 := hm
      have ho' : h1.frontends p = h.frontends p := ho
      rw [ih h1 _ (by rw [hm'.configs]; exact hp), ho']
    · next h1 heq =>
      rw [heq] at hm ho
      have hm' : MatchFrame h h1 := hm
      have ho' : h1.frontends p = h.frontends p := ho
      rw [ih h1 _ (by rw [hm'.configs]; exact hp), ho']

theorem collectAdded_frontends_other (active : Ptr) (fes : List Ptr) (h : Heap)
    (acc : List Ptr) (p : Ptr) (hp : p ∉ fes) :
    (collectAdded active fes h acc).1.frontends p = h.frontends p := by
  induction fes generalizing h acc with
  | nil => rfl
  | cons d fes ih =>
    simp only [List.mem_cons, not_or] at hp
    unfold collectAdded
    have ho := matchAdded_frontends_other d (h.configs active) h p hp.1
    split
    · rfl
    · split
      · rfl
      · split
        · next h1 heq =>
          rw [heq] at ho
          have ho' : h1.frontends p = h.frontends p := ho
          rw [ih h1 _ hp.2, ho']
        · next h1 heq =>
          rw [heq] at ho
          have ho' : h1.frontends p = h.frontends p := ho
          rw [ih h1 _ hp.2, ho']

theorem matchedHeap_frame (active cfg : Ptr) (h : Heap) :
    MatchFrame h (matchedHeap active cfg h) :=
  (collectRemoved_frame cfg (h.configs active) h []).trans (collectAdded_frame _ _ _ _)

theorem matchedHeap_frontends_other (active cfg : Ptr) (h : Heap) (p : Ptr)
    (hp : p ∉ h.configs cfg) : (matchedHeap active cfg h).frontends p = h.frontends p := by
  have hf := collectRemoved_frame cfg (h.configs active) h []
  unfold matchedHeap
  simp only
  rw [collectAdded_frontends_other _ _ _ _ p (by rw [hf.configs]; exact hp),
    collectRemoved_frontends_other _ _ _ _ p hp]

/-- The reload path when some frontend of `cfg` breaks the pool-count rule: the error of
the first such frontend, with nothing done beyond the matching loops. -/
theorem reload_invalid (env : Env) (active cfg : Ptr) (s : St) (f : Ptr)
    (hbad : firstBad s.heap (s.heap.configs cfg) = some f) :
    reload env active cfg s =
      ({ s with heap := matchedHeap active cfg s.heap },
        .error (poolsMessage (s.heap.frontends f))) := by
  have hf := collectRemoved_frame cfg (s.heap.configs active) s.heap []
  have hres := collectAdded_result active
    ((collectRemoved cfg (s.heap.configs active) s.heap []).1.configs cfg)
    (collectRemoved cfg (s.heap.configs active) s.heap []).1 []
  rw [hf.configs, hf.firstBad_eq, hbad] at hres
  simp only [hf.poolsMessage_eq] at hres
  unfold reload matchedHeap
  simp only
  rw [hf.configs] at *
  generalize collectAdded active (s.heap.configs cfg)
    (collectRemoved cfg (s.heap.configs active) s.heap []).1 [] = r at hres ⊢
  obtain ⟨h2, x⟩ := r
  simp only at hres
  subst hres
  rfl

/-- The reload path when every frontend of `cfg` satisfies the pool-count rule: stop the
removed frontends, start the added ones, install the sequence. -/
theorem reload_valid (env : Env) (active cfg : Ptr) (s : St)
    (hvalid : PoolsValid s.heap (s.heap.configs cfg)) :
    reload env active cfg s =
      match stopRemoved env (removedOf s.heap active cfg)
          { s with heap := matchedHeap active cfg s.heap } with
      | (s3, .ok) =>
        ({ startAdded env (addedOf s.heap active cfg) s3 with
            heap := installFrontends (startAdded env (addedOf s.heap active cfg) s3).heap
              active cfg }, .ok)
      | r => r := by
  have hf := collectRemoved_frame cfg (s.heap.configs active) s.heap []
  have hl := collectRemoved_list cfg (s.heap.configs active) s.heap []
  have hres := collectAdded_result active
    ((collectRemoved cfg (s.heap.configs active) s.heap []).1.configs cfg)
    (collectRemoved cfg (s.heap.configs active) s.heap []).1 []
  rw [hf.configs, hf.firstBad_eq, firstBad_eq_none.mpr hvalid] at hres
  simp only [hf.rowID, hf.rowIDs_eq, hf.configs, List.nil_append] at hres hl
  unfold reload matchedHeap removedOf addedOf
  simp only
  rw [hf.configs] at *
  generalize collectAdded active (s.heap.configs cfg)
    (collectRemoved cfg (s.heap.configs active) s.heap []).1 [] = r at hres ⊢
  obtain ⟨h2, x⟩ := r
  simp only at hres
  subst hres
  generalize collectRemoved cfg (s.heap.configs active) s.heap [] = q at hl ⊢
  obtain ⟨h1, rem⟩ := q
  simp only at hl
  subst hl
  rfl

/-! ## `Activate`: the state on entry to either path -/

theorem Activate_reload (env : Env) (active cfg : Ptr) (s : St) :
    Activate env (some active) cfg s =
      { st := (reload env active cfg (entryState cfg s)).1.emit .unlock,
        outcome := (reload env active cfg (entryState cfg s)).2,
        activeConfig := some active } := rfl

theorem Activate_first_outcome (env : Env) (cfg : Ptr) (s : St) :
    (Activate env none cfg s).outcome =
      (startAll env ((entryState cfg s).heap.configs cfg) (entryState cfg s)).2 := by
  unfold Activate
  simp only [entryState, St.emit]
  split <;> simp_all

theorem Activate_first_st (env : Env) (cfg : Ptr) (s : St) :
    (Activate env none cfg s).st =
      (startAll env ((entryState cfg s).heap.configs cfg) (entryState cfg s)).1.emit
        .unlock := by
  unfold Activate
  simp only [entryState, St.emit]
  split <;> simp_all

theorem InitFrame.init_rowIDs_eq {h h' : Heap} (hf : InitFrame h h') (fes : List Ptr) :
    rowIDs h' fes = rowIDs h fes := by
  simp [rowIDs, hf.rowID]

theorem InitFrame.removedOf_eq {h h' : Heap} (hf : InitFrame h h') (active cfg : Ptr) :
    removedOf h' active cfg = removedOf h active cfg := by
  simp [removedOf, hf.rowID, hf.init_rowIDs_eq, hf.configs]

theorem InitFrame.addedOf_eq {h h' : Heap} (hf : InitFrame h h') (active cfg : Ptr) :
    addedOf h' active cfg = addedOf h active cfg := by
  simp [addedOf, hf.rowID, hf.init_rowIDs_eq, hf.configs]

theorem InitFrame.init_badPools_iff {h h' : Heap} (hf : InitFrame h h') (p : Ptr) :
    BadPools (h'.frontends p) ↔ BadPools (h.frontends p) := by
  simp [BadPools, hf.type_, hf.serverPools]

theorem InitFrame.init_poolsMessage_eq {h h' : Heap} (hf : InitFrame h h') (p : Ptr) :
    poolsMessage (h'.frontends p) = poolsMessage (h.frontends p) := by
  simp [poolsMessage, hf.serverPools]

theorem InitFrame.init_firstBad_eq {h h' : Heap} (hf : InitFrame h h') (fes : List Ptr) :
    firstBad h' fes = firstBad h fes := by
  simp [firstBad, hf.init_badPools_iff]

theorem InitFrame.poolsValid_iff {h h' : Heap} (hf : InitFrame h h') (fes : List Ptr) :
    PoolsValid h' fes ↔ PoolsValid h fes := by
  simp [PoolsValid, hf.init_badPools_iff]

/-- The first offending frontend of `pre ++ f :: post` is `f` when `pre` is valid and `f`
is not. -/
theorem firstBad_append {h : Heap} {pre post : List Ptr} {f : Ptr}
    (hpre : PoolsValid h pre) (hf : BadPools (h.frontends f)) :
    firstBad h (pre ++ f :: post) = some f := by
  induction pre with
  | nil => simp [firstBad, hf]
  | cons p pre ih =>
    have hp : ¬ BadPools (h.frontends p) := hpre p (List.mem_cons_self _ _)
    have := ih fun x hx => hpre x (List.mem_cons_of_mem _ hx)
    simpa [firstBad, hp] using this

/-- Reload with an offending frontend: the outcome, the trace and the heap. -/
theorem Activate_reload_invalid (env : Env) (active cfg : Ptr) (s : St) (f : Ptr)
    (hbad : firstBad s.heap (s.heap.configs cfg) = some f) :
    Activate env (some active) cfg s =
      { st := { heap := matchedHeap active cfg (initConfig cfg s.heap),
                trace := s.trace ++ [.lock, .unlock] },
        outcome := .error (poolsMessage (s.heap.frontends f)),
        activeConfig := some active } := by
  have hi := initConfig_frame cfg s.heap
  have hbad' : firstBad (entryState cfg s).heap ((entryState cfg s).heap.configs cfg) =
      some f := by
    show firstBad (initConfig cfg s.heap) ((initConfig cfg s.heap).configs cfg) = some f
    rw [hi.configs, hi.init_firstBad_eq, hbad]
  rw [Activate_reload, reload_invalid env active cfg _ f hbad']
  simp [entryState, St.emit, hi.init_poolsMessage_eq]

/-- Reload without an offending frontend never ends in an error. -/
theorem Activate_reload_valid_no_error (env : Env) (active cfg : Ptr) (s : St)
    (hvalid : PoolsValid s.heap (s.heap.configs cfg)) (msg : String) :
    (Activate env (some active) cfg s).outcome ≠ .error msg := by
  have hi := initConfig_frame cfg s.heap
  have hv' : PoolsValid (entryState cfg s).heap ((entryState cfg s).heap.configs cfg) := by
    show PoolsValid (initConfig cfg s.heap) ((initConfig cfg s.heap).configs cfg)
    rw [hi.configs, hi.poolsValid_iff]; exact hvalid
  rw [Activate_reload, reload_valid env active cfg _ hv']
  simp only
  have hrun := stopRemoved_run env (removedOf (entryState cfg s).heap active cfg)
    { entryState cfg s with heap := matchedHeap active cfg (entryState cfg s).heap }
  split
  · simp
  · exact hrun.no_error msg

/-! ## C4: validation of the pool count -/

/-- C4, as stated, fails on a desired configuration that holds a tcp frontend with two
server pools followed by a tcp frontend with none: it contains a non-http frontend with
zero pools, yet a reload does not return "Must have a server pool to send traffic to."
(it returns the message of the first offending frontend), and a first activation returns
success (that path checks no pool count). -/
theorem validation_zero_pools_counterexample :
    (∃ f ∈ twoBadHeap.configs 1, (twoBadHeap.frontends f).Type_ ≠ "http" ∧
        (twoBadHeap.frontends f).ServerPools.length = 0) ∧
      (Activate quietEnv (some 0) 1 ⟨twoBadHeap, []⟩).outcome =
        .error "Cannot have multiple server pools for non-HTTP frontends." ∧
      (Activate quietEnv (some 0) 1 ⟨twoBadHeap, []⟩).outcome ≠
        .error "Must have a server pool to send traffic to." ∧
      (Activate quietEnv none 1 ⟨twoBadHeap, []⟩).outcome = .ok := by
  decide

/-- C4, amended: on every reload (`active` present), if `f` is the first frontend of the
desired configuration, in order, that is non-http with a number of server pools other
than one, `Activate` returns "Must have a server pool to send traffic to." when `f` has
no pool and "Cannot have multiple server pools for non-HTTP frontends." when it has
several; and when every non-http frontend has exactly one pool, `Activate` returns no
error, whatever number of pools the http frontends have. -/
theorem validation_on_reload (env : Env) (active cfg : Ptr) (s : St) :
    (∀ pre f post, s.heap.configs cfg = pre ++ f :: post → PoolsValid s.heap pre →
        BadPools (s.heap.frontends f) →
        (Activate env (some active) cfg s).outcome =
          .error (if (s.heap.frontends f).ServerPools.length = 0
            then "Must have a server pool to send traffic to."
            else "Cannot have multiple server pools for non-HTTP frontends.")) ∧
      ((∀ f ∈ s.heap.configs cfg, (s.heap.frontends f).Type_ ≠ "http" →
          (s.heap.frontends f).ServerPools.length = 1) →
        ∀ msg, (Activate env (some active) cfg s).outcome ≠ .error msg) := by
  constructor
  · intro pre f post hsplit hpre hf
    have hbad : firstBad s.heap (s.heap.configs cfg) = some f := by
      rw [hsplit]; exact firstBad_append hpre hf
    rw [Activate_reload_invalid env active cfg s f hbad]
    simp only [poolsMessage]
    have h1 := hf.2
    by_cases h0 : (s.heap.frontends f).ServerPools.length = 0
    · simp [h0]
    · have : (s.heap.frontends f).ServerPools.length > 1 := by omega
      simp [h0, this]
  · intro hall msg
    apply Activate_reload_valid_no_error
    intro f hf hb
    exact hb.2 (hall f hf hb.1)

/-- C4, amended, at concrete inputs: the two-tcp configuration is rejected with the
message of its first frontend, and the http frontend with two pools is not rejected. -/
theorem validation_on_reload_witness :
    (Activate quietEnv (some 0) 1 ⟨twoBadHeap, []⟩).outcome =
        .error "Cannot have multiple server pools for non-HTTP frontends." ∧
      ∀ msg, (Activate quietEnv (some 0) 1 ⟨httpTwoPoolsHeap, []⟩).outcome ≠ .error msg :=
  ⟨(validation_on_reload quietEnv 0 1 ⟨twoBadHeap, []⟩).1 [] 0 [1] rfl (by decide)
      (by decide),
    (validation_on_reload quietEnv 0 1 ⟨httpTwoPoolsHeap, []⟩).2 (by decide)⟩

/-! ## C5: a validation error leaves everything as it was -/

/-- C5: when a reload returns an error (on reload the only errors are those of the
pool-count rule), the only events of the call are the `Lock` and the deferred `Unlock`
(no `Stop`, no close, no health-check spawn, no port opened), no configuration's
frontend sequence has changed, in particular `active`'s, and no listener object has
changed. -/
theorem validation_all_or_nothing (env : Env) (active cfg : Ptr) (s : St) (msg : String)
    (herr : (Activate env (some active) cfg s).outcome = .error msg) :
    (Activate env (some active) cfg s).st.trace = s.trace ++ [.lock, .unlock] ∧
      (Activate env (some active) cfg s).st.heap.configs active = s.heap.configs active ∧
      (Activate env (some active) cfg s).st.heap.configs = s.heap.configs ∧
      (Activate env (some active) cfg s).st.heap.listeners = s.heap.listeners := by
  cases hbad : firstBad s.heap (s.heap.configs cfg) with
  | none =>
    exact absurd herr
      (Activate_reload_valid_no_error env active cfg s (firstBad_eq_none.mp hbad) msg)
  | some f =>
    rw [Activate_reload_invalid env active cfg s f hbad]
    have hm := matchedHeap_frame active cfg (initConfig cfg s.heap)
    have hi := initConfig_frame cfg s.heap
    refine ⟨rfl, ?_, ?_, ?_⟩
    · show (matchedHeap active cfg (initConfig cfg s.heap)).configs active = _
      rw [hm.configs, hi.configs]
    · show (matchedHeap active cfg (initConfig cfg s.heap)).configs = _
      rw [hm.configs, hi.configs]
    · show (matchedHeap active cfg (initConfig cfg s.heap)).listeners = _
      rw [hm.listeners, hi.listeners]

/-- C5 at a concrete input: the rejected two-tcp reload. -/
theorem validation_all_or_nothing_witness :
    (Activate quietEnv (some 0) 1 ⟨twoBadHeap, []⟩).st.trace = [] ++ [.lock, .unlock] ∧
      (Activate quietEnv (some 0) 1 ⟨twoBadHeap, []⟩).st.heap.configs 0 =
        twoBadHeap.configs 0 ∧
      (Activate quietEnv (some 0) 1 ⟨twoBadHeap, []⟩).st.heap.configs = twoBadHeap.configs ∧
      (Activate quietEnv (some 0) 1 ⟨twoBadHeap, []⟩).st.heap.listeners =
        twoBadHeap.listeners :=
  validation_all_or_nothing quietEnv 0 1 ⟨twoBadHeap, []⟩
    "Cannot have multiple server pools for non-HTTP frontends." (by decide)

/-! ## The reload path, phase by phase -/

/-- A valid reload whose stop phase returns normally: the start phase follows, then the
installation and the deferred `Unlock`. -/
theorem Activate_reload_valid_ok (env : Env) (active cfg : Ptr) (s : St)
    (hvalid : PoolsValid s.heap (s.heap.configs cfg))
    (hok : (stopPhase env active cfg s).2 = .ok) :
    Activate env (some active) cfg s =
      { st := { heap := installFrontends (startPhase env active cfg s).heap active cfg,
                trace := (startPhase env active cfg s).trace ++ [.unlock] },
        outcome := .ok,
        activeConfig := some active } := by
  have hi := initConfig_frame cfg s.heap
  have hv' : PoolsValid (entryState cfg s).heap ((entryState cfg s).heap.configs cfg) := by
    show PoolsValid (initConfig cfg s.heap) ((initConfig cfg s.heap).configs cfg)
    rw [hi.configs, hi.poolsValid_iff]; exact hvalid
  have hrem : removedOf (entryState cfg s).heap active cfg = removedOf s.heap active cfg :=
    hi.removedOf_eq active cfg
  have hadd : addedOf (entryState cfg s).heap active cfg = addedOf s.heap active cfg :=
    hi.addedOf_eq active cfg
  rw [Activate_reload, reload_valid env active cfg _ hv', hrem, hadd]
  unfold startPhase
  unfold stopPhase at hok ⊢
  unfold stopHeap at hok ⊢
  simp only [entryState] at hok ⊢
  generalize stopRemoved env (removedOf s.heap active cfg)
    { heap := matchedHeap active cfg (initConfig cfg s.heap), trace := s.trace ++ [.lock] } = r
    at hok ⊢
  obtain ⟨s3, o⟩ := r
  simp only at hok
  subst hok
  rfl

/-- A valid reload whose stop phase panics: the panic, after the deferred `Unlock`. -/
theorem Activate_reload_valid_panic (env : Env) (active cfg : Ptr) (s : St)
    (hvalid : PoolsValid s.heap (s.heap.configs cfg))
    (hpanic : (stopPhase env active cfg s).2 ≠ .ok) :
    Activate env (some active) cfg s =
      { st := (stopPhase env active cfg s).1.emit .unlock,
        outcome := (stopPhase env active cfg s).2,
        activeConfig := some active } := by
  have hi := initConfig_frame cfg s.heap
  have hv' : PoolsValid (entryState cfg s).heap ((entryState cfg s).heap.configs cfg) := by
    show PoolsValid (initConfig cfg s.heap) ((initConfig cfg s.heap).configs cfg)
    rw [hi.configs, hi.poolsValid_iff]; exact hvalid
  have hrem : removedOf (entryState cfg s).heap active cfg = removedOf s.heap active cfg :=
    hi.removedOf_eq active cfg
  rw [Activate_reload, reload_valid env active cfg _ hv', hrem]
  unfold stopPhase at hpanic ⊢
  unfold stopHeap at hpanic ⊢
  simp only [entryState] at hpanic ⊢
  generalize stopRemoved env (removedOf s.heap active cfg)
    { heap := matchedHeap active cfg (initConfig cfg s.heap), trace := s.trace ++ [.lock] } = r
    at hpanic ⊢
  obtain ⟨s3, o⟩ := r
  cases o with
  | ok => exact absurd rfl hpanic
  | error msg => rfl
  | panicked => rfl

theorem mem_removedOf {h : Heap} {active cfg fe : Ptr} :
    fe ∈ removedOf h active cfg ↔
      fe ∈ h.configs active ∧ (h.frontends fe).RowID ∉ rowIDs h (h.configs cfg) := by
  simp [removedOf]

theorem mem_addedOf {h : Heap} {active cfg fe : Ptr} :
    fe ∈ addedOf h active cfg ↔
      fe ∈ h.configs cfg ∧ (h.frontends fe).RowID ∉ rowIDs h (h.configs active) := by
  simp [addedOf]

theorem rowID_mem_rowIDs {h : Heap} {fes : List Ptr} {fe : Ptr} (hfe : fe ∈ fes) :
    (h.frontends fe).RowID ∈ rowIDs h fes :=
  List.mem_map.mpr ⟨fe, hfe, rfl⟩

/-- A removed frontend is no frontend of the desired configuration. -/
theorem removed_not_desired {h : Heap} {active cfg fe : Ptr}
    (hfe : fe ∈ removedOf h active cfg) : fe ∉ h.configs cfg :=
  fun hc => (mem_removedOf.mp hfe).2 (rowID_mem_rowIDs hc)

/-- An added frontend is no frontend of the active configuration. -/
theorem added_not_active {h : Heap} {active cfg fe : Ptr}
    (hfe : fe ∈ addedOf h active cfg) : fe ∉ h.configs active :=
  fun hc => (mem_addedOf.mp hfe).2 (rowID_mem_rowIDs hc)

/-- A frontend that is not in the desired configuration keeps every field up to the stop
phase. -/
theorem stopHeap_frontends_other (active cfg : Ptr) (h : Heap) (fe : Ptr)
    (hfe : fe ∉ h.configs cfg) : (stopHeap active cfg h).frontends fe = h.frontends fe := by
  have hi := initConfig_frame cfg h
  unfold stopHeap
  rw [matchedHeap_frontends_other _ _ _ _ (by rw [hi.configs]; exact hfe)]
  exact initFrontends_frontends_other _ _ _ hfe

theorem stopHeap_listeners (active cfg : Ptr) (h : Heap) :
    (stopHeap active cfg h).listeners = h.listeners := by
  unfold stopHeap
  rw [(matchedHeap_frame _ _ _).listeners, (initConfig_frame cfg h).listeners]

theorem stopHeap_maps_old (active cfg : Ptr) (h : Heap) (m : Ptr) (hm : m < h.next) :
    (stopHeap active cfg h).maps m = h.maps m := by
  unfold stopHeap
  rw [(matchedHeap_frame _ _ _).maps, (initConfig_frame cfg h).maps_old m hm]

theorem stopHeap_configs (active cfg : Ptr) (h : Heap) :
    (stopHeap active cfg h).configs = h.configs := by
  unfold stopHeap
  rw [(matchedHeap_frame _ _ _).configs, (initConfig_frame cfg h).configs]

theorem EntriesReady_congr {h h' : Heap} (hl : h'.listeners = h.listeners)
    (entries : List (Int × Option Ptr)) : EntriesReady h' entries ↔ EntriesReady h entries := by
  simp [EntriesReady, EntryReady, ListenerReady, hl]

/-- The listeners of a frontend outside the desired configuration are, at the stop phase,
those it had before the call. -/
theorem stopHeap_listenersOf (active cfg : Ptr) (h : Heap) (fe : Ptr)
    (hfe : fe ∉ h.configs cfg) (halloc : MapAllocated h fe) :
    listenersOf (stopHeap active cfg h) fe = listenersOf h fe := by
  unfold listenersOf
  rw [stopHeap_frontends_other active cfg h fe hfe]
  cases hl : (h.frontends fe).Listeners with
  | none => rfl
  | some m => simp only; rw [stopHeap_maps_old active cfg h m (halloc m hl)]

theorem stopHeap_stopReady (active cfg : Ptr) (h : Heap) (fe : Ptr)
    (hfe : fe ∉ h.configs cfg) (halloc : MapAllocated h fe) :
    StopReady (stopHeap active cfg h) fe ↔ StopReady h fe := by
  unfold StopReady
  rw [stopHeap_frontends_other active cfg h fe hfe]
  cases hl : (h.frontends fe).Listeners with
  | none => simp
  | some m =>
    simp only
    rw [stopHeap_maps_old active cfg h m (halloc m hl)]
    exact EntriesReady_congr (stopHeap_listeners active cfg h) _

theorem flatMap_congr_mem {α β : Type} {l : List α} {f g : α → List β}
    (h : ∀ x ∈ l, f x = g x) : l.flatMap f = l.flatMap g := by
  induction l with
  | nil => rfl
  | cons x l ih =>
    rw [List.flatMap_cons, List.flatMap_cons, h x (List.mem_cons_self _ _),
      ih fun y hy => h y (List.mem_cons_of_mem _ hy)]

/-- The stop phase of a reload, in terms of the heap before the call: `Stop` is invoked
on the listeners of the removed frontends, in order. -/
theorem stopPhase_run (env : Env) (active cfg : Ptr) (s : St)
    (halloc : ∀ fe ∈ removedOf s.heap active cfg, MapAllocated s.heap fe) :
    StopRun { heap := stopHeap active cfg s.heap, trace := s.trace ++ [.lock] }
      (stopPhase env active cfg s)
      ((removedOf s.heap active cfg).flatMap (listenersOf s.heap))
      (∀ fe ∈ removedOf s.heap active cfg, StopReady s.heap fe) := by
  have hrun := stopRemoved_run env (removedOf s.heap active cfg)
    { heap := stopHeap active cfg s.heap, trace := s.trace ++ [.lock] }
  have hexp : (removedOf s.heap active cfg).flatMap (listenersOf (stopHeap active cfg s.heap)) =
      (removedOf s.heap active cfg).flatMap (listenersOf s.heap) :=
    flatMap_congr_mem fun fe hfe =>
      stopHeap_listenersOf active cfg s.heap fe (removed_not_desired hfe) (halloc fe hfe)
  simp only [hexp] at hrun
  refine ⟨hrun.heap, hrun.trace, hrun.no_error, ?_⟩
  intro hr
  apply hrun.ok_of_ready
  intro fe hfe
  exact (stopHeap_stopReady active cfg s.heap fe (removed_not_desired hfe)
    (halloc fe hfe)).mpr (hr fe hfe)

theorem stopPhase_ok (env : Env) (active cfg : Ptr) (s : St)
    (hready : ∀ fe ∈ removedOf s.heap active cfg, FrontendReady s.heap fe) :
    (stopPhase env active cfg s).2 = .ok :=
  (stopPhase_run env active cfg s fun fe hfe => (hready fe hfe).2).ok_of_ready
    fun fe hfe => (hready fe hfe).1

/-- The events of a valid reload whose removed frontends are ready: `Lock`, the stop
phase, the start phase, `Unlock`. -/
theorem Activate_reload_trace (env : Env) (active cfg : Ptr) (s : St)
    (hvalid : PoolsValid s.heap (s.heap.configs cfg))
    (hready : ∀ fe ∈ removedOf s.heap active cfg, FrontendReady s.heap fe) :
    ∃ stopEvs startEvs,
      (Activate env (some active) cfg s).st.trace =
        s.trace ++ ([.lock] ++ stopEvs ++ startEvs ++ [.unlock]) ∧
      (∀ e ∈ stopEvs, e.isStopPhase = true) ∧
      stopsOf stopEvs = (removedOf s.heap active cfg).flatMap (listenersOf s.heap) ∧
      (∀ e ∈ startEvs, e.isStartPhase = true) ∧
      spawnsOf startEvs = addedOf s.heap active cfg := by
  have hok := stopPhase_ok env active cfg s hready
  have hrun := stopPhase_run env active cfg s fun fe hfe => (hready fe hfe).2
  obtain ⟨e1, he1, ha1, _, hs1⟩ := hrun.trace
  obtain ⟨e2, he2, ha2, hs2⟩ := startAdded_trace env (addedOf s.heap active cfg)
    (stopPhase env active cfg s).1
  refine ⟨e1, e2, ?_, ha1, hs1 hok, ha2, hs2⟩
  rw [Activate_reload_valid_ok env active cfg s hvalid hok]
  simp only [startPhase]
  rw [he2, he1]
  simp

theorem stopsOf_reload_events (stopEvs startEvs : List Event)
    (h2 : ∀ e ∈ startEvs, e.isStartPhase = true) :
    stopsOf ([.lock] ++ stopEvs ++ startEvs ++ [.unlock]) = stopsOf stopEvs := by
  simp only [stopsOf_append, stopsOf_startPhase h2]
  simp [stopsOf]

theorem spawnsOf_reload_events (stopEvs startEvs : List Event)
    (h1 : ∀ e ∈ stopEvs, e.isStopPhase = true) :
    spawnsOf ([.lock] ++ stopEvs ++ startEvs ++ [.unlock]) = spawnsOf startEvs := by
  simp only [spawnsOf_append, spawnsOf_stopPhase h1]
  simp [spawnsOf]

theorem quietEnv_framed : quietEnv.Framed :=
  ⟨fun _ _ => rfl, fun _ _ => rfl, fun _ _ => rfl, fun _ _ => rfl, fun _ _ _ _ => rfl⟩

theorem failingEnv_framed : failingEnv.Framed :=
  ⟨fun _ _ => rfl, fun _ _ => rfl, fun _ _ => rfl, fun _ _ => rfl, fun _ _ _ _ => rfl⟩

/-! ## The start phase and the heap -/

theorem addListener_heap (env : Env) (fe : Ptr) (s : St) :
    (addListener env fe s).1.heap = s.heap ∨
      (addListener env fe s).1.heap = (env.addTCPPort fe s.heap).1 := by
  unfold addListener
  simp only [St.emit]
  split
  · exact Or.inl rfl
  · split
    · exact Or.inr rfl
    · split <;> exact Or.inl rfl

/-- A property of the heap that every call of `addTCPPort` on one of the given frontends
preserves holds after the start loop. -/
theorem startAdded_invariant (env : Env) (P : Heap → Prop) (fes : List Ptr)
    (hP : ∀ fe ∈ fes, ∀ h, P h → P (env.addTCPPort fe h).1) (s : St) (hs : P s.heap) :
    P (startAdded env fes s).heap := by
  induction fes generalizing s with
  | nil => exact hs
  | cons fe fes ih =>
    apply ih (fun x hx => hP x (List.mem_cons_of_mem _ hx))
    rcases addListener_heap env fe s with h | h
    · rw [h]; exact hs
    · rw [h]; exact hP fe (List.mem_cons_self _ _) _ hs

theorem startAdded_configs (env : Env) (fes : List Ptr) (s : St)
    (hc : ∀ fe h, (env.addTCPPort fe h).1.configs = h.configs) :
    (startAdded env fes s).heap.configs = s.heap.configs :=
  startAdded_invariant env (fun h => h.configs = s.heap.configs) fes
    (fun fe _ h hh => (hc fe h).trans hh) s rfl

/-! ## C6: installation on reload -/

/-- C6: a reload that passes validation, and whose removed frontends each hold an
allocated non-nil Listener map of non-nil listeners with non-nil socket and connections
(so that the stop phase dereferences no nil), returns success and leaves `active`'s
frontend sequence equal to `cfg`'s; when `addTCPPort` leaves the configurations alone
this is the sequence `cfg` had before the call. -/
theorem reload_installs (env : Env) (active cfg : Ptr) (s : St)
    (hvalid : PoolsValid s.heap (s.heap.configs cfg))
    (hready : ∀ fe ∈ removedOf s.heap active cfg, FrontendReady s.heap fe) :
    (Activate env (some active) cfg s).outcome = .ok ∧
      (Activate env (some active) cfg s).st.heap.configs active =
        (Activate env (some active) cfg s).st.heap.configs cfg ∧
      ((∀ fe h, (env.addTCPPort fe h).1.configs = h.configs) →
        (Activate env (some active) cfg s).st.heap.configs active = s.heap.configs cfg) := by
  have hok := stopPhase_ok env active cfg s hready
  have hrun := stopPhase_run env active cfg s fun fe hfe => (hready fe hfe).2
  rw [Activate_reload_valid_ok env active cfg s hvalid hok]
  refine ⟨rfl, ?_, ?_⟩
  · by_cases hc : cfg = active <;> simp [installFrontends, upd, hc]
  · intro hframe
    simp only [installFrontends, upd_same]
    unfold startPhase
    rw [startAdded_configs env _ _ hframe, hrun.heap]
    simp only [stopHeap_configs]

/-- C6 at a concrete input: the reload of `reloadHeap`, where `addTCPPort` fails. -/
theorem reload_installs_witness :
    (Activate failingEnv (some 0) 1 ⟨reloadHeap, []⟩).outcome = .ok ∧
      (Activate failingEnv (some 0) 1 ⟨reloadHeap, []⟩).st.heap.configs 0 =
        (Activate failingEnv (some 0) 1 ⟨reloadHeap, []⟩).st.heap.configs 1 ∧
      ((∀ fe h, (failingEnv.addTCPPort fe h).1.configs = h.configs) →
        (Activate failingEnv (some 0) 1 ⟨reloadHeap, []⟩).st.heap.configs 0 =
          reloadHeap.configs 1) :=
  reload_installs failingEnv 0 1 ⟨reloadHeap, []⟩ (by decide) (by decide)

/-! ## C2: removal by RowID -/

/-- C2: in a reload that passes validation, and whose removed frontends each hold an
allocated non-nil Listener map of non-nil listeners with non-nil socket and connections,
the listeners on which `Stop` is invoked are, in order, exactly the listeners held in the
Listener maps of the frontends of `active` whose `RowID` is the `RowID` of no frontend of
`cfg`; and, no listener being shared between frontends of different `RowID`, `Stop` is
invoked on no listener of a frontend of `active` whose `RowID` appears in `cfg`. -/
theorem stop_exactly_removed (env : Env) (active cfg : Ptr) (s : St)
    (hvalid : PoolsValid s.heap (s.heap.configs cfg))
    (hready : ∀ fe ∈ removedOf s.heap active cfg, FrontendReady s.heap fe) :
    ∃ evs, (Activate env (some active) cfg s).st.trace = s.trace ++ evs ∧
      stopsOf evs = (removedOf s.heap active cfg).flatMap (listenersOf s.heap) ∧
      (ListenersOwned s.heap active →
        ∀ fe ∈ s.heap.configs active,
          (s.heap.frontends fe).RowID ∈ rowIDs s.heap (s.heap.configs cfg) →
            ∀ l ∈ listenersOf s.heap fe, l ∉ stopsOf evs) := by
  obtain ⟨stopEvs, startEvs, htr, _, hstops, hstart, _⟩ :=
    Activate_reload_trace env active cfg s hvalid hready
  refine ⟨_, htr, ?_, ?_⟩
  · rw [stopsOf_reload_events _ _ hstart, hstops]
  · intro hown fe hfe hrow l hl hmem
    rw [stopsOf_reload_events _ _ hstart, hstops, List.mem_flatMap] at hmem
    obtain ⟨r, hr, hlr⟩ := hmem
    have hr' := mem_removedOf.mp hr
    have hne : (s.heap.frontends fe).RowID ≠ (s.heap.frontends r).RowID := by
      intro heq; rw [heq] at hrow; exact hr'.2 hrow
    exact hown fe hfe r hr'.1 hne l hl hlr

/-- C2 at a concrete input: in the reload of `reloadHeap` the frontend with `RowID` 11 is
removed and `Stop` runs on its two listeners. -/
theorem stop_exactly_removed_witness :
    ∃ evs, (Activate failingEnv (some 0) 1 ⟨reloadHeap, []⟩).st.trace = [] ++ evs ∧
      stopsOf evs = (removedOf reloadHeap 0 1).flatMap (listenersOf reloadHeap) ∧
      (ListenersOwned reloadHeap 0 →
        ∀ fe ∈ reloadHeap.configs 0,
          (reloadHeap.frontends fe).RowID ∈ rowIDs reloadHeap (reloadHeap.configs 1) →
            ∀ l ∈ listenersOf reloadHeap fe, l ∉ stopsOf evs) :=
  stop_exactly_removed failingEnv 0 1 ⟨reloadHeap, []⟩ (by decide) (by decide)

/-! ## C3: addition by RowID -/

/-- C3: in a reload that passes validation, and whose removed frontends each hold an
allocated non-nil Listener map of non-nil listeners with non-nil socket and connections,
`addListener` is invoked (a health-check loop is spawned) once for each frontend of `cfg`
whose `RowID` is the `RowID` of no frontend of `active`, in `cfg`'s order, and for no
other frontend (once per occurrence in `cfg`'s sequence, hence exactly once when the
sequence has no repetition); this holds whatever `addTCPPort` returns, the call returns
success, and the stops of the stop phase are all still in the trace. -/
theorem start_exactly_added (env : Env) (active cfg : Ptr) (s : St)
    (hvalid : PoolsValid s.heap (s.heap.configs cfg))
    (hready : ∀ fe ∈ removedOf s.heap active cfg, FrontendReady s.heap fe) :
    (Activate env (some active) cfg s).outcome = .ok ∧
      ∃ evs, (Activate env (some active) cfg s).st.trace = s.trace ++ evs ∧
        spawnsOf evs = addedOf s.heap active cfg ∧
        (∀ fe ∈ spawnsOf evs,
          (s.heap.frontends fe).RowID ∉ rowIDs s.heap (s.heap.configs active)) ∧
        ((s.heap.configs cfg).Nodup →
          ∀ fe ∈ addedOf s.heap active cfg, (spawnsOf evs).count fe = 1) ∧
        stopsOf evs = (removedOf s.heap active cfg).flatMap (listenersOf s.heap) := by
  obtain ⟨stopEvs, startEvs, htr, hstop, hstops, hstart, hspawns⟩ :=
    Activate_reload_trace env active cfg s hvalid hready
  have hok : (Activate env (some active) cfg s).outcome = .ok := by
    rw [Activate_reload_valid_ok env active cfg s hvalid (stopPhase_ok env active cfg s hready)]
  refine ⟨hok, _, htr, ?_, ?_, ?_, ?_⟩
  · rw [spawnsOf_reload_events _ _ hstop, hspawns]
  · intro fe hfe
    rw [spawnsOf_reload_events _ _ hstop, hspawns] at hfe
    exact (mem_addedOf.mp hfe).2
  · intro hnd fe hfe
    rw [spawnsOf_reload_events _ _ hstop, hspawns]
    exact List.count_eq_one_of_mem (hnd.filter _) hfe
  · rw [stopsOf_reload_events _ _ hstart, hstops]

/-- C3 at a concrete input: in the reload of `reloadHeap`, with an `addTCPPort` that
fails on every call, both added frontends are started. -/
theorem start_exactly_added_witness :
    (Activate failingEnv (some 0) 1 ⟨reloadHeap, []⟩).outcome = .ok ∧
      ∃ evs, (Activate failingEnv (some 0) 1 ⟨reloadHeap, []⟩).st.trace = [] ++ evs ∧
        spawnsOf evs = addedOf reloadHeap 0 1 ∧
        (∀ fe ∈ spawnsOf evs,
          (reloadHeap.frontends fe).RowID ∉ rowIDs reloadHeap (reloadHeap.configs 0)) ∧
        ((reloadHeap.configs 1).Nodup →
          ∀ fe ∈ addedOf reloadHeap 0 1, (spawnsOf evs).count fe = 1) ∧
        stopsOf evs = (removedOf reloadHeap 0 1).flatMap (listenersOf reloadHeap) :=
  start_exactly_added failingEnv 0 1 ⟨reloadHeap, []⟩ (by decide) (by decide)

/-! ## First activation -/

theorem startAdded_eq_afterCalls (env : Env) (fes : List Ptr) (s : St) :
    startAdded env fes s = afterCalls env fes s := by
  induction fes generalizing s with
  | nil => rfl
  | cons fe fes ih => simp [startAdded, afterCalls, ih]

theorem afterCalls_append (env : Env) (a b : List Ptr) (s : St) :
    afterCalls env (a ++ b) s = afterCalls env b (afterCalls env a s) := by
  induction a generalizing s with
  | nil => rfl
  | cons x a ih => simp [afterCalls, ih]

theorem afterCalls_trace (env : Env) (fes : List Ptr) (s : St) :
    ∃ evs, (afterCalls env fes s).trace = s.trace ++ evs ∧
      (∀ e ∈ evs, e.isStartPhase = true) ∧ spawnsOf evs = fes := by
  rw [← startAdded_eq_afterCalls]
  exact startAdded_trace env fes s

/-- The loop of first activation when every call of `addListener` succeeds. -/
theorem startAll_ok (env : Env) (fes : List Ptr) (s : St)
    (hall : ∀ p1 x p2, fes = p1 ++ x :: p2 →
      (addListener env x (afterCalls env p1 s)).2 = none) :
    startAll env fes s = (afterCalls env fes s, .ok) := by
  induction fes generalizing s with
  | nil => rfl
  | cons fe fes ih =>
    have h0 : (addListener env fe s).2 = none := hall [] fe fes rfl
    have hrest := ih (addListener env fe s).1 fun p1 x p2 hsplit => by
      have := hall (fe :: p1) x p2 (by rw [hsplit]; rfl)
      simpa [afterCalls] using this
    unfold startAll
    split
    · next s1 heq => simp only [heq] at hrest; simpa [afterCalls, heq] using hrest
    · next s1 msg heq => rw [heq] at h0; cases h0

/-- The loop of first activation when the call on `f` is the first that fails. -/
theorem startAll_fail (env : Env) (pre : List Ptr) (f : Ptr) (post : List Ptr) (s : St)
    (msg : String)
    (hpre : ∀ p1 x p2, pre = p1 ++ x :: p2 →
      (addListener env x (afterCalls env p1 s)).2 = none)
    (hf : (addListener env f (afterCalls env pre s)).2 = some msg) :
    startAll env (pre ++ f :: post) s =
      ((addListener env f (afterCalls env pre s)).1, .error msg) := by
  induction pre generalizing s with
  | nil =>
    simp only [List.nil_append, afterCalls] at hf ⊢
    unfold startAll
    split
    · next s1 heq => rw [heq] at hf; cases hf
    · next s1 m heq => rw [heq] at hf ⊢; cases hf; rfl
  | cons fe pre ih =>
    have h0 : (addListener env fe s).2 = none := hpre [] fe pre rfl
    have hrest := ih (addListener env fe s).1 (fun p1 x p2 hsplit => by
      have := hpre (fe :: p1) x p2 (by rw [hsplit]; rfl)
      simpa [afterCalls] using this) (by simpa [afterCalls] using hf)
    simp only [List.cons_append]
    unfold startAll
    split
    · next s1 heq => simp only [heq] at hrest; simpa [afterCalls, heq] using hrest
    · next s1 m heq => rw [heq] at h0; cases h0

theorem portsOf_append (a b : List Event) : portsOf (a ++ b) = portsOf a ++ portsOf b := by
  simp [portsOf, List.filterMap_append]

theorem closesOf_append (a b : List Event) :
    closesOf (a ++ b) = closesOf a ++ closesOf b := by
  simp [closesOf, List.filterMap_append]

theorem addListener_ports (env : Env) (fe : Ptr) (s : St) :
    ∃ evs, (addListener env fe s).1.trace = s.trace ++ evs ∧ (portsOf evs).Sublist [fe] := by
  unfold addListener
  simp only [St.emit]
  split
  · exact ⟨[.spawnHealthcheck fe], rfl, by simp [portsOf]⟩
  · split
    · exact ⟨[.spawnHealthcheck fe, .addTCPPort fe], by simp, by simp [portsOf]⟩
    · split
      · exact ⟨[.spawnHealthcheck fe], rfl, by simp [portsOf]⟩
      · exact ⟨[.spawnHealthcheck fe], rfl, by simp [portsOf]⟩

/-- The events of a run of calls of `addListener`: start-phase events only, one spawn
per frontend in order, and `addTCPPort` called on a subsequence of the frontends. -/
theorem afterCalls_events (env : Env) (fes : List Ptr) (s : St) :
    ∃ evs, (afterCalls env fes s).trace = s.trace ++ evs ∧
      (∀ e ∈ evs, e.isStartPhase = true) ∧ spawnsOf evs = fes ∧
      (portsOf evs).Sublist fes := by
  induction fes generalizing s with
  | nil => exact ⟨[], by simp [afterCalls], by simp, rfl, by simp [portsOf]⟩
  | cons fe fes ih =>
    obtain ⟨e1, he1, ha1, hs1⟩ := addListener_trace env fe s
    obtain ⟨e1', he1', hp1⟩ := addListener_ports env fe s
    have : e1' = e1 := List.append_cancel_left (he1'.symm.trans he1)
    subst this
    obtain ⟨e2, he2, ha2, hs2, hp2⟩ := ih (addListener env fe s).1
    refine ⟨e1' ++ e2, ?_, ?_, ?_, ?_⟩
    · simp only [afterCalls]; rw [he2, he1]; simp
    · intro e he
      rcases List.mem_append.mp he with he | he
      · exact ha1 e he
      · exact ha2 e he
    · rw [spawnsOf_append, hs1, hs2]; rfl
    · rw [portsOf_append]
      exact List.Sublist.append hp1 hp2

theorem entryState_configs (cfg : Ptr) (s : St) :
    (entryState cfg s).heap.configs = s.heap.configs :=
  (initConfig_frame cfg s.heap).configs

theorem entryState_trace (cfg : Ptr) (s : St) :
    (entryState cfg s).trace = s.trace ++ [.lock] := rfl

/-- The projections of the events of a first activation. -/
theorem first_activation_events (evs : List Event) (h : ∀ e ∈ evs, e.isStartPhase = true) :
    spawnsOf ([.lock] ++ evs ++ [.unlock]) = spawnsOf evs ∧
      portsOf ([.lock] ++ evs ++ [.unlock]) = portsOf evs ∧
      stopsOf ([.lock] ++ evs ++ [.unlock]) = [] ∧
      closesOf ([.lock] ++ evs ++ [.unlock]) = [] := by
  refine ⟨?_, ?_, ?_, ?_⟩
  · simp [spawnsOf_append, spawnsOf]
  · simp [portsOf_append, portsOf]
  · rw [stopsOf_append, stopsOf_append, stopsOf_startPhase h]; rfl
  · rw [closesOf_append, closesOf_append, closesOf_startPhase h]; rfl

/-! ## C9: first activation aborts at the first failure, without rollback -/

/-- C9: in a first activation `addListener` runs on the frontends of `cfg` in order.  If
`f` is the first frontend whose call fails, with error `msg`, `Activate` returns exactly
`msg`, `addListener` has been invoked on the frontends up to `f` and on none after it,
and nothing has been stopped or closed.  If no call fails, `Activate` returns success
having invoked `addListener` once on every frontend, in order. -/
theorem first_activation_aborts (env : Env) (cfg : Ptr) (s : St) :
    (∀ pre f post msg, s.heap.configs cfg = pre ++ f :: post →
        (∀ p1 x p2, pre = p1 ++ x :: p2 →
          (addListener env x (afterCalls env p1 (entryState cfg s))).2 = none) →
        (addListener env f (afterCalls env pre (entryState cfg s))).2 = some msg →
        (Activate env none cfg s).outcome = .error msg ∧
          ∃ evs, (Activate env none cfg s).st.trace = s.trace ++ evs ∧
            spawnsOf evs = pre ++ [f] ∧ (portsOf evs).Sublist (pre ++ [f]) ∧
            stopsOf evs = [] ∧ closesOf evs = []) ∧
      ((∀ p1 x p2, s.heap.configs cfg = p1 ++ x :: p2 →
          (addListener env x (afterCalls env p1 (entryState cfg s))).2 = none) →
        (Activate env none cfg s).outcome = .ok ∧
          ∃ evs, (Activate env none cfg s).st.trace = s.trace ++ evs ∧
            spawnsOf evs = s.heap.configs cfg ∧ (portsOf evs).Sublist (s.heap.configs cfg) ∧
            stopsOf evs = [] ∧ closesOf evs = []) := by
  constructor
  · intro pre f post msg hsplit hpre hf
    have hrun := startAll_fail env pre f post (entryState cfg s) msg hpre hf
    rw [Activate_first_outcome, Activate_first_st, entryState_configs, hsplit, hrun]
    refine ⟨rfl, ?_⟩
    have hcalls : (addListener env f (afterCalls env pre (entryState cfg s))).1 =
        afterCalls env (pre ++ [f]) (entryState cfg s) := by
      rw [afterCalls_append]; rfl
    obtain ⟨evs, hevs, hall, hsp, hpo⟩ := afterCalls_events env (pre ++ [f]) (entryState cfg s)
    obtain ⟨h1, h2, h3, h4⟩ := first_activation_events evs hall
    refine ⟨[.lock] ++ evs ++ [.unlock], ?_, ?_, ?_, h3, h4⟩
    · simp only [St.emit]
      rw [hcalls, hevs, entryState_trace]
      simp
    · rw [h1, hsp]
    · rw [h2]; exact hpo
  · intro hall
    have hrun := startAll_ok env (s.heap.configs cfg) (entryState cfg s) hall
    rw [Activate_first_outcome, Activate_first_st, entryState_configs, hrun]
    refine ⟨rfl, ?_⟩
    obtain ⟨evs, hevs, hall', hsp, hpo⟩ :=
      afterCalls_events env (s.heap.configs cfg) (entryState cfg s)
    obtain ⟨h1, h2, h3, h4⟩ := first_activation_events evs hall'
    refine ⟨[.lock] ++ evs ++ [.unlock], ?_, ?_, ?_, h3, h4⟩
    · simp only [St.emit]
      rw [hevs, entryState_trace]
      simp
    · rw [h1, hsp]
    · rw [h2]; exact hpo

theorem allSucceed_spec (env : Env) (fes : List Ptr) (s : St)
    (h : allSucceed env fes s = true) :
    ∀ p1 x p2, fes = p1 ++ x :: p2 → (addListener env x (afterCalls env p1 s)).2 = none := by
  induction fes generalizing s with
  | nil => intro p1 x p2 hsplit; simp at hsplit
  | cons fe fes ih =>
    simp only [allSucceed, Bool.and_eq_true, Option.isNone_iff_eq_none] at h
    intro p1 x p2 hsplit
    cases p1 with
    | nil =>
      simp only [List.nil_append, List.cons.injEq] at hsplit
      rw [← hsplit.1]; exact h.1
    | cons y p1 =>
      simp only [List.cons_append, List.cons.injEq] at hsplit
      rw [← hsplit.1]
      exact ih _ h.2 p1 x p2 hsplit.2

/-- C9 at concrete inputs: with an `addTCPPort` that fails, the tcp frontend in second
place aborts the activation; with one that succeeds, all three frontends are started. -/
theorem first_activation_aborts_witness :
    ((Activate failingEnv none 0 ⟨firstHeap, []⟩).outcome =
        .error "listen tcp: address already in use" ∧
      ∃ evs, (Activate failingEnv none 0 ⟨firstHeap, []⟩).st.trace = [] ++ evs ∧
        spawnsOf evs = [0] ++ [1] ∧ (portsOf evs).Sublist ([0] ++ [1]) ∧
        stopsOf evs = [] ∧ closesOf evs = []) ∧
    ((Activate quietEnv none 0 ⟨firstHeap, []⟩).outcome = .ok ∧
      ∃ evs, (Activate quietEnv none 0 ⟨firstHeap, []⟩).st.trace = [] ++ evs ∧
        spawnsOf evs = firstHeap.configs 0 ∧ (portsOf evs).Sublist (firstHeap.configs 0) ∧
        stopsOf evs = [] ∧ closesOf evs = []) :=
  ⟨(first_activation_aborts failingEnv 0 ⟨firstHeap, []⟩).1 [0] 1 [2]
      "listen tcp: address already in use" rfl
      (allSucceed_spec failingEnv [0] (entryState 0 ⟨firstHeap, []⟩) (by decide))
      (by decide),
    (first_activation_aborts quietEnv 0 ⟨firstHeap, []⟩).2
      (allSucceed_spec quietEnv [0, 1, 2] (entryState 0 ⟨firstHeap, []⟩) (by decide))⟩

/-! ## C7: first activation does not install the configuration for the caller -/

/-- C7, the code at the failing input: the first activation of `firstHeap`'s
configuration 0 returns success and the callee's own variable `activeConfig` ends as
configuration 0, but the caller's variable is still nil and no configuration object was
written; a second `Activate` with the caller's variable therefore runs the
first-activation path again and starts every frontend a second time. -/
theorem first_activation_not_installed :
    (callActivate quietEnv none 0 ⟨firstHeap, []⟩).2.outcome = .ok ∧
      (callActivate quietEnv none 0 ⟨firstHeap, []⟩).2.activeConfig = some 0 ∧
      (callActivate quietEnv none 0 ⟨firstHeap, []⟩).1 = none ∧
      (callActivate quietEnv none 0 ⟨firstHeap, []⟩).2.st.heap.configs 0 =
        firstHeap.configs 0 ∧
      spawnsOf (Activate quietEnv (callActivate quietEnv none 0 ⟨firstHeap, []⟩).1 0
        (callActivate quietEnv none 0 ⟨firstHeap, []⟩).2.st).st.trace = [0, 1, 2, 0, 1, 2] := by
  decide

/-! ## C8: an unknown type on reload -/

/-- C8, the code at the failing input: a desired configuration whose only frontend has
the unknown type "quic" (and one pool, so that validation passes) is rejected by a first
activation with "Unknown config type: quic"; on a reload onto an empty active
configuration the same frontend is added, `addListener` is invoked on it and returns that
error, and `Activate` returns success. -/
theorem unknown_type_on_reload_accepted :
    (Activate quietEnv none 1 ⟨unknownTypeHeap, []⟩).outcome =
        .error "Unknown config type: quic" ∧
      addedOf unknownTypeHeap 0 1 = [0] ∧
      (addListener quietEnv 0 (stopPhase quietEnv 0 1 ⟨unknownTypeHeap, []⟩).1).2 =
        some "Unknown config type: quic" ∧
      spawnsOf (Activate quietEnv (some 0) 1 ⟨unknownTypeHeap, []⟩).st.trace = [0] ∧
      (Activate quietEnv (some 0) 1 ⟨unknownTypeHeap, []⟩).outcome = .ok := by
  decide

/-! ## What `initConfig` establishes -/

theorem initPool_poolInit (lo : Ptr) (q : Ptr) (h : Heap) (hlo : lo ≤ h.next) (p : Ptr)
    (hp : p = q ∨ PoolInit lo h p) : PoolInit lo (initPool q h) p := by
  by_cases hpq : p = q
  · subst hpq
    refine ⟨h.next, h.next + 1, ?_, hlo, ?_, ?_, ?_, ?_, ?_⟩
    · simp [initPool, upd]
    · show h.next < h.next + 1 + 1
      exact Nat.lt_succ_of_lt (Nat.lt_succ_self _)
    · simp [initPool, upd]
    · exact Nat.le_succ_of_le hlo
    · show h.next + 1 < h.next + 1 + 1
      exact Nat.lt_succ_self _
    · simp [initPool, upd]
  · rcases hp with hp | ⟨mu, st, h1, h2, h3, h4, h5, h6, h7⟩
    · exact absurd hp hpq
    · refine ⟨mu, st, ?_, h2, ?_, ?_, h5, ?_, ?_⟩
      · simpa [initPool, upd, hpq] using h1
      · exact Nat.lt_of_lt_of_le h3 (initPool_frame q h).next_le
      · simpa [initPool, upd, hpq] using h4
      · exact Nat.lt_of_lt_of_le h6 (initPool_frame q h).next_le
      · rw [(initPool_frame q h).states_old st h6]; exact h7

theorem initPools_poolInit (lo : Ptr) (ps : List Ptr) (h : Heap) (hlo : lo ≤ h.next)
    (p : Ptr) (hp : p ∈ ps ∨ PoolInit lo h p) : PoolInit lo (initPools ps h) p := by
  induction ps generalizing h with
  | nil =>
    rcases hp with hp | hp
    · simp at hp
    · exact hp
  | cons q ps ih =>
    have hlo' : lo ≤ (initPool q h).next := le_trans hlo (initPool_frame q h).next_le
    apply ih _ hlo'
    rcases hp with hp | hp
    · rcases List.mem_cons.mp hp with hp | hp
      · exact Or.inr (initPool_poolInit lo q h hlo p (Or.inl hp))
      · exact Or.inl hp
    · exact Or.inr (initPool_poolInit lo q h hlo p (Or.inr hp))

theorem initFrontend_listeners_self (x : Ptr) (h : Heap) :
    ((initFrontend x h).frontends x).Listeners = some h.next := by
  simp [initFrontend, initPools_frontends, setListeners, upd]

theorem initFrontend_maps_new (x : Ptr) (h : Heap) : (initFrontend x h).maps h.next = [] := by
  simp [initFrontend, initPools_maps, upd]

theorem initFrontend_next_lt (x : Ptr) (h : Heap) : h.next < (initFrontend x h).next := by
  have := (initPools_frame ((h.frontends x).ServerPools)
    { setListeners h x (some h.next) with
      maps := upd h.maps h.next [], next := h.next + 1 }).next_le
  have h2 : (initFrontend x h).next =
      (initPools ((h.frontends x).ServerPools)
        { setListeners h x (some h.next) with
          maps := upd h.maps h.next [], next := h.next + 1 }).next := by
    simp [initFrontend, setListeners, upd]
  rw [h2]
  exact Nat.lt_of_lt_of_le (Nat.lt_succ_self _) this

theorem initFrontend_mapInit_self (lo x : Ptr) (h : Heap) (hlo : lo ≤ h.next) :
    MapInit lo (initFrontend x h) x :=
  ⟨h.next, initFrontend_listeners_self x h, hlo, initFrontend_next_lt x h,
    initFrontend_maps_new x h⟩

theorem initFrontend_mapInit_other (lo x f : Ptr) (h : Heap) (hf : f ≠ x)
    (hm : MapInit lo h f) : MapInit lo (initFrontend x h) f := by
  obtain ⟨m, h1, h2, h3, h4⟩ := hm
  refine ⟨m, ?_, h2, Nat.lt_of_lt_of_le h3 (initFrontend_frame x h).next_le, ?_⟩
  · rw [initFrontend_frontends_other x f h hf]; exact h1
  · rw [(initFrontend_frame x h).maps_old m h3]; exact h4

theorem initFrontend_poolInit (lo x : Ptr) (h : Heap) (hlo : lo ≤ h.next) (p : Ptr)
    (hp : p ∈ (h.frontends x).ServerPools ∨ PoolInit lo h p) :
    PoolInit lo (initFrontend x h) p := by
  unfold initFrontend
  simp only
  apply initPools_poolInit lo _ _ (Nat.le_succ_of_le hlo)
  rcases hp with hp | ⟨mu, st, h1, h2, h3, h4, h5, h6, h7⟩
  · left
    by_cases hx : x = x <;> simp_all [setListeners, upd]
  · right
    exact ⟨mu, st, h1, h2, Nat.lt_succ_of_lt h3, h4, h5, Nat.lt_succ_of_lt h6, h7⟩

theorem initFrontend_done (lo x : Ptr) (h : Heap) (done : List Ptr)
    (hd : InitDone lo h done) : InitDone lo (initFrontend x h) (x :: done) := by
  have hfr := initFrontend_frame x h
  refine ⟨le_trans hd.lo_le hfr.next_le, ?_, ?_, ?_⟩
  · intro f hf
    by_cases hfx : f = x
    · subst hfx; exact initFrontend_mapInit_self lo f h hd.lo_le
    · rcases List.mem_cons.mp hf with hf | hf
      · exact absurd hf hfx
      · exact initFrontend_mapInit_other lo x f h hfx (hd.maps f hf)
  · intro f hf g hg hne
    by_cases hfx : f = x
    · subst hfx
      have hgx : g ≠ f := fun e => hne e.symm
      have hg' : g ∈ done := by
        rcases List.mem_cons.mp hg with hg | hg
        · exact absurd hg hgx
        · exact hg
      obtain ⟨m, h1, _, h3, _⟩ := hd.maps g hg'
      rw [initFrontend_listeners_self, initFrontend_frontends_other f g h hgx, h1]
      intro e
      have : h.next = m := Option.some.inj e
      exact absurd this (Nat.ne_of_gt h3)
    · have hf' : f ∈ done := by
        rcases List.mem_cons.mp hf with hf | hf
        · exact absurd hf hfx
        · exact hf
      by_cases hgx : g = x
      · subst hgx
        obtain ⟨m, h1, _, h3, _⟩ := hd.maps f hf'
        rw [initFrontend_listeners_self, initFrontend_frontends_other g f h hfx, h1]
        intro e
        have : m = h.next := Option.some.inj e
        exact absurd this (Nat.ne_of_lt h3)
      · have hg' : g ∈ done := by
          rcases List.mem_cons.mp hg with hg | hg
          · exact absurd hg hgx
          · exact hg
        rw [initFrontend_frontends_other x f h hfx, initFrontend_frontends_other x g h hgx]
        exact hd.distinct f hf' g hg' hne
  · intro f hf p hp
    rw [hfr.serverPools] at hp
    apply initFrontend_poolInit lo x h hd.lo_le
    by_cases hfx : f = x
    · subst hfx; exact Or.inl hp
    · rcases List.mem_cons.mp hf with hf | hf
      · exact absurd hf hfx
      · exact Or.inr (hd.pools f hf p hp)

theorem initFrontends_done (lo : Ptr) (fes : List Ptr) (h : Heap) (done : List Ptr)
    (hd : InitDone lo h done) :
    InitDone lo (initFrontends fes h) (fes.reverse ++ done) := by
  induction fes generalizing h done with
  | nil => simpa [initFrontends] using hd
  | cons x fes ih =>
    have := ih (initFrontend x h) (x :: done) (initFrontend_done lo x h done hd)
    simpa [initFrontends] using this

theorem initConfig_done (cfg : Ptr) (h : Heap) :
    InitDone h.next (initConfig cfg h) (h.configs cfg) := by
  have h0 : InitDone h.next h [] :=
    ⟨le_rfl, fun _ hf => by simp at hf, fun _ hf => by simp at hf, fun _ hf => by simp at hf⟩
  have := initFrontends_done h.next (h.configs cfg) h [] h0
  refine ⟨this.lo_le, fun f hf => this.maps f (by simpa using hf),
    fun f hf g hg => this.distinct f (by simpa using hf) g (by simpa using hg),
    fun f hf => this.pools f (by simpa using hf)⟩

theorem startAdded_pools_states (env : Env) (fes : List Ptr) (s : St)
    (hp : ∀ fe h, (env.addTCPPort fe h).1.pools = h.pools)
    (hs : ∀ fe h, (env.addTCPPort fe h).1.states = h.states) :
    (startAdded env fes s).heap.pools = s.heap.pools ∧
      (startAdded env fes s).heap.states = s.heap.states :=
  startAdded_invariant env (fun h => h.pools = s.heap.pools ∧ h.states = s.heap.states) fes
    (fun fe _ h hh => ⟨(hp fe h).trans hh.1, (hs fe h).trans hh.2⟩) s ⟨rfl, rfl⟩

/-- After a reload, however it ends, the pools and states are those `initConfig` left,
when `addTCPPort` leaves pools and states alone. -/
theorem Activate_reload_pools_states (env : Env) (active cfg : Ptr) (s : St)
    (hp : ∀ fe h, (env.addTCPPort fe h).1.pools = h.pools)
    (hs : ∀ fe h, (env.addTCPPort fe h).1.states = h.states) :
    (Activate env (some active) cfg s).st.heap.pools = (initConfig cfg s.heap).pools ∧
      (Activate env (some active) cfg s).st.heap.states = (initConfig cfg s.heap).states := by
  have hm := matchedHeap_frame active cfg (initConfig cfg s.heap)
  cases hbad : firstBad s.heap (s.heap.configs cfg) with
  | some f =>
    rw [Activate_reload_invalid env active cfg s f hbad]
    exact ⟨hm.pools, hm.states⟩
  | none =>
    have hvalid := firstBad_eq_none.mp hbad
    have hrun := stopRemoved_run env (removedOf s.heap active cfg)
      { heap := stopHeap active cfg s.heap, trace := s.trace ++ [.lock] }
    have hheap : (stopPhase env active cfg s).1.heap = stopHeap active cfg s.heap := hrun.heap
    by_cases hok : (stopPhase env active cfg s).2 = .ok
    · rw [Activate_reload_valid_ok env active cfg s hvalid hok]
      have := startAdded_pools_states env (addedOf s.heap active cfg)
        (stopPhase env active cfg s).1 hp hs
      simp only [installFrontends, startPhase]
      rw [this.1, this.2, hheap]
      exact ⟨hm.pools, hm.states⟩
    · rw [Activate_reload_valid_panic env active cfg s hvalid hok]
      simp only [St.emit]
      rw [hheap]
      exact ⟨hm.pools, hm.states⟩

/-! ## C10: runtime initialisation -/

/-- C10: after `initConfig(cfg)` the sequence of frontends of every configuration and the
`RowID`, `Type` and `ServerPools` of every frontend are unchanged; every frontend of
`cfg` holds a map that was allocated by the call and is empty, two different frontends
hold different maps, and every pool of every frontend of `cfg` holds a lock and a
`SharedLBState` allocated by the call, the state with `Requests = 0`.  Consequently
after a reload, however it ends and whatever the heap was before, every pool of `cfg`
holds a newly allocated state with `Requests = 0` (`addTCPPort` leaving pools and states
alone). -/
theorem initConfig_initialises (env : Env) (active cfg : Ptr) (s : St) :
    (initConfig cfg s.heap).configs = s.heap.configs ∧
      (∀ p, ((initConfig cfg s.heap).frontends p).RowID = (s.heap.frontends p).RowID ∧
        ((initConfig cfg s.heap).frontends p).Type_ = (s.heap.frontends p).Type_ ∧
        ((initConfig cfg s.heap).frontends p).ServerPools = (s.heap.frontends p).ServerPools) ∧
      (∀ f ∈ s.heap.configs cfg, MapInit s.heap.next (initConfig cfg s.heap) f) ∧
      (∀ f ∈ s.heap.configs cfg, ∀ g ∈ s.heap.configs cfg, f ≠ g →
        ((initConfig cfg s.heap).frontends f).Listeners ≠
          ((initConfig cfg s.heap).frontends g).Listeners) ∧
      (∀ f ∈ s.heap.configs cfg, ∀ p ∈ (s.heap.frontends f).ServerPools,
        PoolInit s.heap.next (initConfig cfg s.heap) p) ∧
      ((∀ fe h, (env.addTCPPort fe h).1.pools = h.pools) →
        (∀ fe h, (env.addTCPPort fe h).1.states = h.states) →
        ∀ f ∈ s.heap.configs cfg, ∀ p ∈ (s.heap.frontends f).ServerPools,
          ∃ st, ((Activate env (some active) cfg s).st.heap.pools p).SharedLBState = some st ∧
            s.heap.next ≤ st ∧
            (Activate env (some active) cfg s).st.heap.states st = { Requests := 0 }) := by
  have hfr := initConfig_frame cfg s.heap
  have hd := initConfig_done cfg s.heap
  refine ⟨hfr.configs, fun p => ⟨hfr.rowID p, hfr.type_ p, hfr.serverPools p⟩, hd.maps,
    hd.distinct, ?_, ?_⟩
  · intro f hf p hp
    exact hd.pools f hf p (by rw [hfr.serverPools]; exact hp)
  · intro hp hs f hf p hpm
    obtain ⟨mu, st, _, _, _, h4, h5, _, h7⟩ :=
      hd.pools f hf p (by rw [hfr.serverPools]; exact hpm)
    obtain ⟨e1, e2⟩ := Activate_reload_pools_states env active cfg s hp hs
    exact ⟨st, by rw [e1]; exact h4, h5, by rw [e2]; exact h7⟩

/-- C10 at a concrete input: the reload of `countersHeap`, whose old counters are 7. -/
theorem initConfig_initialises_witness :
    ∀ f ∈ countersHeap.configs 1, ∀ p ∈ (countersHeap.frontends f).ServerPools,
      ∃ st, ((Activate quietEnv (some 0) 1 ⟨countersHeap, []⟩).st.heap.pools p).SharedLBState =
          some st ∧ countersHeap.next ≤ st ∧
        (Activate quietEnv (some 0) 1 ⟨countersHeap, []⟩).st.heap.states st =
          { Requests := 0 } :=
  (initConfig_initialises quietEnv 0 1 ⟨countersHeap, []⟩).2.2.2.2.2
    (fun _ _ => rfl) (fun _ _ => rfl)

/-! ## The Listener maps after the matching loops -/

theorem MatchFrame.firstWithRowID_eq {h h' : Heap} (hf : MatchFrame h h') (id : Nat)
    (fes : List Ptr) : firstWithRowID h' id fes = firstWithRowID h id fes := by
  simp [firstWithRowID, hf.rowID]

theorem InitFrame.init_firstWithRowID_eq {h h' : Heap} (hf : InitFrame h h') (id : Nat)
    (fes : List Ptr) : firstWithRowID h' id fes = firstWithRowID h id fes := by
  simp [firstWithRowID, hf.rowID]

/-- The inner loop of lines 65-71 gives `toAdd` the Listener map of the first frontend
of the sequence with its `RowID`. -/
theorem matchAdded_listeners (toAdd : Ptr) (fes : List Ptr) (h : Heap) (e : Ptr)
    (he : firstWithRowID h (h.frontends toAdd).RowID fes = some e) :
    ((matchAdded toAdd fes h).1.frontends toAdd).Listeners = (h.frontends e).Listeners := by
  induction fes with
  | nil => simp [firstWithRowID] at he
  | cons x fes ih =>
    unfold matchAdded
    by_cases hx : (h.frontends toAdd).RowID = (h.frontends x).RowID
    · have : e = x := by
        simp only [firstWithRowID, List.find?_cons, hx.symm, decide_True] at he
        exact (Option.some.inj he).symm
      subst this
      simp [hx, setListeners, upd]
    · simp only [hx, if_false]
      apply ih
      have hx' : ¬ (h.frontends x).RowID = (h.frontends toAdd).RowID := fun e => hx e.symm
      simpa [firstWithRowID, List.find?_cons, hx'] using he

/-- The inner loop of lines 65-71 writes nothing when no frontend of the sequence has the
`RowID` of `toAdd`. -/
theorem matchAdded_not_found (toAdd : Ptr) (fes : List Ptr) (h : Heap)
    (hnot : (h.frontends toAdd).RowID ∉ rowIDs h fes) : (matchAdded toAdd fes h).1 = h := by
  induction fes with
  | nil => rfl
  | cons x fes ih =>
    simp only [rowIDs, List.map_cons, List.mem_cons, not_or] at hnot
    unfold matchAdded
    simp only [hnot.1, if_false]
    exact ih hnot.2

/-- The inner loop of lines 42-48 writes only to a frontend with the `RowID` of
`existing`. -/
theorem matchExisting_frontends_rowID (existing : Ptr) (fes : List Ptr) (h : Heap) (p : Ptr)
    (hp : (h.frontends p).RowID ≠ (h.frontends existing).RowID) :
    (matchExisting existing fes h).1.frontends p = h.frontends p := by
  induction fes with
  | nil => rfl
  | cons x fes ih =>
    unfold matchExisting
    split
    · next hx =>
      apply setListeners_frontends_other
      intro hpx; subst hpx; exact hp hx
    · exact ih

/-- The loop of lines 40-52 leaves alone every frontend whose `RowID` is the `RowID` of
none of the frontends it runs over. -/
theorem collectRemoved_frontends_rowID (cfg : Ptr) (fes : List Ptr) (h : Heap)
    (acc : List Ptr) (p : Ptr) (hp : (h.frontends p).RowID ∉ rowIDs h fes) :
    (collectRemoved cfg fes h acc).1.frontends p = h.frontends p := by
  induction fes generalizing h acc with
  | nil => rfl
  | cons e fes ih =>
    simp only [rowIDs, List.map_cons, List.mem_cons, not_or] at hp
    unfold collectRemoved
    have hm := matchExisting_frame e (h.configs cfg) h
    have ho := matchExisting_frontends_rowID e (h.configs cfg) h p hp.1
    split
    · next h1 heq =>
      rw [heq] at hm ho
      have hm' : MatchFrame h h1 := hm
      have ho' : h1.frontends p = h.frontends p := ho
      rw [ih h1 _ (by rw [hm'.rowIDs_eq, hm'.rowID]; exact hp.2), ho']
    · next h1 heq =>
      rw [heq] at hm ho
      have hm' : MatchFrame h h1 := hm
      have ho' : h1.frontends p = h.frontends p := ho
      rw [ih h1 _ (by rw [hm'.rowIDs_eq, hm'.rowID]; exact hp.2), ho']

/-- The loop of lines 55-76 leaves alone every frontend whose `RowID` is the `RowID` of
no frontend of `active`. -/
theorem collectAdded_frontends_rowID (active : Ptr) (fes : List Ptr) (h : Heap)
    (acc : List Ptr) (p : Ptr)
    (hp : (h.frontends p).RowID ∉ rowIDs h (h.configs active)) :
    (collectAdded active fes h acc).1.frontends p = h.frontends p := by
  induction fes generalizing h acc with
  | nil => rfl
  | cons d fes ih =>
    unfold collectAdded
    have hm := matchAdded_frame d (h.configs active) h
    have hfound := matchAdded_found d (h.configs active) h
    have hother := matchAdded_frontends_other d (h.configs active) h p
    split
    · rfl
    · split
      · rfl
      · split
        · next h1 heq =>
          rw [heq] at hm hfound hother
          have hm' : MatchFrame h h1 := hm
          have hin : (h.frontends d).RowID ∈ rowIDs h (h.configs active) := hfound.mp rfl
          have hpd : p ≠ d := by intro e; subst e; exact hp hin
          have ho' : h1.frontends p = h.frontends p := hother hpd
          rw [ih h1 _ (by rw [hm'.rowIDs_eq, hm'.rowID, hm'.configs]; exact hp), ho']
        · next h1 heq =>
          have hin : (h.frontends d).RowID ∉ rowIDs h (h.configs active) := by
            intro hc
            have := hfound.mpr hc
            rw [heq] at this
            simp at this
          have h1eq : h1 = h := by
            have := matchAdded_not_found d (h.configs active) h hin
            rw [heq] at this
            exact this
          subst h1eq
          exact ih _ _ hp

theorem firstWithRowID_mem {h : Heap} {id : Nat} {fes : List Ptr} {e : Ptr}
    (he : firstWithRowID h id fes = some e) : e ∈ fes :=
  List.mem_of_find?_eq_some he

theorem firstWithRowID_rowID {h : Heap} {id : Nat} {fes : List Ptr} {e : Ptr}
    (he : firstWithRowID h id fes = some e) : (h.frontends e).RowID = id := by
  have := List.find?_some he
  simpa using this

/-- After the loop of lines 55-76 has run over a valid sequence that shares no frontend
with `active`, each of its frontends whose `RowID` occurs in `active` holds the Listener
map of the first frontend of `active` with that `RowID`. -/
theorem collectAdded_listeners (active : Ptr) (fes : List Ptr) (h : Heap) (acc : List Ptr)
    (hvalid : PoolsValid h fes) (hdisj : ∀ d ∈ fes, d ∉ h.configs active)
    (d : Ptr) (hd : d ∈ fes) (e : Ptr)
    (he : firstWithRowID h (h.frontends d).RowID (h.configs active) = some e) :
    ((collectAdded active fes h acc).1.frontends d).Listeners = (h.frontends e).Listeners := by
  induction fes generalizing h acc with
  | nil => simp at hd
  | cons x fes ih =>
    have hxgood : ¬ BadPools (h.frontends x) := hvalid x (List.mem_cons_self _ _)
    have hxa : x ∉ h.configs active := hdisj x (List.mem_cons_self _ _)
    have hea : e ∈ h.configs active := firstWithRowID_mem he
    have hex : e ≠ x := fun c => hxa (c ▸ hea)
    have hm := matchAdded_frame x (h.configs active) h
    have hother := matchAdded_frontends_other x (h.configs active) h e hex
    have key : ∀ (h1 : Heap) (acc' : List Ptr), h1 = (matchAdded x (h.configs active) h).1 →
        ((collectAdded active fes h1 acc').1.frontends d).Listeners =
          (h.frontends e).Listeners := by
      intro h1 acc' hh1
      subst hh1
      by_cases hdf : d ∈ fes
      · rw [ih _ acc' (fun y hy => (hm.badPools_iff y).not.mpr
            (hvalid y (List.mem_cons_of_mem _ hy)))
          (fun y hy => by rw [hm.configs]; exact hdisj y (List.mem_cons_of_mem _ hy)) hdf
          (by rw [hm.rowID, hm.configs, hm.firstWithRowID_eq]; exact he), hother]
      · have hdx : d = x := by
          rcases List.mem_cons.mp hd with hd | hd
          · exact hd
          · exact absurd hd hdf
        subst hdx
        rw [collectAdded_frontends_other _ _ _ _ d hdf]
        exact matchAdded_listeners d _ h e he
    unfold collectAdded
    split
    · next hbad =>
      exact absurd ⟨hbad.1, by have := hbad.2; omega⟩ hxgood
    · split
      · next hbad =>
        exact absurd ⟨hbad.1, by have := hbad.2; omega⟩ hxgood
      · split
        · next h1 heq => exact key h1 _ (by rw [heq])
        · next h1 heq => exact key h1 _ (by rw [heq])

/-- The Listener maps on which the stop phase of a reload runs, for a desired
configuration that is valid and shares no frontend with `active`: a frontend whose
`RowID` occurs in `active` holds the map that the first frontend of `active` with that
`RowID` held before the call. -/
theorem stopHeap_listeners_matched (active cfg : Ptr) (h : Heap)
    (hvalid : PoolsValid h (h.configs cfg))
    (hdisj : ∀ d ∈ h.configs cfg, d ∉ h.configs active)
    (d : Ptr) (hd : d ∈ h.configs cfg) (e : Ptr)
    (he : firstWithRowID h (h.frontends d).RowID (h.configs active) = some e) :
    ((stopHeap active cfg h).frontends d).Listeners = (h.frontends e).Listeners := by
  have hi := initConfig_frame cfg h
  have hc : (initConfig cfg h).configs = h.configs := hi.configs
  have hr := collectRemoved_frame cfg (h.configs active) (initConfig cfg h) []
  have hrc : (collectRemoved cfg (h.configs active) (initConfig cfg h) []).1.configs =
      h.configs := hr.configs.trans hc
  have hea : e ∈ h.configs active := firstWithRowID_mem he
  have hec : e ∉ h.configs cfg := fun c => hdisj e c hea
  have hinit : (initConfig cfg h).frontends e = h.frontends e :=
    initFrontends_frontends_other _ e h hec
  unfold stopHeap matchedHeap
  simp only [hc]
  rw [hrc, collectAdded_listeners active _ _ [] ?_ ?_ d hd e ?_]
  · rw [collectRemoved_frontends_other _ _ _ _ e (by rw [hc]; exact hec), hinit]
  · intro y hy
    exact (hr.badPools_iff y).not.mpr ((hi.init_badPools_iff y).not.mpr (hvalid y hy))
  · rw [hrc]; exact hdisj
  · rw [hr.rowID, hi.rowID, hrc, hr.firstWithRowID_eq, hi.init_firstWithRowID_eq]
    exact he

/-- An added frontend reaches the stop phase as `initConfig` left it. -/
theorem stopHeap_frontends_added (active cfg : Ptr) (h : Heap) (fe : Ptr)
    (hfe : (h.frontends fe).RowID ∉ rowIDs h (h.configs active)) :
    (stopHeap active cfg h).frontends fe = (initConfig cfg h).frontends fe := by
  have hi := initConfig_frame cfg h
  have hc : (initConfig cfg h).configs = h.configs := hi.configs
  have hr := collectRemoved_frame cfg (h.configs active) (initConfig cfg h) []
  unfold stopHeap matchedHeap
  simp only [hc]
  rw [collectAdded_frontends_rowID active _ _ [] fe
      (by rw [hr.rowID, hi.rowID, hr.rowIDs_eq, hr.configs, hc, hi.init_rowIDs_eq]; exact hfe),
    collectRemoved_frontends_rowID cfg _ _ [] fe
      (by rw [hi.rowID, hi.init_rowIDs_eq]; exact hfe)]

/-- The start phase of a reload, with a framed `addTCPPort`: the frontend objects are
those of the stop phase and every map allocated before the call keeps its content. -/
theorem startPhase_frame (env : Env) (hframe : env.Framed) (active cfg : Ptr) (s : St) :
    (startPhase env active cfg s).heap.frontends = (stopHeap active cfg s.heap).frontends ∧
      ∀ m, m < s.heap.next →
        (startPhase env active cfg s).heap.maps m = s.heap.maps m := by
  have hrun := stopRemoved_run env (removedOf s.heap active cfg)
    { heap := stopHeap active cfg s.heap, trace := s.trace ++ [.lock] }
  have hheap : (stopPhase env active cfg s).1.heap = stopHeap active cfg s.heap := hrun.heap
  have hd := initConfig_done cfg s.heap
  have key := startAdded_invariant env
    (fun h => h.frontends = (stopHeap active cfg s.heap).frontends ∧
      ∀ m, m < s.heap.next → h.maps m = s.heap.maps m)
    (addedOf s.heap active cfg)
    (fun fe hfe h hh => by
      refine ⟨(hframe.frontends fe h).trans hh.1, fun m hm => ?_⟩
      rw [hframe.maps fe h m ?_]
      · exact hh.2 m hm
      · obtain ⟨hfc, hfr⟩ := mem_addedOf.mp hfe
        obtain ⟨m', h1, h2, _, _⟩ := hd.maps fe hfc
        rw [hh.1, stopHeap_frontends_added active cfg s.heap fe hfr, h1]
        intro e
        have : m' = m := Option.some.inj e
        rw [this] at h2
        exact absurd hm (Nat.not_lt.mpr h2))
    (stopPhase env active cfg s).1
    (by
      rw [hheap]
      exact ⟨rfl, fun m hm => stopHeap_maps_old active cfg s.heap m hm⟩)
  exact key

/-! ## C1: identity preservation -/

/-- C1: let a reload return success, the desired configuration being a new tree (it
shares no frontend object with `active`), the Listener maps of `active` being allocated,
`addTCPPort` writing to nothing but the map of the frontend it is given, and no listener
being shared between frontends of `active` of different `RowID`.  Then every frontend `d`
of `cfg` whose `RowID` occurs in `active` ends with its `Listeners` field equal to the
pointer held before the call by the first frontend `e` of `active` with that `RowID`; the
map it points to has the same entries (the same listener objects) as before; `Stop` was
invoked on none of its listeners; and `addListener` was not invoked on `d`. -/
theorem reload_preserves_identity (env : Env) (active cfg : Ptr) (s : St)
    (hok : (Activate env (some active) cfg s).outcome = .ok)
    (hdisj : ∀ d ∈ s.heap.configs cfg, d ∉ s.heap.configs active)
    (halloc : ∀ fe ∈ s.heap.configs active, MapAllocated s.heap fe)
    (hframe : env.Framed)
    (hown : ListenersOwned s.heap active) :
    ∃ evs, (Activate env (some active) cfg s).st.trace = s.trace ++ evs ∧
      ∀ d ∈ s.heap.configs cfg, ∀ e,
        firstWithRowID s.heap (s.heap.frontends d).RowID (s.heap.configs active) = some e →
          ((Activate env (some active) cfg s).st.heap.frontends d).Listeners =
              (s.heap.frontends e).Listeners ∧
            (∀ m, (s.heap.frontends e).Listeners = some m →
              (Activate env (some active) cfg s).st.heap.maps m = s.heap.maps m) ∧
            (∀ l ∈ listenersOf s.heap e, l ∉ stopsOf evs) ∧
            d ∉ spawnsOf evs := by
  have hvalid : PoolsValid s.heap (s.heap.configs cfg) := by
    apply firstBad_eq_none.mp
    cases hbad : firstBad s.heap (s.heap.configs cfg) with
    | none => rfl
    | some f => rw [Activate_reload_invalid env active cfg s f hbad] at hok; cases hok
  have hstop : (stopPhase env active cfg s).2 = .ok := by
    by_contra hne
    rw [Activate_reload_valid_panic env active cfg s hvalid hne] at hok
    exact hne hok
  have hrun := stopPhase_run env active cfg s
    fun fe hfe => halloc fe (mem_removedOf.mp hfe).1
  obtain ⟨e1, he1, ha1, _, hs1⟩ := hrun.trace
  obtain ⟨e2, he2, ha2, hs2⟩ := startAdded_trace env (addedOf s.heap active cfg)
    (stopPhase env active cfg s).1
  obtain ⟨hfront, hmaps⟩ := startPhase_frame env hframe active cfg s
  refine ⟨[.lock] ++ e1 ++ e2 ++ [.unlock], ?_, ?_⟩
  · rw [Activate_reload_valid_ok env active cfg s hvalid hstop]
    simp only [startPhase]
    rw [he2, he1]
    simp
  · intro d hd e he
    have hea : e ∈ s.heap.configs active := firstWithRowID_mem he
    have hrow : (s.heap.frontends e).RowID = (s.heap.frontends d).RowID :=
      firstWithRowID_rowID he
    rw [Activate_reload_valid_ok env active cfg s hvalid hstop]
    simp only [installFrontends]
    refine ⟨?_, ?_, ?_, ?_⟩
    · rw [hfront]
      exact stopHeap_listeners_matched active cfg s.heap hvalid hdisj d hd e he
    · intro m hm
      exact hmaps m (halloc e hea m hm)
    · intro l hl hmem
      rw [stopsOf_reload_events _ _ ha2, hs1 hstop, List.mem_flatMap] at hmem
      obtain ⟨r, hr, hlr⟩ := hmem
      have hr' := mem_removedOf.mp hr
      have hne : (s.heap.frontends e).RowID ≠ (s.heap.frontends r).RowID := by
        intro heq
        apply hr'.2
        rw [← heq, hrow]
        exact rowID_mem_rowIDs hd
      exact hown e hea r hr'.1 hne l hl hlr
    · intro hmem
      rw [spawnsOf_reload_events _ _ ha1, hs2] at hmem
      apply (mem_addedOf.mp hmem).2
      rw [← hrow]
      exact rowID_mem_rowIDs hea

/-- C1 at a concrete input: the reload of `reloadHeap`, whose desired frontend 2 has the
`RowID` of the active frontend 0. -/
theorem reload_preserves_identity_witness :
    ∃ evs, (Activate failingEnv (some 0) 1 ⟨reloadHeap, []⟩).st.trace = [] ++ evs ∧
      ∀ d ∈ reloadHeap.configs 1, ∀ e,
        firstWithRowID reloadHeap (reloadHeap.frontends d).RowID (reloadHeap.configs 0) =
            some e →
          ((Activate failingEnv (some 0) 1 ⟨reloadHeap, []⟩).st.heap.frontends d).Listeners =
              (reloadHeap.frontends e).Listeners ∧
            (∀ m, (reloadHeap.frontends e).Listeners = some m →
              (Activate failingEnv (some 0) 1 ⟨reloadHeap, []⟩).st.heap.maps m =
                reloadHeap.maps m) ∧
            (∀ l ∈ listenersOf reloadHeap e, l ∉ stopsOf evs) ∧
            d ∉ spawnsOf evs :=
  reload_preserves_identity failingEnv 0 1 ⟨reloadHeap, []⟩ (by decide) (by decide)
    (by decide) failingEnv_framed (by decide)

/-! ## Closes issued by `Stop` -/

theorem closesOf_logIf (s : St) (err : Option String) :
    closesOf (s.logIf err).trace = closesOf s.trace := by
  cases err with
  | none => rfl
  | some msg => simp [St.logIf, St.emit, closesOf_append, closesOf]

theorem stopsOf_logIf (s : St) (err : Option String) :
    stopsOf (s.logIf err).trace = stopsOf s.trace := by
  cases err with
  | none => rfl
  | some msg => simp [St.logIf, St.emit, stopsOf_append, stopsOf]

/-- The inner loop of `Stop` issues one close per connection, in order, whatever the
closes return. -/
theorem closeConns_closes (env : Env) (conns : List (Option Ptr)) (s : St)
    (hall : ∀ c ∈ conns, c.isSome = true) :
    closesOf (closeConns env conns s).1.trace = closesOf s.trace ++ conns.filterMap id ∧
      (closeConns env conns s).2 = .ok := by
  induction conns generalizing s with
  | nil => simp [closeConns]
  | cons c conns ih =>
    cases c with
    | none => simpa using hall none (List.mem_cons_self _ _)
    | some c =>
      have := ih ((s.emit (.connClose c)).logIf (env.connClose s.trace c))
        fun x hx => hall x (List.mem_cons_of_mem _ hx)
      simp only [closeConns]
      rw [this.1, closesOf_logIf]
      refine ⟨?_, this.2⟩
      simp [St.emit, closesOf_append, closesOf]

/-- The outer loop of `Stop` issues one close per connection under every key, in order,
whatever the closes return. -/
theorem closeAllConns_closes (env : Env) (m : List (Int × List (Option Ptr))) (s : St)
    (hall : ∀ kv ∈ m, ∀ c ∈ kv.2, c.isSome = true) :
    closesOf (closeAllConns env m s).1.trace =
        closesOf s.trace ++ (m.flatMap fun kv => kv.2).filterMap id ∧
      (closeAllConns env m s).2 = .ok := by
  induction m generalizing s with
  | nil => simp [closeAllConns]
  | cons kv m ih =>
    have h1 := closeConns_closes env kv.2 s (hall kv (List.mem_cons_self _ _))
    unfold closeAllConns
    split
    · next s1 heq =>
      rw [heq] at h1
      have h2 := ih s1 fun x hx => hall x (List.mem_cons_of_mem _ hx)
      refine ⟨?_, h2.2⟩
      rw [h2.1]
      simp only at h1
      rw [h1.1, List.flatMap_cons, List.filterMap_append, List.append_assoc]
    · next r hne =>
      exfalso
      apply hne (closeConns env kv.2 s).1
      rw [← h1.2]

/-- The closes issued by one `Stop` on a listener with a socket and non-nil connections:
the socket, then every tracked connection. -/
theorem Listener.Stop_closes (env : Env) (l : Ptr) (s : St) (hready : ListenerReady s.heap l) :
    ∃ sock, (s.heap.listeners l).Socket = some sock ∧
      closesOf (Listener.Stop env l s).1.trace =
        closesOf s.trace ++ sock :: connsOf s.heap l ∧
      stopsOf (Listener.Stop env l s).1.trace = stopsOf s.trace ++ [l] ∧
      (Listener.Stop env l s).1.heap = s.heap ∧
      (Listener.Stop env l s).2 = .ok := by
  obtain ⟨hsock, hconns⟩ := hready
  cases hs : (s.heap.listeners l).Socket with
  | none => rw [hs] at hsock; simp at hsock
  | some sock =>
    have hrun := Listener.Stop_run env l s
    obtain ⟨evs, hevs, _, _, hstops⟩ := hrun.trace
    have hok := hrun.ok_of_ready ⟨hsock, hconns⟩
    refine ⟨sock, rfl, ?_, ?_, hrun.heap, hok⟩
    · unfold Listener.Stop
      simp only [St.emit, hs, logIf_heap]
      have := closeAllConns_closes env (s.heap.listeners l).Connections
        (St.logIf { heap := s.heap, trace := s.trace ++ [Event.stop l] ++ [Event.socketClose sock] }
          (env.socketClose (s.trace ++ [Event.stop l]) sock)) hconns
      rw [this.1, closesOf_logIf]
      simp [closesOf_append, closesOf, connsOf]
    · rw [hevs, stopsOf_append, hstops hok]

/-! ## C12: `Stop` closes everything, best-effort -/

/-- C12: on a listener with a bound socket whose tracked connections are non-nil, `Stop`
issues a close on the socket and then exactly one close on every connection under every
key of `Connections`, in order, and returns normally; this holds whatever error the
socket close or any connection close returns. -/
theorem stop_closes_everything (env : Env) (l : Ptr) (s : St)
    (hready : ListenerReady s.heap l) :
    ∃ sock, (s.heap.listeners l).Socket = some sock ∧
      closesOf (Listener.Stop env l s).1.trace =
        closesOf s.trace ++ sock :: connsOf s.heap l ∧
      (Listener.Stop env l s).2 = .ok := by
  obtain ⟨sock, h1, h2, _, _, h5⟩ := Listener.Stop_closes env l s hready
  exact ⟨sock, h1, h2, h5⟩

/-- C12 at a concrete input: listener 2 of `reloadHeap`, every close failing. -/
theorem stop_closes_everything_witness :
    ∃ sock, (reloadHeap.listeners 2).Socket = some sock ∧
      closesOf (Listener.Stop erringEnv 2 ⟨reloadHeap, []⟩).1.trace =
        closesOf [] ++ sock :: connsOf reloadHeap 2 ∧
      (Listener.Stop erringEnv 2 ⟨reloadHeap, []⟩).2 = .ok :=
  stop_closes_everything erringEnv 2 ⟨reloadHeap, []⟩ (by decide)

/-! ## C13: `Stop` twice -/

theorem socketClosesOf_append (a b : List Event) :
    socketClosesOf (a ++ b) = socketClosesOf a ++ socketClosesOf b := by
  simp [socketClosesOf, List.filterMap_append]

theorem socketClosesOf_logIf (s : St) (err : Option String) :
    socketClosesOf (s.logIf err).trace = socketClosesOf s.trace := by
  cases err with
  | none => rfl
  | some msg => simp [St.logIf, St.emit, socketClosesOf_append, socketClosesOf]

theorem closeConns_socketCloses (env : Env) (conns : List (Option Ptr)) (s : St) :
    socketClosesOf (closeConns env conns s).1.trace = socketClosesOf s.trace := by
  induction conns generalizing s with
  | nil => rfl
  | cons c conns ih =>
    cases c with
    | none => rfl
    | some c =>
      simp only [closeConns]
      rw [ih, socketClosesOf_logIf]
      simp [St.emit, socketClosesOf_append, socketClosesOf]

theorem closeAllConns_socketCloses (env : Env) (m : List (Int × List (Option Ptr))) (s : St) :
    socketClosesOf (closeAllConns env m s).1.trace = socketClosesOf s.trace := by
  induction m generalizing s with
  | nil => rfl
  | cons kv m ih =>
    have h1 := closeConns_socketCloses env kv.2 s
    unfold closeAllConns
    split
    · next s1 heq => rw [heq] at h1; rw [ih]; exact h1
    · exact h1

/-- Every `Stop` on a listener with a socket issues a close on that socket. -/
theorem Listener.Stop_socketCloses (env : Env) (l : Ptr) (s : St) (sock : Ptr)
    (hs : (s.heap.listeners l).Socket = some sock) :
    socketClosesOf (Listener.Stop env l s).1.trace = socketClosesOf s.trace ++ [sock] := by
  unfold Listener.Stop
  simp only [St.emit, hs, logIf_heap]
  rw [closeAllConns_socketCloses, socketClosesOf_logIf]
  simp [socketClosesOf_append, socketClosesOf]

/-- C13, as stated, fails: two calls of `Stop` in a row on listener 1 of `reloadHeap`,
whose socket is 101, issue two closes on socket 101. -/
theorem stop_twice_counterexample :
    (reloadHeap.listeners 1).Socket = some 101 ∧
      socketClosesOf
        (Listener.Stop quietEnv 1 (Listener.Stop quietEnv 1 ⟨reloadHeap, []⟩).1).1.trace =
        [101, 101] := by
  decide

/-- C13, amended: on a listener with a bound socket whose tracked connections are
non-nil, two calls of `Stop` in a row each issue a close on the socket (two closes in
all), both calls return normally whatever the closes return, and `Stop` writes nothing to
the heap: the listener object is the same before, between and after the calls. -/
theorem stop_twice (env : Env) (l : Ptr) (s : St) (hready : ListenerReady s.heap l) :
    ∃ sock, (s.heap.listeners l).Socket = some sock ∧
      socketClosesOf (Listener.Stop env l (Listener.Stop env l s).1).1.trace =
        socketClosesOf s.trace ++ [sock, sock] ∧
      (Listener.Stop env l s).2 = .ok ∧
      (Listener.Stop env l (Listener.Stop env l s).1).2 = .ok ∧
      (Listener.Stop env l s).1.heap = s.heap ∧
      (Listener.Stop env l (Listener.Stop env l s).1).1.heap = s.heap := by
  obtain ⟨sock, h1, _, _, h4, h5⟩ := Listener.Stop_closes env l s hready
  have hready' : ListenerReady (Listener.Stop env l s).1.heap l := by rw [h4]; exact hready
  obtain ⟨sock', h1', _, _, h4', h5'⟩ :=
    Listener.Stop_closes env l (Listener.Stop env l s).1 hready'
  refine ⟨sock, h1, ?_, h5, h5', h4, h4'.trans h4⟩
  rw [Listener.Stop_socketCloses env l _ sock (by rw [h4]; exact h1),
    Listener.Stop_socketCloses env l s sock h1]
  simp

/-- C13, amended, at a concrete input: listener 2 of `reloadHeap`, every close failing. -/
theorem stop_twice_witness :
    ∃ sock, (reloadHeap.listeners 2).Socket = some sock ∧
      socketClosesOf
          (Listener.Stop erringEnv 2 (Listener.Stop erringEnv 2 ⟨reloadHeap, []⟩).1).1.trace =
        socketClosesOf [] ++ [sock, sock] ∧
      (Listener.Stop erringEnv 2 ⟨reloadHeap, []⟩).2 = .ok ∧
      (Listener.Stop erringEnv 2 (Listener.Stop erringEnv 2 ⟨reloadHeap, []⟩).1).2 = .ok ∧
      (Listener.Stop erringEnv 2 ⟨reloadHeap, []⟩).1.heap = reloadHeap ∧
      (Listener.Stop erringEnv 2 (Listener.Stop erringEnv 2 ⟨reloadHeap, []⟩).1).1.heap =
        reloadHeap :=
  stop_twice erringEnv 2 ⟨reloadHeap, []⟩ (by decide)

/-! ## The events of any call of `Activate` -/

/-- The events of a reload, however it ends: `Lock`, stop-phase events, start-phase
events, `Unlock`; the health-check spawns are those of the added frontends when the call
returns success, and there is none otherwise. -/
theorem Activate_reload_events (env : Env) (active cfg : Ptr) (s : St) :
    ∃ stopEvs startEvs,
      (Activate env (some active) cfg s).st.trace =
        s.trace ++ ([.lock] ++ stopEvs ++ startEvs ++ [.unlock]) ∧
      (∀ e ∈ stopEvs, e.isStopPhase = true) ∧
      (∀ e ∈ startEvs, e.isStartPhase = true) ∧
      ((Activate env (some active) cfg s).outcome = .ok →
        spawnsOf startEvs = addedOf s.heap active cfg) ∧
      ((Activate env (some active) cfg s).outcome ≠ .ok → startEvs = []) := by
  cases hbad : firstBad s.heap (s.heap.configs cfg) with
  | some f =>
    rw [Activate_reload_invalid env active cfg s f hbad]
    exact ⟨[], [], by simp, by simp, by simp, by simp, by simp⟩
  | none =>
    have hvalid := firstBad_eq_none.mp hbad
    have hrun := stopRemoved_run env (removedOf s.heap active cfg)
      { heap := stopHeap active cfg s.heap, trace := s.trace ++ [.lock] }
    obtain ⟨e1, he1, ha1, _, _⟩ := hrun.trace
    have he1' : (stopPhase env active cfg s).1.trace = s.trace ++ [.lock] ++ e1 := he1
    by_cases hok : (stopPhase env active cfg s).2 = .ok
    · obtain ⟨e2, he2, ha2, hs2⟩ := startAdded_trace env (addedOf s.heap active cfg)
        (stopPhase env active cfg s).1
      rw [Activate_reload_valid_ok env active cfg s hvalid hok]
      refine ⟨e1, e2, ?_, ha1, ha2, fun _ => hs2, fun h => absurd rfl h⟩
      simp only [startPhase]
      rw [he2, he1']
      simp
    · rw [Activate_reload_valid_panic env active cfg s hvalid hok]
      refine ⟨e1, [], ?_, ha1, by simp, fun h => absurd h hok, fun _ => rfl⟩
      simp only [St.emit]
      rw [he1']
      simp

/-- The loop of first activation appends start-phase events only. -/
theorem startAll_trace (env : Env) (fes : List Ptr) (s : St) :
    ∃ evs, (startAll env fes s).1.trace = s.trace ++ evs ∧
      ∀ e ∈ evs, e.isStartPhase = true := by
  induction fes generalizing s with
  | nil => exact ⟨[], by simp [startAll], by simp⟩
  | cons fe fes ih =>
    obtain ⟨e1, he1, ha1, _⟩ := addListener_trace env fe s
    unfold startAll
    split
    · next s1 heq =>
      rw [heq] at he1
      obtain ⟨e2, he2, ha2⟩ := ih s1
      refine ⟨e1 ++ e2, ?_, ?_⟩
      · rw [he2]; simp only at he1; rw [he1]; simp
      · intro e he
        rcases List.mem_append.mp he with he | he
        · exact ha1 e he
        · exact ha2 e he
    · next s1 msg heq =>
      rw [heq] at he1
      exact ⟨e1, he1, ha1⟩

/-- The events of any call of `Activate`: `Lock` first, `Unlock` last, and no call on the
mutex in between. -/
theorem Activate_bracket (env : Env) (active : Option Ptr) (cfg : Ptr) (s : St) :
    ∃ mid, (Activate env active cfg s).st.trace = s.trace ++ ([.lock] ++ mid ++ [.unlock]) ∧
      locksOf mid = [] := by
  cases active with
  | none =>
    obtain ⟨evs, hevs, hall⟩ :=
      startAll_trace env ((entryState cfg s).heap.configs cfg) (entryState cfg s)
    refine ⟨evs, ?_, locksOf_startPhase hall⟩
    rw [Activate_first_st]
    simp only [St.emit]
    rw [hevs, entryState_trace]
    simp
  | some a =>
    obtain ⟨e1, e2, htr, h1, h2, _, _⟩ := Activate_reload_events env a cfg s
    refine ⟨e1 ++ e2, ?_, ?_⟩
    · rw [htr]; simp
    · rw [locksOf_append, locksOf_stopPhase h1, locksOf_startPhase h2]; rfl

theorem lockHeld_of_no_locks (evs : List Event) (h : locksOf evs = []) (b : Bool) :
    evs.foldl (fun held e => match e with
      | .lock => true
      | .unlock => false
      | _ => held) b = b := by
  induction evs with
  | nil => rfl
  | cons e evs ih =>
    cases e <;> simp_all [locksOf]

theorem locksOf_initial {p evs : List Event} (hp : p <+: evs) (h : locksOf evs = []) :
    locksOf p = [] := by
  obtain ⟨t, rfl⟩ := hp
  rw [locksOf_append] at h
  exact (List.append_eq_nil.mp h).1

/-! ## C14: the activation lock is never leaked -/

/-- C14: in every call of `Activate`, first activation or reload and however it ends
(success, error of a listener creation, pool-count error, or a panic), the first event is
the `Lock`, the last is the deferred `Unlock`, no other call on the mutex is made in
between, the mutex is held at every point in between and it is free when the call
returns.  (`initConfig` and everything else run on the state after the `Lock`.) -/
theorem lock_never_leaked (env : Env) (active : Option Ptr) (cfg : Ptr) (s : St) :
    ∃ mid, (Activate env active cfg s).st.trace = s.trace ++ ([.lock] ++ mid ++ [.unlock]) ∧
      locksOf mid = [] ∧
      locksOf ([.lock] ++ mid ++ [.unlock]) = [.lock, .unlock] ∧
      (∀ p, p <+: mid → lockHeld ([.lock] ++ p) = true) ∧
      lockHeld ([.lock] ++ mid ++ [.unlock]) = false := by
  obtain ⟨mid, htr, hmid⟩ := Activate_bracket env active cfg s
  refine ⟨mid, htr, hmid, ?_, ?_, ?_⟩
  · rw [locksOf_append, locksOf_append, hmid]; rfl
  · intro p hp
    unfold lockHeld
    rw [List.foldl_append]
    exact lockHeld_of_no_locks p (locksOf_initial hp hmid) true
  · unfold lockHeld
    rw [List.foldl_append, List.foldl_append]
    rfl

/-! ## The stop phase and nil -/

theorem initFrontend_maps_cases (x : Ptr) (h : Heap) (m : Ptr) :
    (initFrontend x h).maps m = h.maps m ∨ (initFrontend x h).maps m = [] := by
  by_cases hm : m = h.next
  · right; simp [initFrontend, initPools_maps, upd, hm]
  · left; simp [initFrontend, initPools_maps, setListeners, upd, hm]

theorem initFrontends_maps_cases (fes : List Ptr) (h : Heap) (m : Ptr) :
    (initFrontends fes h).maps m = h.maps m ∨ (initFrontends fes h).maps m = [] := by
  induction fes generalizing h with
  | nil => exact Or.inl rfl
  | cons x fes ih =>
    rcases ih (initFrontend x h) with h1 | h1
    · rcases initFrontend_maps_cases x h m with h2 | h2
      · exact Or.inl (h1.trans h2)
      · exact Or.inr (h1.trans h2)
    · exact Or.inr h1

/-- At the stop phase every map either has the entries it had before the call or is
empty. -/
theorem stopHeap_maps_cases (active cfg : Ptr) (h : Heap) (m : Ptr) :
    (stopHeap active cfg h).maps m = h.maps m ∨ (stopHeap active cfg h).maps m = [] := by
  unfold stopHeap
  rw [(matchedHeap_frame _ _ _).maps]
  exact initFrontends_maps_cases _ h m

/-- A frontend outside the desired configuration that `Stop` can run on before the call
is one that `Stop` can run on at the stop phase. -/
theorem stopHeap_stopReady_of (active cfg : Ptr) (h : Heap) (fe : Ptr)
    (hfe : fe ∉ h.configs cfg) (hr : StopReady h fe) :
    StopReady (stopHeap active cfg h) fe := by
  unfold StopReady at hr ⊢
  rw [stopHeap_frontends_other active cfg h fe hfe]
  cases hl : (h.frontends fe).Listeners with
  | none => rw [hl] at hr; exact hr
  | some m =>
    rw [hl] at hr
    simp only at hr ⊢
    rcases stopHeap_maps_cases active cfg h m with hm | hm
    · rw [hm]
      exact (EntriesReady_congr (stopHeap_listeners active cfg h) _).mpr hr
    · rw [hm]
      intro kv hkv
      simp at hkv

/-- The stop phase of a reload returns normally when `Stop` can run on every removed
frontend. -/
theorem stopPhase_ok_of_stopReady (env : Env) (active cfg : Ptr) (s : St)
    (hready : ∀ fe ∈ removedOf s.heap active cfg, StopReady s.heap fe) :
    (stopPhase env active cfg s).2 = .ok := by
  have hrun := stopRemoved_run env (removedOf s.heap active cfg)
    { heap := stopHeap active cfg s.heap, trace := s.trace ++ [.lock] }
  apply hrun.ok_of_ready
  intro fe hfe
  exact stopHeap_stopReady_of active cfg s.heap fe (removed_not_desired hfe) (hready fe hfe)

/-- A valid reload returns success when `Stop` can run on every removed frontend. -/
theorem Activate_reload_ok_of_stopReady (env : Env) (active cfg : Ptr) (s : St)
    (hvalid : PoolsValid s.heap (s.heap.configs cfg))
    (hready : ∀ fe ∈ removedOf s.heap active cfg, StopReady s.heap fe) :
    (Activate env (some active) cfg s).outcome = .ok := by
  rw [Activate_reload_valid_ok env active cfg s hvalid
    (stopPhase_ok_of_stopReady env active cfg s hready)]

/-- A reload never panics when `Stop` can run on every removed frontend. -/
theorem Activate_reload_no_panic (env : Env) (active cfg : Ptr) (s : St)
    (hready : ∀ fe ∈ removedOf s.heap active cfg, StopReady s.heap fe) :
    (Activate env (some active) cfg s).outcome ≠ .panicked := by
  cases hbad : firstBad s.heap (s.heap.configs cfg) with
  | some f =>
    rw [Activate_reload_invalid env active cfg s f hbad]
    simp
  | none =>
    rw [Activate_reload_ok_of_stopReady env active cfg s (firstBad_eq_none.mp hbad) hready]
    simp

theorem startAll_invariant (env : Env) (P : Heap → Prop) (fes : List Ptr)
    (hP : ∀ fe h, P h → P (env.addTCPPort fe h).1) (s : St) (hs : P s.heap) :
    P (startAll env fes s).1.heap := by
  induction fes generalizing s with
  | nil => exact hs
  | cons fe fes ih =>
    have h1 : P (addListener env fe s).1.heap := by
      rcases addListener_heap env fe s with h | h
      · rw [h]; exact hs
      · rw [h]; exact hP fe _ hs
    unfold startAll
    split
    · next s1 heq => rw [heq] at h1; exact ih s1 h1
    · next s1 msg heq => rw [heq] at h1; exact h1

/-- After a first activation, however it ends, every frontend of the configuration holds
the non-nil Listener map that `initConfig` gave it, `addTCPPort` leaving the frontend
objects alone. -/
theorem Activate_first_listeners (env : Env) (cfg : Ptr) (s : St)
    (hframe : ∀ fe h, (env.addTCPPort fe h).1.frontends = h.frontends) (f : Ptr)
    (hf : f ∈ s.heap.configs cfg) :
    ((Activate env none cfg s).st.heap.frontends f).Listeners.isSome = true := by
  have hinv := startAll_invariant env
    (fun h => h.frontends = (initConfig cfg s.heap).frontends)
    ((entryState cfg s).heap.configs cfg) (fun fe h hh => (hframe fe h).trans hh)
    (entryState cfg s) rfl
  obtain ⟨m, hm, _⟩ := (initConfig_done cfg s.heap).maps f hf
  rw [Activate_first_st]
  simp only [St.emit]
  rw [hinv, hm]
  rfl

/-! ## C19: no nil dereference in the removal phase -/

/-- C19, as stated, fails: in `nilConnHeap` the only frontend of the active configuration
holds a non-nil Listener map whose only entry is a non-nil listener with a non-nil
socket, the frontend is removed by the reload, and the call panics, because the listener
tracks a connection that is nil. -/
theorem removal_phase_nil_counterexample :
    (∀ fe ∈ nilConnHeap.configs 0, MapBound nilConnHeap fe) ∧
      removedOf nilConnHeap 0 1 = [0] ∧
      (Activate quietEnv (some 0) 1 ⟨nilConnHeap, []⟩).outcome = .panicked := by
  decide

/-- C19, amended: when every frontend of `active` holds a non-nil Listener map whose
entries are non-nil listeners with a non-nil socket and non-nil tracked connections, the
stop phase of a reload returns normally and `Activate` does not panic; and after a first
activation every frontend of the configuration holds a non-nil Listener map
(`addTCPPort` leaving the frontend objects alone), which is the first part of that
precondition. -/
theorem removal_phase_no_nil (env : Env) (active cfg : Ptr) (s : St)
    (hready : ∀ fe ∈ s.heap.configs active, StopReady s.heap fe) :
    (stopPhase env active cfg s).2 = .ok ∧
      (Activate env (some active) cfg s).outcome ≠ .panicked ∧
      ((∀ fe h, (env.addTCPPort fe h).1.frontends = h.frontends) →
        ∀ f ∈ s.heap.configs cfg,
          ((Activate env none cfg s).st.heap.frontends f).Listeners.isSome = true) := by
  have hr : ∀ fe ∈ removedOf s.heap active cfg, StopReady s.heap fe :=
    fun fe hfe => hready fe (mem_removedOf.mp hfe).1
  exact ⟨stopPhase_ok_of_stopReady env active cfg s hr,
    Activate_reload_no_panic env active cfg s hr,
    fun hframe f hf => Activate_first_listeners env cfg s hframe f hf⟩

/-- C19, amended, at a concrete input: the reload of `reloadHeap`. -/
theorem removal_phase_no_nil_witness :
    (stopPhase erringEnv 0 1 ⟨reloadHeap, []⟩).2 = .ok ∧
      (Activate erringEnv (some 0) 1 ⟨reloadHeap, []⟩).outcome ≠ .panicked ∧
      ((∀ fe h, (erringEnv.addTCPPort fe h).1.frontends = h.frontends) →
        ∀ f ∈ reloadHeap.configs 1,
          ((Activate erringEnv none 1 ⟨reloadHeap, []⟩).st.heap.frontends f).Listeners.isSome =
            true) :=
  removal_phase_no_nil erringEnv 0 1 ⟨reloadHeap, []⟩ (by decide)

/-! ## C17: the exact error condition on reload -/

/-- C17: a reload returns an error exactly when some frontend of `cfg`, matched or
added, is non-http with a number of server pools other than one; the message is that of
the first such frontend in `cfg`'s order; and when there is none (an http frontend
without pools included, and whatever `addTCPPort` or `addListener` return for the added
frontends) the reload returns success, `Stop` being able to run on the removed frontends
(no nil map, listener, socket or connection). -/
theorem reload_error_iff (env : Env) (active cfg : Ptr) (s : St) :
    ((∃ msg, (Activate env (some active) cfg s).outcome = .error msg) ↔
        ∃ f ∈ s.heap.configs cfg, BadPools (s.heap.frontends f)) ∧
      (∀ pre f post, s.heap.configs cfg = pre ++ f :: post → PoolsValid s.heap pre →
        BadPools (s.heap.frontends f) →
        (Activate env (some active) cfg s).outcome =
          .error (if (s.heap.frontends f).ServerPools.length > 1
            then "Cannot have multiple server pools for non-HTTP frontends."
            else "Must have a server pool to send traffic to.")) ∧
      (PoolsValid s.heap (s.heap.configs cfg) →
        (∀ fe ∈ removedOf s.heap active cfg, StopReady s.heap fe) →
        (Activate env (some active) cfg s).outcome = .ok) := by
  refine ⟨⟨?_, ?_⟩, ?_, ?_⟩
  · rintro ⟨msg, hmsg⟩
    by_contra hnone
    have hvalid : PoolsValid s.heap (s.heap.configs cfg) := by
      intro f hf hb
      exact hnone ⟨f, hf, hb⟩
    exact Activate_reload_valid_no_error env active cfg s hvalid msg hmsg
  · rintro ⟨f, hf, hb⟩
    cases hbad : firstBad s.heap (s.heap.configs cfg) with
    | none => exact absurd hb (firstBad_eq_none.mp hbad f hf)
    | some g =>
      rw [Activate_reload_invalid env active cfg s g hbad]
      exact ⟨_, rfl⟩
  · intro pre f post hsplit hpre hf
    have hbad : firstBad s.heap (s.heap.configs cfg) = some f := by
      rw [hsplit]; exact firstBad_append hpre hf
    rw [Activate_reload_invalid env active cfg s f hbad]
    rfl
  · intro hvalid hready
    exact Activate_reload_ok_of_stopReady env active cfg s hvalid hready

/-- C17 at concrete inputs: the two-tcp configuration is rejected with the message of its
first frontend; the reload of `reloadHeap`, every `addTCPPort` failing, and the reload
onto an http frontend without pools return success. -/
theorem reload_error_iff_witness :
    (Activate quietEnv (some 0) 1 ⟨twoBadHeap, []⟩).outcome =
        .error (if (twoBadHeap.frontends 0).ServerPools.length > 1
          then "Cannot have multiple server pools for non-HTTP frontends."
          else "Must have a server pool to send traffic to.") ∧
      (Activate erringEnv (some 0) 1 ⟨reloadHeap, []⟩).outcome = .ok ∧
      (Activate erringEnv (some 0) 1 ⟨httpNoPoolHeap, []⟩).outcome = .ok :=
  ⟨(reload_error_iff quietEnv 0 1 ⟨twoBadHeap, []⟩).2.1 [] 0 [1] rfl (by decide) (by decide),
    (reload_error_iff erringEnv 0 1 ⟨reloadHeap, []⟩).2.2 (by decide) (by decide),
    (reload_error_iff erringEnv 0 1 ⟨httpNoPoolHeap, []⟩).2.2 (by decide) (by decide)⟩

/-! ## C20: the health-check spawn is unconditional -/

/-- The events of one call of `addListener`: the spawn of the frontend's health-check
loop first, then at most the call of `addTCPPort`. -/
theorem addListener_spawn_first (env : Env) (fe : Ptr) (s : St) :
    ∃ rest, (addListener env fe s).1.trace = s.trace ++ (.spawnHealthcheck fe :: rest) ∧
      (rest = [] ∨ rest = [.addTCPPort fe]) := by
  unfold addListener
  simp only [St.emit]
  split
  · exact ⟨[], rfl, Or.inl rfl⟩
  · split
    · exact ⟨[.addTCPPort fe], by simp, Or.inr rfl⟩
    · split
      · exact ⟨[], rfl, Or.inl rfl⟩
      · exact ⟨[], rfl, Or.inl rfl⟩

/-- C20: every call of `addListener` on a frontend appends the spawn of that frontend's
health-check loop as its first event, followed by no other spawn (at most by the call of
`addTCPPort`), whether the call returns an error or not; and in a reload, however it
ends, no health-check loop is spawned for a frontend of `cfg` whose `RowID` is the
`RowID` of a frontend of `active`. -/
theorem healthcheck_spawn_unconditional (env : Env) (active cfg : Ptr) (s : St) :
    (∀ fe, ∃ rest,
        (addListener env fe s).1.trace = s.trace ++ (.spawnHealthcheck fe :: rest) ∧
        spawnsOf (.spawnHealthcheck fe :: rest) = [fe] ∧
        (rest = [] ∨ rest = [.addTCPPort fe])) ∧
      (∃ evs, (Activate env (some active) cfg s).st.trace = s.trace ++ evs ∧
        ∀ d ∈ s.heap.configs cfg,
          (s.heap.frontends d).RowID ∈ rowIDs s.heap (s.heap.configs active) →
            d ∉ spawnsOf evs) := by
  constructor
  · intro fe
    obtain ⟨rest, h1, h2⟩ := addListener_spawn_first env fe s
    refine ⟨rest, h1, ?_, h2⟩
    rcases h2 with h | h <;> subst h <;> rfl
  · obtain ⟨e1, e2, htr, h1, _, hok, hnok⟩ := Activate_reload_events env active cfg s
    refine ⟨_, htr, ?_⟩
    intro d _ hrow hmem
    rw [spawnsOf_reload_events _ _ h1] at hmem
    by_cases ho : (Activate env (some active) cfg s).outcome = .ok
    · rw [hok ho] at hmem
      exact (mem_addedOf.mp hmem).2 hrow
    · rw [hnok ho] at hmem
      simp [spawnsOf] at hmem

/-- C20 at concrete inputs: `addListener` on the frontend of unknown type returns an
error and has spawned its health-check loop; in the reload of `reloadHeap` the matched
frontend 2 gets no spawn. -/
theorem healthcheck_spawn_unconditional_witness :
    ((addListener quietEnv 0 ⟨unknownTypeHeap, []⟩).2 = some "Unknown config type: quic" ∧
        spawnsOf (addListener quietEnv 0 ⟨unknownTypeHeap, []⟩).1.trace = [0]) ∧
      (∃ evs, (Activate erringEnv (some 0) 1 ⟨reloadHeap, []⟩).st.trace = [] ++ evs ∧
        ∀ d ∈ reloadHeap.configs 1,
          (reloadHeap.frontends d).RowID ∈ rowIDs reloadHeap (reloadHeap.configs 0) →
            d ∉ spawnsOf evs) :=
  ⟨by decide, (healthcheck_spawn_unconditional erringEnv 0 1 ⟨reloadHeap, []⟩).2⟩

/-! ## `strings.Split` at commas -/

theorem splitComma_ne_nil (cs : List Char) : splitComma cs ≠ [] := by
  induction cs with
  | nil => simp [splitComma]
  | cons c cs ih =>
    unfold splitComma
    split
    · simp
    · split <;> simp

theorem splitComma_cons_comma (cs : List Char) :
    splitComma (',' :: cs) = [] :: splitComma cs := by
  simp [splitComma]

theorem splitComma_cons_other (c : Char) (cs : List Char) (hc : c ≠ ',') :
    ∃ p ps, splitComma cs = p :: ps ∧ splitComma (c :: cs) = (c :: p) :: ps := by
  cases h : splitComma cs with
  | nil => exact absurd h (splitComma_ne_nil cs)
  | cons p ps => exact ⟨p, ps, rfl, by simp [splitComma, hc, h]⟩

/-- The number of parts is the number of commas plus one. -/
theorem splitComma_length (cs : List Char) :
    (splitComma cs).length = cs.count ',' + 1 := by
  induction cs with
  | nil => simp [splitComma]
  | cons c cs ih =>
    by_cases hc : c = ','
    · subst hc
      rw [splitComma_cons_comma]
      simp [ih]
    · obtain ⟨p, ps, h1, h2⟩ := splitComma_cons_other c cs hc
      rw [h2]
      rw [h1] at ih
      have : List.count ',' (c :: cs) = List.count ',' cs := by
        rw [List.count_cons]
        have : (c == ',') = false := by simpa using hc
        simp [this]
      rw [this, ← ih]
      simp

/-- No part contains a comma. -/
theorem splitComma_no_comma (cs : List Char) : ∀ p ∈ splitComma cs, ',' ∉ p := by
  induction cs with
  | nil => simp [splitComma]
  | cons c cs ih =>
    by_cases hc : c = ','
    · subst hc
      rw [splitComma_cons_comma]
      intro p hp
      rcases List.mem_cons.mp hp with hp | hp
      · subst hp; simp
      · exact ih p hp
    · obtain ⟨p, ps, h1, h2⟩ := splitComma_cons_other c cs hc
      rw [h2]
      rw [h1] at ih
      intro q hq
      rcases List.mem_cons.mp hq with hq | hq
      · subst hq
        intro hmem
        rcases List.mem_cons.mp hmem with hmem | hmem
        · exact hc hmem.symm
        · exact ih p (List.mem_cons_self _ _) hmem
      · exact ih q (List.mem_cons_of_mem _ hq)

theorem joinComma_cons (p : List Char) (ps : List (List Char)) (hps : ps ≠ []) :
    joinComma (p :: ps) = p ++ ',' :: joinComma ps := by
  cases ps with
  | nil => exact absurd rfl hps
  | cons q rest => rfl

/-- The parts joined by commas give the string back. -/
theorem joinComma_splitComma (cs : List Char) : joinComma (splitComma cs) = cs := by
  induction cs with
  | nil => rfl
  | cons c cs ih =>
    by_cases hc : c = ','
    · subst hc
      rw [splitComma_cons_comma, joinComma_cons _ _ (splitComma_ne_nil cs), ih]
      rfl
    · obtain ⟨p, ps, h1, h2⟩ := splitComma_cons_other c cs hc
      rw [h2]
      rw [h1] at ih
      cases ps with
      | nil => simp only [joinComma] at ih ⊢; rw [ih]
      | cons q rest =>
        simp only [joinComma] at ih ⊢
        rw [← ih]
        rfl

theorem splitComma_of_no_comma (p : List Char) (hp : ',' ∉ p) : splitComma p = [p] := by
  induction p with
  | nil => rfl
  | cons c cs ih =>
    simp only [List.mem_cons, not_or] at hp
    have hc : c ≠ ',' := fun e => hp.1 e.symm
    obtain ⟨q, qs, h1, h2⟩ := splitComma_cons_other c cs hc
    rw [h2]
    rw [ih hp.2] at h1
    cases h1
    rfl

theorem splitComma_append_comma (p rest : List Char) (hp : ',' ∉ p) :
    splitComma (p ++ ',' :: rest) = p :: splitComma rest := by
  induction p with
  | nil => exact splitComma_cons_comma rest
  | cons c cs ih =>
    simp only [List.mem_cons, not_or] at hp
    have hc : c ≠ ',' := fun e => hp.1 e.symm
    obtain ⟨q, qs, h1, h2⟩ := splitComma_cons_other c (cs ++ ',' :: rest) hc
    rw [List.cons_append, h2]
    rw [ih hp.2] at h1
    cases h1
    rfl

/-- Splitting the join of a non-empty sequence of comma-free parts gives the parts. -/
theorem splitComma_joinComma (parts : List (List Char)) (hne : parts ≠ [])
    (hno : ∀ p ∈ parts, ',' ∉ p) : splitComma (joinComma parts) = parts := by
  induction parts with
  | nil => exact absurd rfl hne
  | cons p ps ih =>
    cases ps with
    | nil => exact splitComma_of_no_comma p (hno p (List.mem_cons_self _ _))
    | cons q rest =>
      rw [joinComma_cons p _ (by simp),
        splitComma_append_comma p _ (hno p (List.mem_cons_self _ _)),
        ih (by simp) fun x hx => hno x (List.mem_cons_of_mem _ hx)]

/-! ## `strconv.Atoi` -/

theorem digitValue_eq_some {c : Char} (hc : 48 ≤ c.toNat ∧ c.toNat ≤ 57) :
    digitValue c = some (c.toNat - 48) := by
  simp [digitValue, hc]

theorem digitValue_eq_none {c : Char} (hc : ¬ (48 ≤ c.toNat ∧ c.toNat ≤ 57)) :
    digitValue c = none := by
  simp only [digitValue, hc, if_false]

theorem foldl_decimal_le (cs : List Char) (n : Nat) :
    n ≤ cs.foldl (fun n c => n * 10 + (c.toNat - 48)) n := by
  induction cs generalizing n with
  | nil => exact le_rfl
  | cons c cs ih =>
    simp only [List.foldl_cons]
    exact le_trans (by omega) (ih _)

/-- The digit loop succeeds exactly on a sequence of digits whose value, read after `n`,
does not exceed `2^w - 1`. -/
theorem parseUint_ok_iff (w : Nat) (cs : List Char) (n v : Nat) :
    parseUint w cs n = .ok v ↔
      (∀ c ∈ cs, 48 ≤ c.toNat ∧ c.toNat ≤ 57) ∧
        v = cs.foldl (fun n c => n * 10 + (c.toNat - 48)) n ∧
        (cs ≠ [] → v ≤ 2 ^ w - 1) := by
  induction cs generalizing n with
  | nil =>
    simp only [parseUint, List.foldl_nil, List.not_mem_nil, false_implies, implies_true,
      true_and, ne_eq, not_true_eq_false, and_true]
    constructor
    · intro h; cases h; rfl
    · intro h; rw [h]
  | cons c cs ih =>
    by_cases hc : 48 ≤ c.toNat ∧ c.toNat ≤ 57
    · simp only [parseUint, digitValue_eq_some hc, List.foldl_cons]
      by_cases hover : n * 10 + (c.toNat - 48) > 2 ^ w - 1
      · simp only [hover, if_true]
        constructor
        · intro h; cases h
        · rintro ⟨_, hv, hb⟩
          have := foldl_decimal_le cs (n * 10 + (c.toNat - 48))
          have := hb (by simp)
          omega
      · simp only [hover, if_false, ih]
        constructor
        · rintro ⟨h1, h2, h3⟩
          refine ⟨?_, h2, ?_⟩
          · intro x hx
            rcases List.mem_cons.mp hx with hx | hx
            · subst hx; exact hc
            · exact h1 x hx
          · intro _
            by_cases hcs : cs = []
            · subst hcs
              simp only [List.foldl_nil] at h2
              omega
            · exact h3 hcs
        · rintro ⟨h1, h2, h3⟩
          exact ⟨fun x hx => h1 x (List.mem_cons_of_mem _ hx), h2, fun _ => h3 (by simp)⟩
    · simp only [parseUint, digitValue_eq_none hc]
      constructor
      · intro h; cases h
      · rintro ⟨h1, _, _⟩
        exact absurd (h1 c (List.mem_cons_self _ _)) hc

theorem parseUint_zero_ok_iff (w : Nat) (cs : List Char) (hcs : cs ≠ []) (v : Nat) :
    parseUint w cs 0 = .ok v ↔
      (∀ c ∈ cs, 48 ≤ c.toNat ∧ c.toNat ≤ 57) ∧ v = decimalValue cs ∧ v ≤ 2 ^ w - 1 := by
  rw [parseUint_ok_iff]
  simp [decimalValue, hcs]

theorem two_pow_pred_le (w : Nat) (hw : 0 < w) : 2 ^ (w - 1) ≤ 2 ^ w - 1 := by
  obtain ⟨k, rfl⟩ : ∃ k, w = k + 1 := ⟨w - 1, by omega⟩
  have : 0 < 2 ^ k := Nat.pow_pos (by decide)
  simp only [Nat.add_sub_cancel, pow_succ]
  omega

theorem atoiSigned_ok_iff (w : Nat) (hw : 0 < w) (s : List Char) (neg : Bool)
    (digits : List Char) (n : Int) :
    atoiSigned w s neg digits = .ok n ↔
      digits ≠ [] ∧ (∀ c ∈ digits, 48 ≤ c.toNat ∧ c.toNat ≤ 57) ∧
        n = (if neg = true then -(decimalValue digits : Int) else (decimalValue digits : Int)) ∧
        -(2 ^ (w - 1) : Int) ≤ n ∧ n < 2 ^ (w - 1) := by
  have hpow : ((2 ^ (w - 1) : Nat) : Int) = (2 : Int) ^ (w - 1) := by push_cast; rfl
  have hle := two_pow_pred_le w hw
  have hpos : 0 < 2 ^ (w - 1) := Nat.pow_pos (by decide)
  unfold atoiSigned
  rw [← hpow]
  generalize 2 ^ (w - 1) = P at hle hpos ⊢
  by_cases hd : digits = []
  · simp [hd]
  · simp only [hd, if_false, ne_eq, not_false_eq_true, true_and]
    cases hp : parseUint w digits 0 with
    | error e =>
      simp only
      constructor
      · intro h; cases h
      · rintro ⟨hdig, hn, hlo, hhi⟩
        exfalso
        have hv : decimalValue digits ≤ 2 ^ w - 1 := by
          cases neg <;> simp at hn <;> omega
        have := (parseUint_zero_ok_iff w digits hd (decimalValue digits)).mpr ⟨hdig, rfl, hv⟩
        rw [hp] at this
        cases this
    | ok un =>
      obtain ⟨hdig, hun, _⟩ := (parseUint_zero_ok_iff w digits hd un).mp hp
      subst hun
      simp only
      cases neg with
      | true =>
        simp only [if_true]
        by_cases hb : decimalValue digits > P
        · rw [if_pos hb]
          constructor
          · intro h; cases h
          · rintro ⟨_, hn, hlo, _⟩
            omega
        · rw [if_neg hb]
          constructor
          · intro h
            have hn : n = -(decimalValue digits : Int) := by cases h; rfl
            exact ⟨hdig, hn, by omega, by omega⟩
          · rintro ⟨_, hn, _, _⟩
            rw [hn]
      | false =>
        simp only [Bool.false_eq_true, if_false]
        by_cases hb : decimalValue digits ≥ P
        · rw [if_pos hb]
          constructor
          · intro h; cases h
          · rintro ⟨_, hn, _, hhi⟩
            omega
        · rw [if_neg hb]
          constructor
          · intro h
            have hn : n = (decimalValue digits : Int) := by cases h; rfl
            exact ⟨hdig, hn, by omega, by omega⟩
          · rintro ⟨_, hn, _, _⟩
            rw [hn]

/-- `Atoi` succeeds with `n` exactly on the decimal numerals of `n`. -/
theorem Atoi_ok_iff (w : Nat) (hw : 0 < w) (s : List Char) (n : Int) :
    Atoi w s = .ok n ↔ IsNumeral w s n := by
  cases s with
  | nil =>
    constructor
    · intro h; simp [Atoi] at h
    · rintro ⟨sign, digits, hs, _, hd, _⟩
      have := List.append_eq_nil.mp hs.symm
      exact absurd this.2 hd
  | cons c rest =>
    by_cases hplus : c = '+'
    · subst hplus
      simp only [Atoi, if_true]
      rw [atoiSigned_ok_iff w hw]
      constructor
      · rintro ⟨hd, hdig, hn, hlo, hhi⟩
        exact ⟨['+'], rest, rfl, Or.inr (Or.inl rfl), hd, hdig, by simpa using hn, hlo, hhi⟩
      · rintro ⟨sign, digits, hs, hsign, hd, hdig, hn, hlo, hhi⟩
        rcases hsign with h | h | h
        · subst h
          simp only [List.nil_append] at hs
          subst hs
          have := hdig '+' (List.mem_cons_self _ _)
          simp at this
        · subst h
          simp only [List.cons_append, List.nil_append, List.cons.injEq, true_and] at hs
          subst hs
          exact ⟨hd, hdig, by simpa using hn, hlo, hhi⟩
        · subst h
          simp at hs
    · by_cases hminus : c = '-'
      · subst hminus
        simp only [Atoi, hplus, if_false, if_true]
        rw [atoiSigned_ok_iff w hw]
        constructor
        · rintro ⟨hd, hdig, hn, hlo, hhi⟩
          exact ⟨['-'], rest, rfl, Or.inr (Or.inr rfl), hd, hdig, by simpa using hn, hlo, hhi⟩
        · rintro ⟨sign, digits, hs, hsign, hd, hdig, hn, hlo, hhi⟩
          rcases hsign with h | h | h
          · subst h
            simp only [List.nil_append] at hs
            subst hs
            have := hdig '-' (List.mem_cons_self _ _)
            simp at this
          · subst h
            simp at hs
          · subst h
            simp only [List.cons_append, List.nil_append, List.cons.injEq, true_and] at hs
            subst hs
            exact ⟨hd, hdig, by simpa using hn, hlo, hhi⟩
      · simp only [Atoi, hplus, hminus, if_false]
        rw [atoiSigned_ok_iff w hw]
        constructor
        · rintro ⟨hd, hdig, hn, hlo, hhi⟩
          exact ⟨[], c :: rest, rfl, Or.inl rfl, hd, hdig, by simpa using hn, hlo, hhi⟩
        · rintro ⟨sign, digits, hs, hsign, hd, hdig, hn, hlo, hhi⟩
          rcases hsign with h | h | h
          · subst h
            simp only [List.nil_append] at hs
            subst hs
            exact ⟨hd, hdig, by simpa using hn, hlo, hhi⟩
          · subst h
            simp only [List.cons_append, List.nil_append, List.cons.injEq] at hs
            exact absurd hs.1 hplus
          · subst h
            simp only [List.cons_append, List.nil_append, List.cons.injEq] at hs
            exact absurd hs.1 hminus

/-- The error of `Atoi` names the rejected input. -/
theorem Atoi_error_num (w : Nat) (s : List Char) (err : NumError)
    (h : Atoi w s = .error err) : err.Num = s := by
  have key : ∀ neg digits, atoiSigned w s neg digits = .error err → err.Num = s := by
    intro neg digits hs
    unfold atoiSigned at hs
    split at hs
    · cases hs; rfl
    · split at hs
      · cases hs; rfl
      · split at hs
        · split at hs
          · cases hs; rfl
          · cases hs
        · split at hs
          · cases hs; rfl
          · cases hs
  cases s with
  | nil => simp only [Atoi] at h; cases h; rfl
  | cons c rest =>
    simp only [Atoi] at h
    split at h
    · exact key _ _ h
    · split at h
      · exact key _ _ h
      · exact key _ _ h

/-! ## The loop of `parsePorts` -/

/-- When `Atoi` accepts every part, the loop returns the slice extended by the values,
in order, and no error. -/
theorem parseParts_ok (w : Nat) (parts : List (List Char)) (ns acc : List Int)
    (h : List.Forall₂ (fun p n => Atoi w p = .ok n) parts ns) :
    parseParts w parts acc = (some (acc ++ ns), none) := by
  induction h generalizing acc with
  | nil => simp [parseParts]
  | cons hp _ ih =>
    simp only [parseParts, hp]
    rw [ih]
    simp

/-- When `Atoi` rejects some part, the loop returns a nil slice and the error of the
first rejected part. -/
theorem parseParts_error (w : Nat) (parts : List (List Char)) (acc : List Int)
    (h : ∃ p ∈ parts, ∃ e, Atoi w p = .error e) :
    ∃ err, parseParts w parts acc = (none, some err) ∧
      ∃ p ∈ parts, Atoi w p = .error err := by
  induction parts generalizing acc with
  | nil => obtain ⟨p, hp, _⟩ := h; simp at hp
  | cons q rest ih =>
    cases hq : Atoi w q with
    | error e =>
      exact ⟨e, by simp [parseParts, hq], q, List.mem_cons_self _ _, hq⟩
    | ok port =>
      have hrest : ∃ p ∈ rest, ∃ e, Atoi w p = .error e := by
        obtain ⟨p, hp, e, he⟩ := h
        rcases List.mem_cons.mp hp with hp | hp
        · subst hp; rw [hq] at he; cases he
        · exact ⟨p, hp, e, he⟩
      obtain ⟨err, h1, p, hp, h2⟩ := ih (acc ++ [port]) hrest
      exact ⟨err, by simp [parseParts, hq, h1], p, List.mem_cons_of_mem _ hp, h2⟩

/-- The loop returns either a slice and no error or no slice and an error; a returned
slice has one more element for each part. -/
theorem parseParts_cases (w : Nat) (parts : List (List Char)) (acc : List Int) :
    (∃ ports, parseParts w parts acc = (some ports, none) ∧
        ports.length = acc.length + parts.length) ∨
      ∃ err, parseParts w parts acc = (none, some err) := by
  induction parts generalizing acc with
  | nil => exact Or.inl ⟨acc, rfl, by simp⟩
  | cons q rest ih =>
    cases hq : Atoi w q with
    | error e => exact Or.inr ⟨e, by simp [parseParts, hq]⟩
    | ok port =>
      rcases ih (acc ++ [port]) with ⟨ports, h1, h2⟩ | ⟨err, h1⟩
      · refine Or.inl ⟨ports, by simp [parseParts, hq, h1], ?_⟩
        rw [h2]; simp; omega
      · exact Or.inr ⟨err, by simp [parseParts, hq, h1]⟩

/-! ## C11: port-list parsing -/

/-- C11: `parsePorts(s)` splits `s` at every comma (the parts are comma-free, joined by
commas they give `s` back, and their number is the number of commas plus one).  If every
part is a decimal numeral of an `int` (optional sign, one or more digits, value within
the range of `int`), it returns no error and the list of those integers in the order of
the parts, of length the number of commas plus one.  If some part is no such numeral, it
returns an error, that of a malformed part, together with a nil slice.  No other result
is possible: never a slice together with an error. -/
theorem parsePorts_spec (w : Nat) (hw : 0 < w) (s : String) :
    (splitComma s.data).length = s.data.count ',' + 1 ∧
      joinComma (splitComma s.data) = s.data ∧
      (∀ p ∈ splitComma s.data, ',' ∉ p) ∧
      (∀ ns, List.Forall₂ (IsNumeral w) (splitComma s.data) ns →
        parsePorts w s = (some ns, none) ∧ ns.length = s.data.count ',' + 1) ∧
      ((∃ p ∈ splitComma s.data, ∀ n, ¬ IsNumeral w p n) →
        ∃ err, parsePorts w s = (none, some err) ∧ err.Num ∈ splitComma s.data ∧
          ∀ n, ¬ IsNumeral w err.Num n) ∧
      ((∃ ports, parsePorts w s = (some ports, none)) ∨
        ∃ err, parsePorts w s = (none, some err)) := by
  refine ⟨splitComma_length _, joinComma_splitComma _, splitComma_no_comma _, ?_, ?_, ?_⟩
  · intro ns hns
    have h2 : List.Forall₂ (fun p n => Atoi w p = .ok n) (splitComma s.data) ns :=
      hns.imp fun p n h => (Atoi_ok_iff w hw p n).mpr h
    refine ⟨?_, ?_⟩
    · unfold parsePorts
      rw [parseParts_ok w _ ns [] h2]
      rfl
    · rw [← hns.length_eq, splitComma_length]
  · rintro ⟨p, hp, hno⟩
    have herr : ∃ e, Atoi w p = .error e := by
      cases h : Atoi w p with
      | error e => exact ⟨e, rfl⟩
      | ok n => exact absurd ((Atoi_ok_iff w hw p n).mp h) (hno n)
    obtain ⟨err, h1, q, hq, h2⟩ := parseParts_error w (splitComma s.data) [] ⟨p, hp, herr⟩
    have hnum : err.Num = q := Atoi_error_num w q err h2
    refine ⟨err, h1, by rw [hnum]; exact hq, ?_⟩
    intro n hn
    rw [hnum] at hn
    have := (Atoi_ok_iff w hw q n).mpr hn
    rw [h2] at this
    cases this
  · rcases parseParts_cases w (splitComma s.data) [] with ⟨ports, h1, _⟩ | ⟨err, h1⟩
    · exact Or.inl ⟨ports, h1⟩
    · exact Or.inr ⟨err, h1⟩

/-- C11 at concrete inputs, for a 64-bit `int`: "80,-443" parses to 80, -443 and
"80,x" to an error with a nil slice. -/
theorem parsePorts_spec_witness :
    (0 < 64) ∧ parsePorts 64 "80,-443" = (some [80, -443], none) ∧
      ∃ err, parsePorts 64 "80,x" = (none, some err) ∧
        err.Num ∈ splitComma "80,x".data ∧ ∀ n, ¬ IsNumeral 64 err.Num n :=
  ⟨by decide,
    ((parsePorts_spec 64 (by decide) "80,-443").2.2.2.1 [80, -443]
      (List.Forall₂.cons ((Atoi_ok_iff 64 (by decide) ['8', '0'] 80).mp rfl)
        (List.Forall₂.cons ((Atoi_ok_iff 64 (by decide) ['-', '4', '4', '3'] (-443)).mp rfl)
          List.Forall₂.nil))).1,
    (parsePorts_spec 64 (by decide) "80,x").2.2.2.2.1
      ⟨['x'], by decide, fun n hn => by
        have := (Atoi_ok_iff 64 (by decide) ['x'] n).mpr hn
        simp [Atoi, atoiSigned, parseUint, digitValue] at this⟩⟩

/-! ## Decimal renderings -/

theorem digitChar_toNat (d : Nat) (hd : d < 10) : (digitChar d).toNat = 48 + d := by
  interval_cases d <;> rfl

theorem digitChar_digit (d : Nat) (hd : d < 10) :
    48 ≤ (digitChar d).toNat ∧ (digitChar d).toNat ≤ 57 := by
  rw [digitChar_toNat d hd]; omega

theorem digitChar_ne_comma (d : Nat) (hd : d < 10) : digitChar d ≠ ',' := by
  intro h
  have := digitChar_toNat d hd
  rw [h] at this
  have h44 : (',' : Char).toNat = 44 := rfl
  omega

theorem foldr_digits_eq_ofDigits (L : List Nat) :
    L.foldr (fun d a => a * 10 + d) 0 = Nat.ofDigits 10 L := by
  induction L with
  | nil => rfl
  | cons d L ih =>
    rw [List.foldr_cons, ih, Nat.ofDigits_cons]
    omega

theorem decimalValue_map_digitChar (L : List Nat) (hL : ∀ d ∈ L, d < 10) :
    decimalValue (L.map digitChar) = L.foldl (fun n d => n * 10 + d) 0 := by
  unfold decimalValue
  generalize (0 : Nat) = a
  induction L generalizing a with
  | nil => rfl
  | cons d L ih =>
    simp only [List.map_cons, List.foldl_cons]
    rw [digitChar_toNat d (hL d (List.mem_cons_self _ _))]
    rw [ih (fun x hx => hL x (List.mem_cons_of_mem _ hx))]
    congr 1
    omega

theorem digits_lt_ten (n d : Nat) (hd : d ∈ Nat.digits 10 n) : d < 10 :=
  Nat.digits_lt_base (by decide) hd

/-- The decimal rendering of a natural number has that number as value. -/
theorem decimalValue_decimal (n : Nat) : decimalValue (decimal n) = n := by
  unfold decimal
  split
  · next h => subst h; rfl
  · rw [decimalValue_map_digitChar _ (fun d hd => digits_lt_ten n d (List.mem_reverse.mp hd)),
      List.foldl_reverse, foldr_digits_eq_ofDigits, Nat.ofDigits_digits]

theorem decimal_ne_nil (n : Nat) : decimal n ≠ [] := by
  unfold decimal
  split
  · simp
  · next h =>
    intro hnil
    have : Nat.digits 10 n = [] := by simpa using hnil
    exact h (Nat.digits_eq_nil_iff_eq_zero.mp this)

theorem decimal_digits (n : Nat) : ∀ c ∈ decimal n, 48 ≤ c.toNat ∧ c.toNat ≤ 57 := by
  unfold decimal
  split
  · intro c hc
    simp only [List.mem_singleton] at hc
    subst hc
    decide
  · intro c hc
    obtain ⟨d, hd, rfl⟩ := List.mem_map.mp hc
    exact digitChar_digit d (digits_lt_ten n d (List.mem_reverse.mp hd))

theorem decimal_no_comma (n : Nat) : ',' ∉ decimal n := by
  intro h
  have := decimal_digits n ',' h
  have h44 : (',' : Char).toNat = 44 := rfl
  omega

theorem Itoa_no_comma (n : Int) : ',' ∉ Itoa n := by
  unfold Itoa
  split
  · intro h
    rcases List.mem_cons.mp h with h | h
    · exact absurd h (by decide)
    · exact decimal_no_comma _ h
  · exact decimal_no_comma _

/-- The decimal rendering of an `int` is a decimal numeral of it. -/
theorem Itoa_isNumeral (w : Nat) (n : Int)
    (hn : -(2 ^ (w - 1) : Int) ≤ n ∧ n < 2 ^ (w - 1)) : IsNumeral w (Itoa n) n := by
  unfold Itoa
  by_cases hneg : n < 0
  · simp only [hneg, if_true]
    refine ⟨['-'], decimal n.natAbs, rfl, Or.inr (Or.inr rfl), decimal_ne_nil _,
      decimal_digits _, ?_, hn.1, hn.2⟩
    simp only [if_true, decimalValue_decimal]
    omega
  · simp only [hneg, if_false]
    refine ⟨[], decimal n.toNat, rfl, Or.inl rfl, decimal_ne_nil _, decimal_digits _, ?_,
      hn.1, hn.2⟩
    have : ([] : List Char) ≠ ['-'] := by simp
    simp only [this, if_false, decimalValue_decimal]
    omega

/-! ## C18: the round trip of `parsePorts` -/

/-- C18: for every non-empty list `ps` of `int`s, `parsePorts` applied to the decimal
renderings of `ps` joined by "," returns `ps` and no error; for the empty string
`parsePorts` returns an error (a syntax error on the empty part) and a nil slice; and no
input string parses to the empty list. -/
theorem parsePorts_roundtrip (w : Nat) (hw : 0 < w) :
    (∀ ps : List Int, ps ≠ [] →
        (∀ n ∈ ps, -(2 ^ (w - 1) : Int) ≤ n ∧ n < 2 ^ (w - 1)) →
        parsePorts w (String.mk (joinComma (ps.map Itoa))) = (some ps, none)) ∧
      parsePorts w "" =
        (none, some { Func := "Atoi", Num := [], Err := .invalidSyntax }) ∧
      ∀ s, parsePorts w s ≠ (some [], none) := by
  refine ⟨?_, rfl, ?_⟩
  · intro ps hne hrange
    unfold parsePorts
    have hsplit : splitComma (joinComma (ps.map Itoa)) = ps.map Itoa :=
      splitComma_joinComma _ (by simpa using hne) (by
        intro p hp
        obtain ⟨n, _, rfl⟩ := List.mem_map.mp hp
        exact Itoa_no_comma n)
    show parseParts w (splitComma (joinComma (ps.map Itoa))) [] = _
    rw [hsplit]
    have hall : List.Forall₂ (fun p n => Atoi w p = .ok n) (ps.map Itoa) ps := by
      rw [List.forall₂_map_left_iff]
      exact List.forall₂_same.mpr fun n hn =>
        (Atoi_ok_iff w hw _ n).mpr (Itoa_isNumeral w n (hrange n hn))
    rw [parseParts_ok w _ ps [] hall]
    rfl
  · intro s h
    unfold parsePorts at h
    rcases parseParts_cases w (splitComma s.data) [] with ⟨ports, h1, h2⟩ | ⟨err, h1⟩
    · rw [h1] at h
      have hp : ports = [] := by
        have := congrArg Prod.fst h
        simpa using this
      subst hp
      have hlen := splitComma_length s.data
      simp only [List.length_nil, Nat.zero_add] at h2
      rw [hlen] at h2
      exact absurd h2 (Nat.succ_ne_zero _).symm
    · rw [h1] at h
      cases h

/-- C18 at a concrete input, for a 64-bit `int`: the ports 80, -443 and 0. -/
theorem parsePorts_roundtrip_witness :
    (0 < 64) ∧
      parsePorts 64 (String.mk (joinComma ([80, -443, 0].map Itoa))) =
        (some [80, -443, 0], none) :=
  ⟨by decide, (parsePorts_roundtrip 64 (by decide)).1 [80, -443, 0] (by simp) (by
    intro n hn
    simp only [List.mem_cons, List.mem_singleton, List.not_mem_nil, or_false] at hn
    rcases hn with rfl | rfl | rfl <;> norm_num)⟩

/-! ## C15: the round trip of an HTTP port -/

/-- C15, on the collaborator as modelled from the spec: after `AddHTTPPort(p)` returns no
error a GET on port `p` succeeds with status 200 and body "OK", and after
`RemoveHTTPPort(p)` then returns no error a GET on the same port fails; on a free port
both calls do return no error. -/
theorem http_port_roundtrip (st : HTTPState) (p : Nat) :
    ((AddHTTPPort p st).2 = none →
        httpGet (AddHTTPPort p st).1 p = .ok (200, "OK") ∧
        ((RemoveHTTPPort p (AddHTTPPort p st).1).2 = none →
          ∃ e, httpGet (RemoveHTTPPort p (AddHTTPPort p st).1).1 p = .error e)) ∧
      (p ∉ st.serving →
        (AddHTTPPort p st).2 = none ∧ (RemoveHTTPPort p (AddHTTPPort p st).1).2 = none) := by
  by_cases hp : p ∈ st.serving
  · simp [AddHTTPPort, hp]
  · simp [AddHTTPPort, RemoveHTTPPort, httpGet, hp]

/-- C15 at the input of `TestHTTPListener`: port 8000, nothing served before. -/
theorem http_port_roundtrip_witness :
    (8000 ∉ ({ serving := [] } : HTTPState).serving) ∧
      (AddHTTPPort 8000 { serving := [] }).2 = none ∧
      httpGet (AddHTTPPort 8000 { serving := [] }).1 8000 = .ok (200, "OK") ∧
      (RemoveHTTPPort 8000 (AddHTTPPort 8000 { serving := [] }).1).2 = none ∧
      ∃ e, httpGet (RemoveHTTPPort 8000 (AddHTTPPort 8000 { serving := [] }).1).1 8000 =
        .error e :=
  have h := http_port_roundtrip { serving := [] } 8000
  have hfree : 8000 ∉ ({ serving := [] } : HTTPState).serving := by simp
  ⟨hfree, (h.2 hfree).1, (h.1 (h.2 hfree).1).1, (h.2 hfree).2,
    (h.1 (h.2 hfree).1).2 (h.2 hfree).2⟩

end LineSpeedLB
